import Mathlib

/-!
Verification development for the AndroCFG smali-to-program-graph extractor.

The definitions below are a shallow embedding of the Python sources:
`structures.py` (IR model and resolvers), `process_instruction.py` (line
parser), `extract.py` (driver loop), and `output_graph.py` (feature vectors
and COO serializers).  Python exceptions (AttributeError on `None` access,
IndexError, KeyError) are modelled with `Except String`; mutable object
state is threaded explicitly.  Entity names follow the source.
-/

namespace AndroCFG

/-- Word used as the boolean truth test in python membership checks:
`startsWithList pat s` is true when `pat` is an initial segment of `s`. -/
def startsWithList : List Char → List Char → Bool
  | [], _ => true
  | _ :: _, [] => false
  | p :: ps, c :: cs => p == c && startsWithList ps cs

/-- Occurrence test on char lists: true when `pat` occurs contiguously in `s`
(`pat in s` in python). -/
def containsList (pat : List Char) : List Char → Bool
  | [] => pat.isEmpty
  | c :: cs => startsWithList pat (c :: cs) || containsList pat cs

/-- Python `pat in s` substring test. -/
def strIn (pat s : String) : Bool := containsList pat.data s.data

/-- The characters python `str.strip()` removes. -/
def isPySpace (c : Char) : Bool :=
  c == ' ' || c == '\t' || c == '\n' || c == '\r' || c == '\x0b' || c == '\x0c'

/-- Python `s.strip()`. -/
def pyStrip (s : String) : String :=
  String.mk (((s.data.dropWhile isPySpace).reverse.dropWhile isPySpace).reverse)

/-- Fuel-driven splitting of a char list at every occurrence of a nonempty
separator (the fuel is an upper bound on the list length, so it never runs
out when called through `pySplit`). -/
def splitSepFuel (sep : List Char) : Nat → List Char → List (List Char)
  | _, [] => [[]]
  | 0, s => [s]
  | fuel + 1, c :: cs =>
    if startsWithList sep (c :: cs) then
      [] :: splitSepFuel sep fuel (List.drop sep.length (c :: cs))
    else
      match splitSepFuel sep fuel cs with
      | [] => [[c]]
      | r :: rs => (c :: r) :: rs

/-- Python `s.split(sep)` for a nonempty separator. -/
def pySplit (s sep : String) : List String :=
  if sep.data.isEmpty then [s]
  else (splitSepFuel sep.data s.data.length s.data).map String.mk

/-- Prefix test on strings (the prefix-anchored `op_map` regexes). -/
def strStartsWith (s pre : String) : Bool := startsWithList pre.data s.data

/-- Python `s[n:]`. -/
def strDrop (s : String) (n : Nat) : String := String.mk (s.data.drop n)

/-- Enumerate a list of lines starting at a given line number
(python `enumerate(smali_instructions, 1)`). -/
def enumFrom (n : Nat) : List String → List (Nat × String)
  | [] => []
  | l :: ls => (n, l) :: enumFrom (n + 1) ls

/-- Replace the element at an index, leaving the list unchanged when the
index is out of range. -/
def listModify (f : α → α) : Nat → List α → List α
  | _, [] => []
  | 0, a :: as => f a :: as
  | n + 1, a :: as => a :: listModify f n as

/-- Python `", ".join(...)`-style join. -/
def strJoin (sep : String) : List String → String
  | [] => ""
  | [s] => s
  | s :: rest => s ++ sep ++ strJoin sep rest

/-- Python `s.replace(pat, repl)` for a nonempty pattern: replace every
non-overlapping occurrence from the left. -/
def pyReplace (s pat repl : String) : String :=
  if pat.data.isEmpty then s else strJoin repl (pySplit s pat)

/-- Python `str` of a list of integers, e.g. `[1, 2]`. -/
def pyListStr (l : List Int) : String :=
  "[" ++ strJoin ", " (l.map toString) ++ "]"

/-- Python `str` of a list of lists of integers. -/
def pyListListStr (l : List (List Int)) : String :=
  "[" ++ strJoin ", " (l.map pyListStr) ++ "]"

/-- Instruction record (`structures.py`, class `Instruction`). -/
structure Instruction where
  instruction : String
  itype : String
  instr_id : Nat
  line_num : Nat
  method_id : Nat
  class_id : Nat
  block_id : Nat
  deriving Repr, DecidableEq, Inhabited

/-- Basic block record (`structures.py`, class `BasicBlock`).  The
`unresolved_calls` list of line numbers is carried for fidelity although the
pipeline never appends to it. -/
structure BasicBlock where
  block_id : Nat
  instructions : List Instruction
  parent_block_ids : List Nat
  child_block_ids : List Nat
  unresolved_calls : List Nat
  deriving Repr, DecidableEq, Inhabited

/-- Constructor `BasicBlock(block_id, leader)`. -/
def mkBasicBlock (block_id : Nat) (leader : Instruction) : BasicBlock :=
  { block_id := block_id, instructions := [leader], parent_block_ids := [],
    child_block_ids := [], unresolved_calls := [] }

/-- Method `BasicBlock.add_instruction`. -/
def BasicBlock.add_instruction (b : BasicBlock) (i : Instruction) : BasicBlock :=
  { b with instructions := b.instructions ++ [i] }

/-- Method `BasicBlock.add_parent_block_id`. -/
def BasicBlock.add_parent_block_id (b : BasicBlock) (parent_id : Nat) : BasicBlock :=
  { b with parent_block_ids := b.parent_block_ids ++ [parent_id] }

/-- Method `BasicBlock.add_child_block_id`. -/
def BasicBlock.add_child_block_id (b : BasicBlock) (child_id : Nat) : BasicBlock :=
  { b with child_block_ids := b.child_block_ids ++ [child_id] }

/-- Method record (`structures.py`, class `Method`).  The python attribute
`annotation` is called `annot_lines` here; `label_aliases` is the insertion
ordered dictionary of switch-label aliases, modelled as an association
list. -/
structure Method where
  method_id : Nat
  method_name : String
  return_type : String
  param_types : List String
  basic_blocks : List BasicBlock
  calls_out : List Nat
  calls_in : List Nat
  annot_lines : List String
  label_calls : List (String × Nat)
  previous_label : Option String
  label_aliases : List (String × List String)
  deriving Repr, DecidableEq, Inhabited

/-- Static method `Method.process_method_directive`: split the directive on
spaces, take the trailing `name(params)ret` token, split it at the
parentheses (python `re.split("\\(|\\)", ...)`), and split the parameter
string on `;`.  Python raises IndexError when the parentheses are missing;
that out-of-scope case is modelled by defaulting to `""`. -/
def process_method_directive (instr : String) : String × List String × String :=
  let directive_fragments := pySplit instr " "
  let name_param_type_info := directive_fragments.getLastD ""
  let npt_fragments := (pySplit name_param_type_info "(").flatMap (fun s => pySplit s ")")
  let method_name := npt_fragments.getD 0 ""
  let param_types := npt_fragments.getD 1 ""
  let return_type := npt_fragments.getD 2 ""
  (method_name, pySplit param_types ";", return_type)

/-- Constructor `Method(method_id, method_instr)`. -/
def mkMethod (method_id : Nat) (method_instr : String) : Method :=
  let (method_name, param_types, return_type) := process_method_directive method_instr
  { method_id := method_id, method_name := method_name,
    return_type := return_type, param_types := param_types,
    basic_blocks := [], calls_out := [], calls_in := [], annot_lines := [],
    label_calls := [], previous_label := none, label_aliases := [] }

/-- Method `Method.add_basic_block`. -/
def Method.add_basic_block (m : Method) (b : BasicBlock) : Method :=
  { m with basic_blocks := m.basic_blocks ++ [b] }

/-- Method `Method.add_call_out`. -/
def Method.add_call_out (m : Method) (target_method_id : Nat) : Method :=
  { m with calls_out := m.calls_out ++ [target_method_id] }

/-- Method `Method.add_call_in`. -/
def Method.add_call_in (m : Method) (source_method_id : Nat) : Method :=
  { m with calls_in := m.calls_in ++ [source_method_id] }

/-- Method `Method.add_annotation` (field renamed, see `Method`). -/
def Method.add_annot (m : Method) (line : String) : Method :=
  { m with annot_lines := m.annot_lines ++ [line] }

/-- Method `Method.add_label_call`: the stored label is the last
space-separated token of the instruction. -/
def Method.add_label_call (m : Method) (instr : String) (b_id : Nat) : Method :=
  let label_name := (pySplit instr " ").getLastD ""
  { m with label_calls := m.label_calls ++ [(label_name, b_id)] }

/-- Dictionary lookup in the `label_aliases` association list. -/
def aliasGet (d : List (String × List String)) (k : String) : Option (List String) :=
  match d.find? (fun p => p.1 == k) with
  | some p => some p.2
  | none => none

/-- Dictionary store `d[k] = v` preserving insertion order. -/
def aliasSet (d : List (String × List String)) (k : String) (v : List String) :
    List (String × List String) :=
  if (d.find? (fun p => p.1 == k)).isSome then
    d.map (fun p => if p.1 == k then (p.1, v) else p)
  else d ++ [(k, v)]

/-- Smali class record (`structures.py`, class `SmaliClass`).  The python
lists `annotations` and `fields` are extended character by character
(python `list += str`), so they are modelled as `List Char`. -/
structure SmaliClass where
  class_name : String
  class_path : String
  class_id : Nat
  super_class : String
  source : Option String
  annotations : List Char
  fields : List Char
  methods : List Method
  invocations_local : List (Nat × Nat × String)
  invocations_global : List (Nat × Nat × String × String)
  invocations_lib : List (Nat × Nat × String × String)
  deriving Repr, DecidableEq, Inhabited

/-- Static method `SmaliClass.process_class_header`: last space-separated
token, split on `/`; the final fragment with `;` removed is the short name,
the other fragments joined by `/` are the path. -/
def process_class_header (class_header : String) : String × String :=
  let class_name_and_path := (pySplit class_header " ").getLastD ""
  let class_path_fragments := pySplit class_name_and_path "/"
  let class_name := pyReplace (class_path_fragments.getLastD "") ";" ""
  let class_path := strJoin "/" (class_path_fragments.take (class_path_fragments.length - 1))
  (class_name, class_path)

/-- Constructor `SmaliClass(class_id, class_header)`. -/
def mkSmaliClass (class_id : Nat) (class_header : String) : SmaliClass :=
  let (class_name, class_path) := process_class_header class_header
  { class_name := class_name, class_path := class_path, class_id := class_id,
    super_class := "", source := none, annotations := [], fields := [],
    methods := [], invocations_local := [], invocations_global := [],
    invocations_lib := [] }

/-- Method `SmaliClass.add_annotation` (python extends the list with the
characters of the line). -/
def SmaliClass.add_annot (c : SmaliClass) (line : String) : SmaliClass :=
  { c with annotations := c.annotations ++ line.data }

/-- Method `SmaliClass.add_field` (same character-extension as above). -/
def SmaliClass.add_field (c : SmaliClass) (line : String) : SmaliClass :=
  { c with fields := c.fields ++ line.data }

/-- Method `SmaliClass.add_method`. -/
def SmaliClass.add_method (c : SmaliClass) (m : Method) : SmaliClass :=
  { c with methods := c.methods ++ [m] }

/-- Method `SmaliClass.add_super`. -/
def SmaliClass.add_super (c : SmaliClass) (instr : String) : SmaliClass :=
  { c with super_class := pyReplace ((pySplit instr " ").getLastD "") ";" "" }

/-- Method `SmaliClass.add_source`. -/
def SmaliClass.add_source (c : SmaliClass) (instr : String) : SmaliClass :=
  { c with source := some (pyReplace ((pySplit instr " ").getLastD "") "\"" "") }

/-- Global parser state (`structures.py`, class `Graph`).  The file queue
holds file names; the python wrapper class `FileItem` is not part of the
provided sources and is modelled from the spec as a named queue entry whose
membership test compares names.  The unused attributes `ambiguous_calls`
and `method_lookup` are omitted. -/
structure Graph where
  file_list : List String
  class_id : Nat
  method_id : Nat
  block_id : Nat
  instruction_id : Nat
  classes : List SmaliClass
  active_class : Option SmaliClass
  active_method : Option Method
  active_block : Option BasicBlock
  ANNOTATION_FLAG : Bool
  FIELD_FLAG : Bool
  SWITCH_FLAG : Bool
  METHOD_FLAG : Bool
  block_term : Bool
  deriving Repr, Inhabited

/-- Constructor `Graph(file_list)`. -/
def initGraph (file_list : List String) : Graph :=
  { file_list := file_list, class_id := 0, method_id := 0, block_id := 0,
    instruction_id := 0, classes := [], active_class := none,
    active_method := none, active_block := none, ANNOTATION_FLAG := false,
    FIELD_FLAG := false, SWITCH_FLAG := false, METHOD_FLAG := false,
    block_term := true }

/-- Method `Graph.add_class`. -/
def Graph.add_class (g : Graph) (c : SmaliClass) : Graph :=
  { g with classes := g.classes ++ [c] }

/-- Target-class extraction used by `SmaliClass.add_invocation`: python
searches `invoke_class_regex` (a whitespace, an `L`-rooted slash-separated
token, then `;->`), takes the matched text, strips it and deletes `;->`.
This definition is faithful for invoke instructions of the usual shape
(a single `;->` preceded by a space-delimited `L.../...` token); a failed
search (python AttributeError on `None.group`) is `none`. -/
def extract_target_class (instr : String) : Option String :=
  if strIn ";->" instr then
    let before := ((pySplit instr ";->").headD "")
    let tok := (pySplit before " ").getLastD ""
    if strStartsWith tok "L" && strIn "/" tok then some tok else none
  else none

/-- Target-method extraction in `SmaliClass.add_invocation`:
`instr.split("->")[-1].strip()`. -/
def extract_target_method (instr : String) : String :=
  pyStrip ((pySplit instr "->").getLastD "")

/-- Method `SmaliClass.add_invocation`: classify an invoke instruction as
local (same class, `invoke-direct` only), global (target contains `Lcom`
and the source's second path segment) or library, recording the call and,
for global calls, appending `smali/<target>.smali` to the file queue when
absent.  Python raises IndexError when the source path has fewer than two
segments and AttributeError when the regex search fails. -/
def SmaliClass.add_invocation (c : SmaliClass) (instr : String)
    (method_id block_id : Nat) (state_file_list : List String) :
    Except String (SmaliClass × List String) :=
  match extract_target_class instr with
  | none => .error "AttributeError: NoneType object has no attribute group"
  | some target_class =>
    let target_method := extract_target_method instr
    let parts := pySplit c.class_path "/"
    if parts.length < 2 then
      .error "IndexError: list index out of range"
    else
      let app_top_level := parts.getD 1 ""
      if c.class_path ++ "/" ++ c.class_name == target_class then
        if strIn "invoke-direct" instr then
          .ok ({ c with invocations_local :=
                  c.invocations_local ++ [(method_id, block_id, target_method)] },
               state_file_list)
        else
          .ok (c, state_file_list)
      else if strIn "Lcom" target_class && strIn app_top_level target_class then
        let c := { c with invocations_global :=
                    c.invocations_global ++ [(method_id, block_id, target_class, target_method)] }
        let class_to_add := "smali/" ++ (strDrop target_class 1) ++ ".smali"
        let fl := if state_file_list.contains class_to_add then state_file_list
                  else state_file_list ++ [class_to_add]
        .ok (c, fl)
      else
        .ok ({ c with invocations_lib :=
                c.invocations_lib ++ [(method_id, block_id, target_class, target_method)] },
             state_file_list)

/-- Method `Method.resolve_labels`: expand each pending `(label, caller)`
through the alias table, then for each expanded pair connect the first
block whose leader text equals the label to the caller block.  Failures are
logged only; the returned report list is never appended to. -/
def Method.resolve_labels (m : Method) : Method × List String :=
  let expanded_calls := m.label_calls.flatMap (fun lc =>
    match aliasGet m.label_aliases lc.1 with
    | some aliases => aliases.map (fun a => (a, lc.2))
    | none => [lc])
  let blocks := expanded_calls.foldl (fun (bs : List BasicBlock) lc =>
    match bs.findIdx? (fun b => (b.instructions.headD default).instruction == lc.1) with
    | some ti =>
      match bs.findIdx? (fun b => b.block_id == lc.2) with
      | some si =>
        let tid := (bs.getD ti default).block_id
        let bs := listModify (fun b => b.add_child_block_id tid) si bs
        listModify (fun b => b.add_parent_block_id lc.2) ti bs
      | none => bs
    | none => bs) m.basic_blocks
  ({ m with basic_blocks := blocks }, [])

/-- Function `terminate_and_start_block` in `process_instruction.py`: push
the active block (recording the parent/child pair with the block about to
be created) and start a new block led by `instruction`. -/
def terminate_and_start_block (state : Graph) (instruction : Instruction) :
    Except String Graph :=
  match state.active_block with
  | some b =>
    match state.active_method with
    | none => .error "AttributeError: NoneType object has no attribute add_basic_block"
    | some m =>
      let b := b.add_child_block_id state.block_id
      let parent_id := b.block_id
      let m := m.add_basic_block b
      let nb := (mkBasicBlock state.block_id instruction).add_parent_block_id parent_id
      .ok { state with active_method := some m, active_block := some nb,
                       block_term := false, block_id := state.block_id + 1 }
  | none =>
    let nb := mkBasicBlock state.block_id instruction
    .ok { state with active_block := some nb, block_term := false,
                     block_id := state.block_id + 1 }

/-- Append `instruction` to the active block, or terminate and start a new
block when the termination flag is set (the common tail of the `return`,
`goto`, `if`, `invoke`, `method_end` and fallthrough branches). -/
def append_or_start (state : Graph) (instruction : Instruction) :
    Except String Graph :=
  if state.block_term then terminate_and_start_block state instruction
  else
    match state.active_block with
    | some b => .ok { state with active_block := some (b.add_instruction instruction) }
    | none => .error "AttributeError: NoneType object has no attribute add_instruction"

/-- Build an instruction record (constructor `Instruction(...)`). -/
def mkInstr (instr itype : String) (instr_id line_num method_id class_id block_id : Nat) :
    Instruction :=
  { instruction := instr, itype := itype, instr_id := instr_id,
    line_num := line_num, method_id := method_id, class_id := class_id,
    block_id := block_id }

/-- Annotation region of `process_instruction` (`process_instruction.py`
lines 110-123): while `ANNOTATION_FLAG` is set every line is recorded as an
annotation of the active method, field owner, or class. -/
def process_region_annotation (instr : String) (state : Graph) :
    Except String Graph :=
  if state.METHOD_FLAG then
    match state.active_method with
    | some m => .ok { state with active_method := some (m.add_annot instr) }
    | none => .error "AttributeError: NoneType object has no attribute add_annotation"
  else if state.FIELD_FLAG then
    match state.active_class with
    | some c => .ok { state with active_class := some (c.add_field instr) }
    | none => .error "AttributeError: NoneType object has no attribute add_field"
  else
    match state.active_class with
    | some c => .ok { state with active_class := some (c.add_annot instr) }
    | none => .error "AttributeError: NoneType object has no attribute add_annotation"

/-- Field region of `process_instruction` (lines 124-127). -/
def process_region_field (instr : String) (state : Graph) :
    Except String Graph :=
  match state.active_class with
  | some c => .ok { state with active_class := some (c.add_field instr) }
  | none => .error "AttributeError: NoneType object has no attribute add_field"

/-- Switch-data region of `process_instruction` (lines 129-156). -/
def process_region_switch (instr : String) (state : Graph) :
    Except String Graph :=
  if strStartsWith instr ".packed-switch" || strStartsWith instr ".sparse-switch" then
    match state.active_method with
    | none => .error "AttributeError: NoneType object has no attribute previous_label"
    | some m =>
      match state.active_block with
      | none => .error "AttributeError: NoneType object has no attribute instructions"
      | some b =>
        match b.instructions.getLast? with
        | none => .error "IndexError: list index out of range"
        | some li =>
          let m := { m with previous_label := some li.instruction,
                            label_aliases := aliasSet m.label_aliases li.instruction [] }
          .ok { state with active_method := some m, active_block := none }
  else if strStartsWith instr ":" then
    match state.active_method with
    | none => .error "AttributeError: NoneType object has no attribute label_aliases"
    | some m =>
      match m.previous_label with
      | none => .error "KeyError: None"
      | some pl =>
        match aliasGet m.label_aliases pl with
        | none => .error "KeyError"
        | some l =>
          let m := { m with label_aliases := aliasSet m.label_aliases pl (l ++ [instr]) }
          .ok { state with active_method := some m }
  else if strStartsWith instr ".end packed-switch" || strStartsWith instr ".end sparse-switch" then
    .ok state
  else
    .ok state

/-- Method region of `process_instruction` (lines 158-330): dispatch of the
`op_map` opcode prefixes while inside a `.method` body. -/
def process_region_method (instr : String) (line_num : Nat) (state : Graph) :
    Except String Graph :=
  if strStartsWith instr ".method" then
    match state.active_class with
    | none => .error "AttributeError: NoneType object has no attribute class_id"
    | some cls =>
      match state.active_method with
      | some prevm =>
        match state.active_block with
        | none =>
          .error "previous method flushed with no active block"
        | some pb =>
          let prevm := prevm.add_basic_block pb
          let cls := cls.add_method prevm
          let m0 := mkMethod state.method_id instr
          let instruction := mkInstr instr "method_start" state.instruction_id line_num
            m0.method_id cls.class_id state.block_id
          let block := mkBasicBlock (state.block_id + 1) instruction
          let m1 := mkMethod (state.method_id + 1) instr
          .ok { state with active_class := some cls, active_method := some m1,
                           active_block := some block, method_id := state.method_id + 2,
                           instruction_id := state.instruction_id + 1,
                           block_id := state.block_id + 2, block_term := false }
      | none =>
        let m0 := mkMethod state.method_id instr
        let instruction := mkInstr instr "method_start" state.instruction_id line_num
          m0.method_id cls.class_id state.block_id
        let block := mkBasicBlock (state.block_id + 1) instruction
        let m1 := mkMethod (state.method_id + 1) instr
        .ok { state with active_method := some m1, active_block := some block,
                         method_id := state.method_id + 2,
                         instruction_id := state.instruction_id + 1,
                         block_id := state.block_id + 2, block_term := false }
  else if strStartsWith instr ".end method" then
    match state.active_method, state.active_block, state.active_class with
    | some m, some b, some cls =>
      let instruction := mkInstr instr "method_end" state.instruction_id line_num
        m.method_id cls.class_id b.block_id
      let s := { state with instruction_id := state.instruction_id + 1 }
      match append_or_start s instruction with
      | .error e => .error e
      | .ok s =>
        match s.active_method with
        | some m2 =>
          let (m3, _failures) := m2.resolve_labels
          .ok { s with active_method := some m3, block_term := true }
        | none => .error "AttributeError: NoneType object has no attribute resolve_labels"
    | _, _, _ => .error "AttributeError: NoneType access in method_end"
  else if strStartsWith instr ":" then
    match state.active_method, state.active_block, state.active_class with
    | some m, some b, some cls =>
      let b := b.add_child_block_id state.block_id
      let m := m.add_basic_block b
      let parent_id := b.block_id
      let instruction := mkInstr instr "label" state.instruction_id line_num
        m.method_id cls.class_id b.block_id
      let nb := (mkBasicBlock state.block_id instruction).add_parent_block_id parent_id
      .ok { state with active_method := some m, active_block := some nb,
                       instruction_id := state.instruction_id + 2,
                       block_id := state.block_id + 1 }
    | _, _, _ => .error "AttributeError: NoneType access in label"
  else if strStartsWith instr "return" then
    match state.active_method, state.active_block, state.active_class with
    | some m, some b, some cls =>
      let instruction := mkInstr instr "return" state.instruction_id line_num
        m.method_id cls.class_id b.block_id
      let s := { state with instruction_id := state.instruction_id + 1 }
      match append_or_start s instruction with
      | .error e => .error e
      | .ok s => .ok { s with block_term := true }
    | _, _, _ => .error "AttributeError: NoneType access in return"
  else if strStartsWith instr "goto" then
    match state.active_method, state.active_block, state.active_class with
    | some m, some b, some cls =>
      let instruction := mkInstr instr "goto" state.instruction_id line_num
        m.method_id cls.class_id b.block_id
      let s := { state with instruction_id := state.instruction_id + 1 }
      match append_or_start s instruction with
      | .error e => .error e
      | .ok s =>
        match s.active_method, s.active_block with
        | some m2, some b2 =>
          .ok { s with active_method := some (m2.add_label_call instr b2.block_id),
                       block_term := true }
        | _, _ => .error "AttributeError: NoneType access after goto"
    | _, _, _ => .error "AttributeError: NoneType access in goto"
  else if strStartsWith instr "if-" then
    match state.active_method, state.active_block, state.active_class with
    | some m, some b, some cls =>
      let instruction := mkInstr instr "if" state.instruction_id line_num
        m.method_id cls.class_id b.block_id
      let s := { state with instruction_id := state.instruction_id + 1 }
      match append_or_start s instruction with
      | .error e => .error e
      | .ok s =>
        match s.active_method, s.active_block with
        | some m2, some b2 =>
          .ok { s with active_method := some (m2.add_label_call instr b2.block_id),
                       block_term := true }
        | _, _ => .error "AttributeError: NoneType access after if"
    | _, _, _ => .error "AttributeError: NoneType access in if"
  else if strStartsWith instr "invoke" then
    match state.active_method, state.active_block, state.active_class with
    | some m, some b, some cls =>
      let instruction := mkInstr instr "invoke" state.instruction_id line_num
        m.method_id cls.class_id b.block_id
      let s := { state with instruction_id := state.instruction_id + 1 }
      match append_or_start s instruction with
      | .error e => .error e
      | .ok s =>
        match s.active_method, s.active_block, s.active_class with
        | some m2, some b2, some cls2 =>
          match cls2.add_invocation instr m2.method_id b2.block_id s.file_list with
          | .error e => .error e
          | .ok (cls3, fl) =>
            .ok { s with active_class := some cls3, file_list := fl,
                         block_term := true }
        | _, _, _ => .error "AttributeError: NoneType access after invoke"
    | _, _, _ => .error "AttributeError: NoneType access in invoke"
  else if strStartsWith instr ".line" then
    .ok state
  else
    match state.active_method, state.active_block, state.active_class with
    | some m, some b, some cls =>
      let instruction := mkInstr instr "other" state.instruction_id line_num
        m.method_id cls.class_id b.block_id
      let s := { state with instruction_id := state.instruction_id + 1 }
      append_or_start s instruction
    | _, _, _ => .error "AttributeError: NoneType access in fallthrough"

/-- Class region of `process_instruction` (lines 332-383): directives seen
outside any method body. -/
def process_region_class (instr : String) (state : Graph) :
    Except String Graph :=
  if strStartsWith instr ".class" then
    .ok { state with active_class := some (mkSmaliClass state.class_id instr),
                     class_id := state.class_id + 1 }
  else if strStartsWith instr ".super" then
    match state.active_class with
    | some c => .ok { state with active_class := some (c.add_super instr) }
    | none => .error "AttributeError: NoneType object has no attribute add_super"
  else if strStartsWith instr ".source" then
    match state.active_class with
    | some c => .ok { state with active_class := some (c.add_source instr) }
    | none => .error "AttributeError: NoneType object has no attribute add_source"
  else
    .ok state

/-- Function `process_instruction` (`process_instruction.py`): dispatch one
already-trimmed, comment-stripped line against the parser state.  The
`op_map` regexes are prefix-anchored literals, modelled with
`strStartsWith`.  Python attribute errors on absent active structures
are `Except.error`.  The body is stated region by region, following the
flag tests that open the python function. -/
def process_instruction (instr : String) (line_num : Nat) (state : Graph) :
    Except String Graph :=
  if state.ANNOTATION_FLAG then process_region_annotation instr state
  else if state.FIELD_FLAG then process_region_field instr state
  else if state.SWITCH_FLAG then process_region_switch instr state
  else if state.METHOD_FLAG then process_region_method instr line_num state
  else process_region_class instr state

/-- Text a raw input line is reduced to before dispatch: strip surrounding
whitespace, then truncate at the first `#` (extract.py lines 113-116). -/
def lineText (raw : String) : String :=
  (pySplit (pyStrip raw) "#").headD ""

/-- Switch-data and method directive cases of the line loop in
`extract.py` (lines 123-158): toggle `SWITCH_FLAG` or `METHOD_FLAG`
around their regions and run `process_instruction`. -/
def processLineDirective (instr : String) (line_num : Nat) (state : Graph) :
    Except String Graph :=
  if strStartsWith instr ".packed-switch" then
    process_instruction instr line_num
      { state with SWITCH_FLAG := true, FIELD_FLAG := false }
  else if strStartsWith instr ".end packed-switch" then
    match process_instruction instr line_num state with
    | .error e => .error e
    | .ok s => .ok { s with SWITCH_FLAG := false }
  else if strStartsWith instr ".sparse-switch" then
    process_instruction instr line_num
      { state with SWITCH_FLAG := true, FIELD_FLAG := false }
  else if strStartsWith instr ".end sparse-switch" then
    match process_instruction instr line_num state with
    | .error e => .error e
    | .ok s => .ok { s with SWITCH_FLAG := false }
  else if strStartsWith instr ".method" then
    process_instruction instr line_num
      { state with METHOD_FLAG := true, FIELD_FLAG := false }
  else if strStartsWith instr ".end method" then
    match process_instruction instr line_num state with
    | .error e => .error e
    | .ok s => .ok { s with METHOD_FLAG := false }
  else
    process_instruction instr line_num state

/-- One iteration of the line loop in `extract.py` (lines 107-164): skip
blank lines, reduce to `lineText`, toggle the region flags around the
special directives, and run `process_instruction`.  Lines are supplied
without their trailing newline. -/
def processLine (state : Graph) (line_num : Nat) (raw : String) :
    Except String Graph :=
  if raw == "" || raw == "\n" then .ok state
  else
    let instr := lineText raw
    if strStartsWith instr ".annotation" then
      process_instruction instr line_num { state with ANNOTATION_FLAG := true }
    else if strStartsWith instr ".end annotation" then
      match process_instruction instr line_num state with
      | .error e => .error e
      | .ok s => .ok { s with ANNOTATION_FLAG := false }
    else if strStartsWith instr ".field" then
      process_instruction instr line_num { state with FIELD_FLAG := true }
    else if strStartsWith instr ".end field" then
      match process_instruction instr line_num state with
      | .error e => .error e
      | .ok s => .ok { s with FIELD_FLAG := false }
    else
      processLineDirective instr line_num state

/-- Run `processLine` over a list of numbered lines. -/
def processLines (state : Graph) : List (Nat × String) → Except String Graph
  | [] => .ok state
  | (n, l) :: rest =>
    match processLine state n l with
    | .error e => .error e
    | .ok s => processLines s rest

/-- Update the block at an index inside a method. -/
def methodModifyBlock (bi : Nat) (f : BasicBlock → BasicBlock) (m : Method) : Method :=
  { m with basic_blocks := listModify f bi m.basic_blocks }

/-- Method `SmaliClass.resolve_local_invocations`: resolve the intra-class
`invoke-direct` calls collected by the parser.  The python `failed` flag is
set on the first method-lookup failure and never reset, so every later
invocation of the class is skipped; the returned report is never appended
to.  Python raises IndexError when a matched target method has no blocks. -/
def SmaliClass.resolve_local_invocations (c : SmaliClass) :
    Except String (SmaliClass × List String) :=
  let step := fun (acc : Except String (List Method × Bool))
      (inv : Nat × Nat × String) =>
    match acc with
    | .error e => .error e
    | .ok (methods, failed) =>
      let (src_method, src_block, target_method) := inv
      let cleaned_target_method := (pySplit target_method "(").headD ""
      match methods.findIdx? (fun m => m.method_name == cleaned_target_method) with
      | none => .ok (methods, true)
      | some ti =>
        let target_method_object := methods.getD ti default
        match target_method_object.basic_blocks.head? with
        | none => .error "IndexError: list index out of range"
        | some target_block_object =>
          if failed then .ok (methods, true)
          else
            match methods.findIdx? (fun m => m.method_id == src_method) with
            | none => .ok (methods, true)
            | some si =>
              let src_method_object := methods.getD si default
              match src_method_object.basic_blocks.findIdx?
                  (fun b => b.block_id == src_block) with
              | none => .ok (methods, false)
              | some sbi =>
                let src_block_id := (src_method_object.basic_blocks.getD sbi default).block_id
                let methods := listModify
                  (methodModifyBlock sbi
                    (fun b => b.add_child_block_id target_block_object.block_id)) si methods
                let methods := listModify
                  (methodModifyBlock 0
                    (fun b => b.add_parent_block_id src_block_id)) ti methods
                let methods := listModify
                  (fun m => m.add_call_out target_method_object.method_id) si methods
                let methods := listModify
                  (fun m => m.add_call_in src_method_object.method_id) ti methods
                if target_method_object.return_type != "V" then
                  let tlast := target_method_object.basic_blocks.length - 1
                  let tlast_id := (target_method_object.basic_blocks.getD tlast default).block_id
                  let methods := listModify
                    (methodModifyBlock tlast
                      (fun b => b.add_child_block_id src_block_id)) ti methods
                  let methods := listModify
                    (methodModifyBlock sbi
                      (fun b => b.add_parent_block_id tlast_id)) si methods
                  let methods := listModify
                    (fun m => m.add_call_in target_method_object.method_id) si methods
                  let methods := listModify
                    (fun m => m.add_call_out src_method_object.method_id) ti methods
                  .ok (methods, false)
                else
                  .ok (methods, false)
  match c.invocations_local.foldl step (.ok (c.methods, false)) with
  | .error e => .error e
  | .ok (methods, _) => .ok ({ c with methods := methods }, [])

/-- End-of-file flush and intra-class resolution (extract.py lines
167-180): push the active block and method, resolve local invocations, and
append the class.  Python appends `None` when a file defines a class but no
method, poisoning later phases; that out-of-scope case is an error here. -/
def flushFile (s : Graph) : Except String Graph :=
  match s.active_class with
  | none => .error "AttributeError: NoneType object has no attribute add_method"
  | some cls =>
    match s.active_method with
    | none => .error "file flushed with no active method"
    | some m =>
      let m := match s.active_block with
        | some b => m.add_basic_block b
        | none => m
      let cls := cls.add_method m
      match cls.resolve_local_invocations with
      | .error e => .error e
      | .ok (cls, _report) =>
        .ok { s with classes := s.classes ++ [cls], active_class := none,
                     active_method := none, active_block := none }

/-- Parse one file: reset the region flags and active cursors (extract.py
lines 96-104), process the lines numbered from 1, then flush. -/
def runFile (state : Graph) (lines : List String) : Except String Graph :=
  let s := { state with ANNOTATION_FLAG := false, FIELD_FLAG := false,
                        SWITCH_FLAG := false, METHOD_FLAG := false, active_class := none,
                        active_method := none, active_block := none }
  match processLines s (enumFrom 1 lines) with
  | .error e => .error e
  | .ok s => flushFile s

/-- Parse a list of files in order. -/
def runFiles (state : Graph) : List (List String) → Except String Graph
  | [] => .ok state
  | f :: fs =>
    match runFile state f with
    | .error e => .error e
    | .ok s => runFiles s fs

/-- Update the method at an index inside a class list. -/
def classesModifyMethod (ci mi : Nat) (f : Method → Method)
    (cs : List SmaliClass) : List SmaliClass :=
  listModify (fun c => { c with methods := listModify f mi c.methods }) ci cs

/-- Update the block at an index inside a method of a class list. -/
def classesModifyBlock (ci mi bi : Nat) (f : BasicBlock → BasicBlock)
    (cs : List SmaliClass) : List SmaliClass :=
  classesModifyMethod ci mi (methodModifyBlock bi f) cs

/-- Cleanup of a target class name in `Graph.resolve_global_invocations`:
`target_class_name.split("/")[-1].replace(";", "")`. -/
def cleanClassName (target_class_name : String) : String :=
  pyReplace ((pySplit target_class_name "/").getLastD "") ";" ""

/-- One cross-class invocation of `Graph.resolve_global_invocations`
(lines 488-557): look up source method, target class, source block and
target method in that order; a miss yields the report message (python sets
`failed_res` and breaks); on success add the block-level pair, the
method-level pair (note the source receives a call-in and the target a
call-out), and for a non-void return the reversed block pair plus the
reversed method pair. -/
def resolveOneGlobal (cs : List SmaliClass) (i : Nat)
    (inv : Nat × Nat × String × String) :
    Except String (Sum (List SmaliClass) String) :=
  let c := cs.getD i default
  let (src_method_id, src_block_id, target_class_name, target_method_name) := inv
  match c.methods.findIdx? (fun m => m.method_id == src_method_id) with
  | none => .ok (.inr (c.class_name ++ " Failed to resolve source method " ++
      target_class_name ++ " -> " ++ target_method_name))
  | some smi =>
    let clean_target_class_name := cleanClassName target_class_name
    match cs.findIdx? (fun tc => tc.class_name == clean_target_class_name) with
    | none => .ok (.inr (c.class_name ++ " Failed to resolve target class " ++
        target_class_name ++ " -> " ++ target_method_name))
    | some tci =>
      let src_method_obj := c.methods.getD smi default
      match src_method_obj.basic_blocks.findIdx? (fun b => b.block_id == src_block_id) with
      | none => .ok (.inr (c.class_name ++ " Failed to resolve source block " ++
          target_class_name ++ " -> " ++ target_method_name))
      | some sbi =>
        let clean_target_method_name := (pySplit target_method_name "(").headD ""
        let target_class_obj := cs.getD tci default
        match target_class_obj.methods.findIdx?
            (fun m => m.method_name == clean_target_method_name) with
        | none => .ok (.inr (c.class_name ++ " Failed to resolve target method " ++
            target_class_name ++ " -> " ++ target_method_name))
        | some tmi =>
          let target_method := target_class_obj.methods.getD tmi default
          match target_method.basic_blocks.head? with
          | none => .error "IndexError: list index out of range"
          | some te =>
            let cs := classesModifyBlock i smi sbi
              (fun b => b.add_child_block_id te.block_id) cs
            let cs := classesModifyBlock tci tmi 0
              (fun b => b.add_parent_block_id src_block_id) cs
            let cs := classesModifyMethod i smi
              (fun m => m.add_call_in target_method.method_id) cs
            let cs := classesModifyMethod tci tmi
              (fun m => m.add_call_out src_method_obj.method_id) cs
            if target_method.return_type != "V" then
              let tl := target_method.basic_blocks.length - 1
              let tl_id := (target_method.basic_blocks.getD tl default).block_id
              let cs := classesModifyBlock tci tmi tl
                (fun b => b.add_child_block_id src_block_id) cs
              let cs := classesModifyBlock i smi sbi
                (fun b => b.add_parent_block_id tl_id) cs
              let cs := classesModifyMethod i smi
                (fun m => m.add_call_out target_method.method_id) cs
              let cs := classesModifyMethod tci tmi
                (fun m => m.add_call_in src_method_obj.method_id) cs
              .ok (.inl cs)
            else
              .ok (.inl cs)

/-- Inner invocation loop of `Graph.resolve_global_invocations` for one
class: a failed resolution appends its message and breaks out of the
remaining invocations of that class. -/
def resolveGlobalList (i : Nat) (cs : List SmaliClass)
    (invs : List (Nat × Nat × String × String)) (report : List String) :
    Except String (List SmaliClass × List String) :=
  match invs with
  | [] => .ok (cs, report)
  | inv :: rest =>
    match resolveOneGlobal cs i inv with
    | .error e => .error e
    | .ok (.inl cs') => resolveGlobalList i cs' rest report
    | .ok (.inr msg) => .ok (cs, report ++ [msg])

/-- Method `Graph.resolve_global_invocations`: resolve every class's
cross-class invocations in order. -/
def resolve_global_invocations (classes : List SmaliClass) :
    Except String (List SmaliClass × List String) :=
  (List.range classes.length).foldl (fun acc i =>
    match acc with
    | .error e => .error e
    | .ok (cs, rep) => resolveGlobalList i cs ((cs.getD i default).invocations_global) rep)
    (.ok (classes, []))

/-- Accumulator of `Graph.resolve_library_invocations`: the (block-edited)
original classes, the synthesized classes, the four id counters and the
report. -/
structure LibState where
  classes : List SmaliClass
  generated : List SmaliClass
  class_id : Nat
  method_id : Nat
  block_id : Nat
  instruction_id : Nat
  report : List String
  deriving Repr, Inhabited

/-- Find-or-create phase of one library invocation
(`Graph.resolve_library_invocations` lines 574-617): locate the target
class among the synthesized classes by full `path/name`, creating one when
absent, then locate the target method by (name, parameter list, return
type), creating one with a single dummy `DUMMY`-instruction block when
absent.  Returns the updated state with the class and method indexes. -/
def libFindOrCreate (st : LibState) (target_class_name target_method_name : String) :
    LibState × Nat × Nat :=
  let (gen, gi, cid) :=
    match st.generated.findIdx?
        (fun g => g.class_path ++ "/" ++ g.class_name == target_class_name) with
    | some gi => (st.generated, gi, st.class_id)
    | none =>
      let nc := mkSmaliClass st.class_id (".class public final " ++ target_class_name ++ ";")
      (st.generated ++ [nc], st.generated.length, st.class_id + 1)
  let (tname, tparams, tret) := process_method_directive (".method T T " ++ target_method_name)
  let tclass := gen.getD gi default
  let (gen, tmi, mid, bid, iid) :=
    match tclass.methods.findIdx? (fun t =>
        t.method_name == tname && t.param_types == tparams && t.return_type == tret) with
    | some tmi => (gen, tmi, st.method_id, st.block_id, st.instruction_id)
    | none =>
      let tm := mkMethod st.method_id (".method T T " ++ target_method_name)
      let dummy_instruction := mkInstr (target_class_name ++ " -> " ++ target_method_name)
        "DUMMY" st.instruction_id 0 tm.method_id tclass.class_id st.block_id
      let dummy_block := mkBasicBlock st.block_id dummy_instruction
      let tm := tm.add_basic_block dummy_block
      (listModify (fun c => c.add_method tm) gi gen, tclass.methods.length,
       st.method_id + 1, st.block_id + 1, st.instruction_id + 1)
  ({ st with generated := gen, class_id := cid, method_id := mid,
             block_id := bid, instruction_id := iid }, gi, tmi)

/-- Linking phase of one library invocation
(`Graph.resolve_library_invocations` lines 619-650): look up the source
method and block (a miss is reported, breaking the class's loop) and add
the block-level pair plus, for a non-void return, the reversed block pair.
No method-level edges are recorded. -/
def libLink (st : LibState) (i gi tmi : Nat)
    (src_method_id src_block_id : Nat) (target_class_name target_method_name : String) :
    Sum LibState (LibState × String) :=
  let c := st.classes.getD i default
  match c.methods.findIdx? (fun m => m.method_id == src_method_id) with
  | none => .inr (st, c.class_name ++ " Failed to resolve source method " ++
      toString src_method_id)
  | some smi =>
    let src_method_obj := c.methods.getD smi default
    match src_method_obj.basic_blocks.findIdx? (fun b => b.block_id == src_block_id) with
    | none => .inr (st, c.class_name ++ " Failed to resolve source block " ++
        target_class_name ++ " -> " ++ target_method_name)
    | some sbi =>
      let target_method := (st.generated.getD gi default).methods.getD tmi default
      let te_id := (target_method.basic_blocks.headD default).block_id
      let classes := classesModifyBlock i smi sbi
        (fun b => b.add_child_block_id te_id) st.classes
      let gen := classesModifyBlock gi tmi 0
        (fun b => b.add_parent_block_id src_block_id) st.generated
      if target_method.return_type != "V" then
        let tl := target_method.basic_blocks.length - 1
        let tl_id := (target_method.basic_blocks.getD tl default).block_id
        let gen := classesModifyBlock gi tmi tl
          (fun b => b.add_child_block_id src_block_id) gen
        let classes := classesModifyBlock i smi sbi
          (fun b => b.add_parent_block_id tl_id) classes
        .inl { st with classes := classes, generated := gen }
      else
        .inl { st with classes := classes, generated := gen }

/-- One library invocation of `Graph.resolve_library_invocations` (lines
572-650): synthesis of missing target structures followed by linking. -/
def resolveOneLib (st : LibState) (i : Nat)
    (inv : Nat × Nat × String × String) : Sum LibState (LibState × String) :=
  let (src_method_id, src_block_id, target_class_name, target_method_name) := inv
  let (st, gi, tmi) := libFindOrCreate st target_class_name target_method_name
  libLink st i gi tmi src_method_id src_block_id target_class_name target_method_name

/-- The state carried by either outcome of a library-resolution step. -/
def sumStateLib : Sum LibState (LibState × String) → LibState
  | .inl s => s
  | .inr (s, _) => s

/-- Inner invocation loop of `Graph.resolve_library_invocations` for one
class, breaking on the first reported failure. -/
def resolveLibList (i : Nat) (st : LibState)
    (invs : List (Nat × Nat × String × String)) : LibState :=
  match invs with
  | [] => st
  | inv :: rest =>
    match resolveOneLib st i inv with
    | .inl st' => resolveLibList i st' rest
    | .inr (st', msg) => { st' with report := st'.report ++ [msg] }

/-- Method `Graph.resolve_library_invocations`: resolve the library
invocations of every class, then append the synthesized classes to the
program. -/
def resolve_library_invocations (g : Graph) : Graph × List String :=
  let st0 : LibState := { classes := g.classes, generated := [],
                          class_id := g.class_id, method_id := g.method_id,
                          block_id := g.block_id,
                          instruction_id := g.instruction_id, report := [] }
  let st := (List.range g.classes.length).foldl (fun st i =>
    resolveLibList i st ((st.classes.getD i default).invocations_lib)) st0
  ({ g with classes := st.classes ++ st.generated, class_id := st.class_id,
            method_id := st.method_id, block_id := st.block_id,
            instruction_id := st.instruction_id }, st.report)

/-- Whole pipeline of `extract.py`: parse the given file contents in order
(the driver's queue-driven file discovery and filesystem lookups are
external collaborators; the contents to process are supplied directly),
then run global and library resolution. -/
def runProgram (files : List (List String)) : Except String Graph :=
  match runFiles (initGraph []) files with
  | .error e => .error e
  | .ok s =>
    match resolve_global_invocations s.classes with
    | .error e => .error e
    | .ok (classes, _report) =>
      let s := { s with classes := classes }
      let (s, _report2) := resolve_library_invocations s
      .ok s

/-- Instruction kinds counted in the `transfer` slot of the summary
feature vector. -/
def transferTypes : List String :=
  ["fill_arr", "arr_get", "arr_put", "iget", "iput", "sget", "sput", "instance_of"]

/-- Instruction kinds counted in the `arithmetic` slot. -/
def arithmeticTypes : List String :=
  ["neg", "not", "add", "sub", "mul", "div", "rem", "l_and", "l_or", "l_xor",
   "shift_l", "shift_r", "u_shift_r", "r_sub"]

/-- Instruction kinds counted in the `compare` slot. -/
def compareTypes : List String := ["p_switch", "s_switch", "cmp", "if"]

/-- Instruction kinds counted in the `data_declaration` slot. -/
def dataDeclTypes : List String := ["new_inst", "new_arr", "filled_new_arr"]

/-- One instruction of the histogram loop in
`create_summary_feature_vector`: bump the slot selected by the `elif`
chain over the stored `itype`, when one matches. -/
def csfvStep (fv : List Int) (instr : Instruction) : List Int :=
  if instr.itype == "const" then listModify (· + 1) 0 fv
  else if transferTypes.contains instr.itype then listModify (· + 1) 1 fv
  else if instr.itype == "invoke" then listModify (· + 1) 2 fv
  else if arithmeticTypes.contains instr.itype then listModify (· + 1) 3 fv
  else if compareTypes.contains instr.itype then listModify (· + 1) 4 fv
  else if instr.itype == "move" then listModify (· + 1) 5 fv
  else if instr.itype == "return" then listModify (· + 1) 6 fv
  else if dataDeclTypes.contains instr.itype then listModify (· + 1) 7 fv
  else fv

/-- The slot of the fixed kind table an `itype` is counted in, if any
(the `elif` chain of `create_summary_feature_vector` as a table). -/
def slotOf (itype : String) : Option Nat :=
  if itype == "const" then some 0
  else if transferTypes.contains itype then some 1
  else if itype == "invoke" then some 2
  else if arithmeticTypes.contains itype then some 3
  else if compareTypes.contains itype then some 4
  else if itype == "move" then some 5
  else if itype == "return" then some 6
  else if dataDeclTypes.contains itype then some 7
  else none

/-- Function `create_summary_feature_vector` (`output_graph.py` lines
63-119): an 11-slot histogram over the stored `itype` of each instruction,
with the last three slots set from the arguments. -/
def create_summary_feature_vector (instructions : List Instruction)
    (degree num_total_instr : Int) : List Int :=
  let feature_vector : List Int := List.replicate 11 0
  let feature_vector := instructions.foldl csfvStep feature_vector
  let feature_vector := listModify (fun _ => num_total_instr) 8 feature_vector
  let feature_vector := listModify (fun _ => degree) 9 feature_vector
  listModify (fun _ => (instructions.length : Int)) 10 feature_vector

/-- Number of instructions the fixed table counts into a given slot. -/
def slotCount (instructions : List Instruction) (k : Nat) : Int :=
  (instructions.countP (fun i => slotOf i.itype == some k) : Int)

/-- The basic blocks of the program in serializer iteration order
(classes, then methods, then blocks). -/
def graphBlocks (g : Graph) : List BasicBlock :=
  (g.classes.flatMap (fun c => c.methods)).flatMap (fun m => m.basic_blocks)

/-- The methods of the program in serializer iteration order. -/
def graphMethods (g : Graph) : List Method :=
  g.classes.flatMap (fun c => c.methods)

/-- Function `output_cfg_coo` (`output_graph.py` lines 122-174, with
`verbose_nodes=False`): the produced file text, or the IndexError python
raises at the `len(bb_feature_vectors[0])` of the header line when the
program has no basic blocks.  Writing the file is an external effect; the
function returns the text written. -/
def output_cfg_coo (graph : Graph) : Except String String :=
  let blocks := graphBlocks graph
  let bb_feature_vectors := blocks.map (fun b =>
    create_summary_feature_vector b.instructions
      ((b.child_block_ids.length + b.parent_block_ids.length : Nat) : Int)
      ((graph.instruction_id : Int) - 1))
  let feature_row : List Int := blocks.map (fun b => (b.block_id : Int))
  let feature_col : List Int := blocks.map (fun _ => 0)
  let adjacency_row : List Int := blocks.flatMap (fun b =>
    b.child_block_ids.map (fun d => (d : Int)))
  let adjacency_col : List Int := blocks.flatMap (fun b =>
    b.child_block_ids.map (fun _ => (b.block_id : Int)))
  match bb_feature_vectors with
  | [] => .error "IndexError: list index out of range"
  | fv0 :: _ =>
    .ok (toString bb_feature_vectors.length ++ "," ++ toString fv0.length ++ "\n\n" ++
         pyListListStr bb_feature_vectors ++ "\n" ++ pyListStr feature_row ++ "\n" ++
         pyListStr feature_col ++ "\n\n" ++ pyListStr adjacency_row ++ "\n" ++
         pyListStr adjacency_col ++ "\n")

/-- Function `output_fcg_coo` (`output_graph.py` lines 177-223): the
produced file text, or the IndexError python raises at the header when the
program has no methods. -/
def output_fcg_coo (graph : Graph) : Except String String :=
  let methods := graphMethods graph
  let m_feature_vectors := methods.map (fun m =>
    create_summary_feature_vector (m.basic_blocks.flatMap (fun b => b.instructions))
      ((m.calls_out.length + m.calls_in.length : Nat) : Int)
      ((graph.instruction_id : Int) - 1))
  let feature_row : List Int := methods.map (fun m => (m.method_id : Int))
  let feature_col : List Int := methods.map (fun _ => 0)
  let adjacency_row : List Int := methods.flatMap (fun m =>
    m.calls_out.map (fun d => (d : Int)))
  let adjacency_col : List Int := methods.flatMap (fun m =>
    m.calls_out.map (fun _ => (m.method_id : Int)))
  match m_feature_vectors with
  | [] => .error "IndexError: list index out of range"
  | fv0 :: _ =>
    .ok (toString m_feature_vectors.length ++ "," ++ toString fv0.length ++ "\n\n" ++
         pyListListStr m_feature_vectors ++ "\n" ++ pyListStr feature_row ++ "\n" ++
         pyListStr feature_col ++ "\n\n" ++ pyListStr adjacency_row ++ "\n" ++
         pyListStr adjacency_col ++ "\n")

/-- Terminator test of the specification: an instruction ends a block when
its recorded kind is return, goto, conditional branch, invoke or
method-end. -/
def isTerminator (i : Instruction) : Bool :=
  ["return", "goto", "if", "invoke", "method_end"].contains i.itype

/-- All instructions of the program, in block order. -/
def graphInstrs (g : Graph) : List Instruction :=
  (graphBlocks g).flatMap (fun b => b.instructions)

/-- Block ids of the program. -/
def blockIds (g : Graph) : List Nat := (graphBlocks g).map (fun b => b.block_id)

/-- Method ids of the program. -/
def methodIds (g : Graph) : List Nat := (graphMethods g).map (fun m => m.method_id)

/-- Class ids of the program. -/
def classIds (g : Graph) : List Nat := g.classes.map (fun c => c.class_id)

/-- Instruction ids of the program. -/
def instrIds (g : Graph) : List Nat := (graphInstrs g).map (fun i => i.instr_id)

/-- Together with `List.Nodup`, this says a list of ids is exactly the
range `0..N-1`. -/
def idsBelowLength (l : List Nat) : Bool := l.all (fun i => i < l.length)

/-- Scenario input: class `A` with one method `f()V` whose body is a
single `const` and `return-void` (spec section 8, scenario 1). -/
def fileA : List String :=
  [ ".class public Lcom/app/A;",
    ".super Ljava/lang/Object;",
    ".method public f()V",
    "    const v0, 0x1",
    "    return-void",
    ".end method" ]

/-- Scenario input: a label in the middle of straight-line code. -/
def fileW2 : List String :=
  [ ".class public Lcom/app/A;",
    ".super Ljava/lang/Object;",
    ".method public f()V",
    "    const v0, 0x0",
    "    :L1",
    "    return-void",
    ".end method" ]

/-- Scenario input: a packed-switch data region ending the file (the
region's data block is discarded by the parser while its id stays recorded
as a child of the preceding block). -/
def fileW4 : List String :=
  [ ".class public Lcom/app/A;",
    ".super Ljava/lang/Object;",
    ".method public f()V",
    "    return-void",
    "    :pdata",
    "    .packed-switch 0x0",
    "    :c0",
    "    .end packed-switch" ]

/-- Scenario input: class `A` invoking `B.h()V` cross-class. -/
def fileW5A : List String :=
  [ ".class public Lcom/app/A;",
    ".super Ljava/lang/Object;",
    ".method public f()V",
    "    invoke-virtual \x7bv0\x7d, Lcom/app/B;->h()V",
    "    return-void",
    ".end method" ]

/-- Scenario input: class `B` providing `h()V`. -/
def fileW5B : List String :=
  [ ".class public Lcom/app/B;",
    ".super Ljava/lang/Object;",
    ".method public h()V",
    "    return-void",
    ".end method" ]

/-- Scenario input: class `A` invoking the library method
`Ljava/lang/Foo;->g()V`. -/
def fileW6 : List String :=
  [ ".class public Lcom/app/A;",
    ".super Ljava/lang/Object;",
    ".method public f()V",
    "    invoke-virtual \x7bv0\x7d, Ljava/lang/Foo;->g()V",
    "    return-void",
    ".end method" ]

/-- Scenario input: a `goto` to a label that exists nowhere. -/
def fileW7 : List String :=
  [ ".class public Lcom/app/A;",
    ".super Ljava/lang/Object;",
    ".method public f()V",
    "    goto :nowhere",
    "    return-void",
    ".end method" ]

/-- Extract the parsed program of a successful run (the error default is
never hit on the scenario inputs). -/
def getOkD (e : Except String Graph) : Graph :=
  match e with
  | .ok g => g
  | .error _ => initGraph []

/-- Parsed program of `fileA`. -/
def g1 : Graph := getOkD (runProgram [fileA])

/-- Parsed program of `fileW2`. -/
def g2 : Graph := getOkD (runProgram [fileW2])

/-- Parsed program of `fileW4`. -/
def g4 : Graph := getOkD (runProgram [fileW4])

/-- Parsed program of `fileW5A` and `fileW5B`. -/
def g5 : Graph := getOkD (runProgram [fileW5A, fileW5B])

/-- Parsed program of `fileW6`. -/
def g6 : Graph := getOkD (runProgram [fileW6])

/-- Parsed program of `fileW7`. -/
def g7 : Graph := getOkD (runProgram [fileW7])

/-- Claim C1 evaluated on a parsed program: exactly 1 class, 1 method,
1 basic block led by the synthetic method-start instruction, 3
instructions, and no outgoing calls. -/
abbrev ClaimC1At (g : Graph) : Prop :=
  g.classes.length = 1 ∧ (graphMethods g).length = 1 ∧
  (graphBlocks g).length = 1 ∧
  (((graphBlocks g).headD default).instructions.headD default).itype = "method_start" ∧
  (graphInstrs g).length = 3 ∧
  ((graphMethods g).headD default).calls_out = []

/-- Claim C2 evaluated on one block: exactly one terminator instruction
and it is the last one. -/
def blockTermOk (b : BasicBlock) : Bool :=
  (b.instructions.filter isTerminator).length == 1 &&
  isTerminator (b.instructions.getLastD default)

/-- Claim C2 evaluated on a parsed program. -/
abbrev ClaimC2At (g : Graph) : Prop := ((graphBlocks g).all blockTermOk) = true

/-- Claim C3 evaluated on a parsed program: ids unique within each kind
and each kind's ids exactly the range `0..N-1`. -/
abbrev ClaimC3At (g : Graph) : Prop :=
  (classIds g).Nodup ∧ (methodIds g).Nodup ∧ (blockIds g).Nodup ∧
  (instrIds g).Nodup ∧
  idsBelowLength (classIds g) = true ∧ idsBelowLength (methodIds g) = true ∧
  idsBelowLength (blockIds g) = true ∧ idsBelowLength (instrIds g) = true

/-- Reciprocity of the parent/child lists over a whole program. -/
def recipOk (g : Graph) : Bool :=
  (graphBlocks g).all (fun b =>
    b.child_block_ids.all (fun cid =>
      (graphBlocks g).any (fun b2 =>
        b2.block_id == cid && b2.parent_block_ids.contains b.block_id)) &&
    b.parent_block_ids.all (fun pid =>
      (graphBlocks g).any (fun b2 =>
        b2.block_id == pid && b2.child_block_ids.contains b.block_id)))

/-- Every block other than its method's entry block has a parent. -/
def nonEntryParentsOk (g : Graph) : Bool :=
  (graphMethods g).all (fun m =>
    (m.basic_blocks.drop 1).all (fun b => !b.parent_block_ids.isEmpty))

/-- Claim C4 evaluated on a parsed program. -/
abbrev ClaimC4At (g : Graph) : Prop :=
  recipOk g = true ∧ nonEntryParentsOk g = true

/-- Claim C6 evaluated on the `fileW6` run: the library resolution is
claimed to add the method-level pair between the caller `f` and the
synthesized `g`. -/
abbrev ClaimC6At (g : Graph) : Prop :=
  let f := (graphMethods g).headD default
  let t := (graphMethods g).getD 1 default
  f.calls_out.contains t.method_id = true ∧ t.calls_in.contains f.method_id = true

/-- The invoke instruction of the C8 scenario: the target class contains
`Lcom` and the source's `app` segment but does not start with `Lcom`. -/
def inv8 : String := "invoke-virtual \x7bv0\x7d, Lnet/Lcomapp/B;->g()V"

/-- The source class of the C8 scenario. -/
def A8 : SmaliClass := mkSmaliClass 0 ".class public Lcom/app/A;"

/-- Whether the C8 scenario invocation is classified cross-class. -/
def classifiedGlobal8 : Bool :=
  match A8.add_invocation inv8 1 1 [] with
  | .ok p => !p.1.invocations_global.isEmpty
  | .error _ => false

/-- Claim C8 evaluated on the scenario invocation: cross-class exactly
when the target starts with `Lcom` and contains the source's
`app_top_level` segment. -/
abbrev ClaimC8At : Prop :=
  classifiedGlobal8 =
    (strStartsWith "Lnet/Lcomapp/B" "Lcom" && strIn "app" "Lnet/Lcomapp/B")

/-- First block of the `fileA` run (holds the `const` instruction). -/
def b1c9 : BasicBlock := (graphBlocks g1).headD default

/-- Claim C9 evaluated on that block: slot 0 of the summary vector is
claimed to equal the number of instructions whose text begins with
`const`. -/
abbrev ClaimC9At : Prop :=
  (create_summary_feature_vector b1c9.instructions 1 3).getD 0 0 =
    ((b1c9.instructions.filter (fun i => strStartsWith i.instruction "const")).length : Int)

/-- Error outcome test used by claim C10. -/
def isIndexError (e : Except String String) : Bool :=
  match e with
  | .error msg => msg == "IndexError: list index out of range"
  | .ok _ => false

/-- File-queue append performed for a cross-class invocation: add
`smali/<target>.smali` when it is not already queued. -/
def queueAdd (fl : List String) (target_class : String) : List String :=
  let class_to_add := "smali/" ++ (strDrop target_class 1) ++ ".smali"
  if fl.contains class_to_add then fl else fl ++ [class_to_add]

/-- Method-level call edges of every method of every class, position by
position. -/
def callsProj (cs : List SmaliClass) : List (List (Nat × List Nat × List Nat)) :=
  cs.map (fun c => c.methods.map (fun m => (m.method_id, m.calls_out, m.calls_in)))

/-- True when every method of every listed class has empty call lists. -/
def callsEmptyOk (cs : List SmaliClass) : Bool :=
  cs.all (fun c => c.methods.all (fun m => m.calls_out.isEmpty && m.calls_in.isEmpty))

/-- Singleton or empty list of an optional value. -/
def optList : Option α → List α
  | some a => [a]
  | none => []

/-- All classes held by the parser state, the active one included. -/
def stateClasses (s : Graph) : List SmaliClass := s.classes ++ optList s.active_class

/-- All methods held by the parser state, the active one included. -/
def stateMethods (s : Graph) : List Method :=
  (stateClasses s).flatMap (fun c => c.methods) ++ optList s.active_method

/-- All blocks held by the parser state, the active one included. -/
def stateBlocks (s : Graph) : List BasicBlock :=
  (stateMethods s).flatMap (fun m => m.basic_blocks) ++ optList s.active_block

/-- All instructions held by the parser state. -/
def stateInstrs (s : Graph) : List Instruction :=
  (stateBlocks s).flatMap (fun b => b.instructions)

/-- No instruction before the last position of a block is a terminator
(so a block holds at most one terminator, and only as its last
instruction). -/
def noMidTerminators (b : BasicBlock) : Bool :=
  b.instructions.dropLast.all (fun i => !isTerminator i)

/-- The last instruction of a block is not a terminator. -/
def lastNotTerm (b : BasicBlock) : Bool :=
  !isTerminator (b.instructions.getLastD default)

/-- Parse-time invariant for claim C2: every held block has terminators
only in its final position, and while the termination flag is clear the
active block does not end in a terminator. -/
def Inv2 (s : Graph) : Prop :=
  (∀ b ∈ stateBlocks s, noMidTerminators b = true) ∧
  (s.block_term = false → ∀ b, s.active_block = some b → lastNotTerm b = true)

/-- A list of already-allocated ids: pairwise distinct and all below the
counter. -/
def FreshIds (l : List Nat) (c : Nat) : Prop := l.Nodup ∧ ∀ i ∈ l, i < c

/-- Class ids held by the parser state. -/
def classIdList (s : Graph) : List Nat := (stateClasses s).map (fun c => c.class_id)

/-- Method ids held by the parser state. -/
def methodIdList (s : Graph) : List Nat := (stateMethods s).map (fun m => m.method_id)

/-- Block ids held by the parser state. -/
def blockIdList (s : Graph) : List Nat := (stateBlocks s).map (fun b => b.block_id)

/-- Instruction ids held by the parser state. -/
def instrIdList (s : Graph) : List Nat := (stateInstrs s).map (fun i => i.instr_id)

/-- Parse-time invariant for claim C3: ids of every kind held by the state
are distinct and below their counter. -/
def Inv3 (s : Graph) : Prop :=
  FreshIds (classIdList s) s.class_id ∧
  FreshIds (methodIdList s) s.method_id ∧
  FreshIds (blockIdList s) s.block_id ∧
  FreshIds (instrIdList s) s.instruction_id

/-- Method ids of a method list. -/
def methodIdsProj (ms : List Method) : List Nat := ms.map (fun m => m.method_id)

/-- Block ids of a method list. -/
def methodBlockIds (ms : List Method) : List Nat :=
  ms.flatMap (fun m => m.basic_blocks.map (fun b => b.block_id))

/-- Instruction ids of a method list. -/
def methodInstrIds (ms : List Method) : List Nat :=
  ms.flatMap (fun m =>
    (m.basic_blocks.flatMap (fun b => b.instructions)).map (fun i => i.instr_id))

/-- Class ids of a class list. -/
def classesClassIds (cs : List SmaliClass) : List Nat := cs.map (fun c => c.class_id)

/-- Method ids of a class list. -/
def classesMethodIds (cs : List SmaliClass) : List Nat :=
  cs.flatMap (fun c => methodIdsProj c.methods)

/-- Block ids of a class list. -/
def classesBlockIds (cs : List SmaliClass) : List Nat :=
  cs.flatMap (fun c => methodBlockIds c.methods)

/-- Instruction ids of a class list. -/
def classesInstrIds (cs : List SmaliClass) : List Nat :=
  cs.flatMap (fun c => methodInstrIds c.methods)

/-- Child edges of a block collection as (source id, target id) pairs. -/
def childEdges (L : List BasicBlock) : List (Nat × Nat) :=
  L.flatMap (fun b => b.child_block_ids.map (fun c => (b.block_id, c)))

/-- Parent edges of a block collection as (source id, target id) pairs. -/
def parentEdges (L : List BasicBlock) : List (Nat × Nat) :=
  L.flatMap (fun b => b.parent_block_ids.map (fun p => (p, b.block_id)))

/-- A block collection is reciprocal when its child edges and parent edges
agree as sets. -/
def Recip (L : List BasicBlock) : Prop :=
  ∀ e : Nat × Nat, e ∈ childEdges L ↔ e ∈ parentEdges L

/-- All blocks of a class. -/
def classBlocks (c : SmaliClass) : List BasicBlock :=
  c.methods.flatMap (fun m => m.basic_blocks)

/-- Every non-entry block of a method has at least one parent. -/
def tailParents (m : Method) : Prop :=
  ∀ b ∈ m.basic_blocks.drop 1, b.parent_block_ids ≠ []

/-- A raw line is not a switch-data directive (those set `SWITCH_FLAG`). -/
def lineNotSwitch (raw : String) : Bool :=
  !(strStartsWith (lineText raw) ".packed-switch") &&
  !(strStartsWith (lineText raw) ".sparse-switch")

/-- Parse-time invariant for claim C4 on switch-free inputs: the switch
flag is clear; finished classes are reciprocal as a whole, methods of the
active class and the active method (with the active block) are reciprocal
units; non-entry blocks everywhere have parents; and a parentless active
block can only be the entry block of a still-empty active method. -/
def Inv4 (s : Graph) : Prop :=
  s.SWITCH_FLAG = false ∧
  (s.active_method = none → s.active_block = none) ∧
  (∀ c ∈ s.classes, Recip (classBlocks c)) ∧
  (∀ c, s.active_class = some c → ∀ m ∈ c.methods, Recip m.basic_blocks) ∧
  (∀ m, s.active_method = some m → Recip (m.basic_blocks ++ optList s.active_block)) ∧
  (∀ c ∈ stateClasses s, ∀ m ∈ c.methods, tailParents m) ∧
  (∀ m, s.active_method = some m → tailParents m) ∧
  (∀ b, s.active_block = some b → b.parent_block_ids = [] →
    ∃ m, s.active_method = some m ∧ m.basic_blocks = [])


/-- Whether a serializer call produced output text. -/
def producedOutput (e : Except String String) : Bool :=
  match e with
  | .ok _ => true
  | .error _ => false

/-- A block-level property holding of every block of every method of a
class list. -/
def classesAllB (P : BasicBlock → Bool) (cs : List SmaliClass) : Bool :=
  cs.all (fun c => c.methods.all (fun m => m.basic_blocks.all P))

/-- A block predicate unchanged by edge insertions (the only block edits
the resolution phases perform). -/
def BlockStable (P : BasicBlock → Bool) : Prop :=
  (∀ b i, P (b.add_child_block_id i) = P b) ∧
  (∀ b i, P (b.add_parent_block_id i) = P b)

/-- A block has at least one recorded parent. -/
def neParents (b : BasicBlock) : Bool := !b.parent_block_ids.isEmpty

/-- Boolean form of `tailParents`: every block after the entry block has a
parent. -/
def tpB (m : Method) : Bool := (m.basic_blocks.drop 1).all neParents

/-- `tpB` over every method of every class of a list. -/
def ctpAll (cs : List SmaliClass) : Bool := cs.all (fun c => c.methods.all tpB)

/-- Every method of every class of a list has at least one basic block
(holds of the classes synthesized by library resolution). -/
def genBBne (cs : List SmaliClass) : Bool :=
  cs.all (fun c => c.methods.all (fun m => !m.basic_blocks.isEmpty))

/-- All blocks of a method list. -/
def mBlocks (ms : List Method) : List BasicBlock := ms.flatMap (fun m => m.basic_blocks)

/-- All blocks of a class list. -/
def csBlocks (cs : List SmaliClass) : List BasicBlock := cs.flatMap classBlocks

/-- Claim C1: the straight-line scenario is claimed to parse to one block
with three instructions; the parser in fact also creates a trailing block
for the `.end method` instruction and skips ids. -/
theorem C1_counterexample : ¬ ClaimC1At g1 := by decide

/-- Claim C1 amended: the scenario parses to 1 class, 1 method, 2 blocks
(the first led by the synthetic method-start instruction, the second
holding only the method-end instruction), 4 instructions, and no outgoing
calls. -/
theorem C1_theorem :
    g1.classes.length = 1 ∧ (graphMethods g1).length = 1 ∧
    (graphBlocks g1).length = 2 ∧
    (((graphBlocks g1).headD default).instructions.headD default).itype = "method_start" ∧
    ((graphBlocks g1).getD 1 default).instructions.map Instruction.itype = ["method_end"] ∧
    (graphInstrs g1).length = 4 ∧
    ((graphMethods g1).headD default).calls_out = [] := by decide

/-- Claim C2: a block closed by a label contains no terminator at all, so
"exactly one terminator per block" fails. -/
theorem C2_counterexample : ¬ ClaimC2At g2 := by decide

/-- Claim C3: the parser allocates a method id and a block id it never
uses at each `.method`, so the used ids are not the range `0..N-1`. -/
theorem C3_counterexample : ¬ ClaimC3At g1 := by decide

/-- Claim C4: the block opened by a switch-data label is discarded while
its id stays recorded as a child of the preceding block, leaving a
non-reciprocal dangling edge. -/
theorem C4_counterexample : ¬ ClaimC4At g4 := by decide

/-- Claim C5: for the cross-class call `A.f -> B.h` the resolver records
the method-level edge backwards: `h`'s id lands in `f.calls_in` and `f`'s
id in `h.calls_out`, while `f.calls_out` and `h.calls_in` stay empty; the
block-level edge (blocks 1 -> 5) is recorded, so resolution succeeded. -/
theorem C5_swapped_direction :
    ((graphMethods g5).map (fun m => (m.method_id, m.calls_out, m.calls_in))) =
      [(1, [], [3]), (3, [1], [])] ∧
    ((graphBlocks g5).headD default).child_block_ids = [2, 5] := by decide

/-- Claim C6: the library call `A.f -> Foo.g` resolves (the dummy block 4
of the synthesized method is a child of block 1) yet no method-level
call-in/call-out edge is recorded anywhere. -/
theorem C6_counterexample :
    ((graphBlocks g6).headD default).child_block_ids = [2, 4] ∧
    g6.classes.length = 2 ∧ ¬ ClaimC6At g6 := by decide

/-- Claim C7: the method of `fileW7` carries the unresolved label call
`(:nowhere, 1)`, no block of the method is led by `:nowhere` and no edge
to such a block was added, yet `resolve_labels` returns an empty report. -/
theorem C7_empty_report :
    ((g7.classes.headD default).methods.headD default).label_calls = [(":nowhere", 1)] ∧
    (((g7.classes.headD default).methods.headD default).resolve_labels).2 = [] ∧
    (((g7.classes.headD default).methods.headD default).basic_blocks.all
      (fun b => !((b.instructions.headD default).instruction == ":nowhere"))) = true ∧
    (((g7.classes.headD default).methods.headD default).basic_blocks.headD default).child_block_ids = [2] := by decide

/-- Claim C8: the invocation of `inv8` targets `Lnet/Lcomapp/B`, which
contains `Lcom` and the `app` segment without starting with `Lcom`; the
code classifies it cross-class, refuting the claimed "starts with"
condition. -/
theorem C8_counterexample : ¬ ClaimC8At := by decide

/-- Claim C9: slot 0 of the summary vector counts instructions whose
stored kind is `const`; the parser stores kind `other` for the `const`
bytecode, so the slot is 0 while one instruction's text begins with
`const`. -/
theorem C9_counterexample : ¬ ClaimC9At := by decide




theorem slotCount_cons (i : Instruction) (l : List Instruction) (k : Nat) :
    slotCount (i :: l) k =
      slotCount l k + (if (slotOf i.itype == some k) = true then 1 else 0) := by
  simp [slotCount, List.countP_cons]

theorem csfv_fold (l : List Instruction) :
    ∀ a0 a1 a2 a3 a4 a5 a6 a7 a8 a9 a10 : Int,
    List.foldl csfvStep [a0,a1,a2,a3,a4,a5,a6,a7,a8,a9,a10] l =
      [a0 + slotCount l 0, a1 + slotCount l 1, a2 + slotCount l 2,
       a3 + slotCount l 3, a4 + slotCount l 4, a5 + slotCount l 5,
       a6 + slotCount l 6, a7 + slotCount l 7, a8, a9, a10] := by
  induction l with
  | nil => intro a0 a1 a2 a3 a4 a5 a6 a7 a8 a9 a10; simp [slotCount]
  | cons i l ih =>
    intro a0 a1 a2 a3 a4 a5 a6 a7 a8 a9 a10
    simp only [List.foldl_cons, csfvStep]
    split
    case isTrue h0 =>
      have hs : slotOf i.itype = some 0 := by
        unfold slotOf; rw [if_pos h0]
      simp only [listModify, ih, slotCount_cons, hs]
      simp [add_comm, add_left_comm, add_assoc]
    case isFalse h0 =>
    split
    case isTrue h1 =>
      have hs : slotOf i.itype = some 1 := by
        unfold slotOf; rw [if_neg h0, if_pos h1]
      simp only [listModify, ih, slotCount_cons, hs]
      simp [add_comm, add_left_comm, add_assoc]
    case isFalse h1 =>
    split
    case isTrue h2 =>
      have hs : slotOf i.itype = some 2 := by
        unfold slotOf; rw [if_neg h0, if_neg h1, if_pos h2]
      simp only [listModify, ih, slotCount_cons, hs]
      simp [add_comm, add_left_comm, add_assoc]
    case isFalse h2 =>
    split
    case isTrue h3 =>
      have hs : slotOf i.itype = some 3 := by
        unfold slotOf; rw [if_neg h0, if_neg h1, if_neg h2, if_pos h3]
      simp only [listModify, ih, slotCount_cons, hs]
      simp [add_comm, add_left_comm, add_assoc]
    case isFalse h3 =>
    split
    case isTrue h4 =>
      have hs : slotOf i.itype = some 4 := by
        unfold slotOf; rw [if_neg h0, if_neg h1, if_neg h2, if_neg h3, if_pos h4]
      simp only [listModify, ih, slotCount_cons, hs]
      simp [add_comm, add_left_comm, add_assoc]
    case isFalse h4 =>
    split
    case isTrue h5 =>
      have hs : slotOf i.itype = some 5 := by
        unfold slotOf; rw [if_neg h0, if_neg h1, if_neg h2, if_neg h3, if_neg h4, if_pos h5]
      simp only [listModify, ih, slotCount_cons, hs]
      simp [add_comm, add_left_comm, add_assoc]
    case isFalse h5 =>
    split
    case isTrue h6 =>
      have hs : slotOf i.itype = some 6 := by
        unfold slotOf; rw [if_neg h0, if_neg h1, if_neg h2, if_neg h3, if_neg h4, if_neg h5, if_pos h6]
      simp only [listModify, ih, slotCount_cons, hs]
      simp [add_comm, add_left_comm, add_assoc]
    case isFalse h6 =>
    split
    case isTrue h7 =>
      have hs : slotOf i.itype = some 7 := by
        unfold slotOf; rw [if_neg h0, if_neg h1, if_neg h2, if_neg h3, if_neg h4, if_neg h5, if_neg h6, if_pos h7]
      simp only [listModify, ih, slotCount_cons, hs]
      simp [add_comm, add_left_comm, add_assoc]
    case isFalse h7 =>
      have hs : slotOf i.itype = none := by
        unfold slotOf; rw [if_neg h0, if_neg h1, if_neg h2, if_neg h3, if_neg h4, if_neg h5, if_neg h6, if_neg h7]
      simp only [ih, slotCount_cons, hs]
      simp


/-- Claim C9 amended: the Summary vector counts each block instruction
into the slot selected by the fixed kind table over the *stored* `itype`
(slot 0 counts kind `const`, which the parser never assigns to parsed
bytecodes since it stores kind `other` for them), and the last three slots
are the total-instruction, degree and block-length arguments. -/
theorem C9_theorem (instructions : List Instruction) (degree num_total_instr : Int) :
    create_summary_feature_vector instructions degree num_total_instr =
      [slotCount instructions 0, slotCount instructions 1, slotCount instructions 2,
       slotCount instructions 3, slotCount instructions 4, slotCount instructions 5,
       slotCount instructions 6, slotCount instructions 7,
       num_total_instr, degree, (instructions.length : Int)] := by
  unfold create_summary_feature_vector
  simp only []
  rw [show (List.replicate 11 (0 : Int)) = [0,0,0,0,0,0,0,0,0,0,0] from rfl]
  rw [csfv_fold]
  simp [listModify]


/-- Claim C8 amended: for an invoke whose extracted target class differs
from the source class, the call is classified cross-class exactly when the
target *contains* `Lcom` (not necessarily as a prefix) and contains the
source's `app_top_level` segment, in which case
`smali/<target-class-path>.smali` is appended to the file queue when
absent; otherwise the call is classified library and the queue is
unchanged. -/
theorem C8_theorem (c : SmaliClass) (instr : String) (method_id block_id : Nat)
    (fl : List String) (tc : String)
    (hx : extract_target_class instr = some tc)
    (hlen : 2 ≤ (pySplit c.class_path "/").length)
    (hne : (c.class_path ++ "/" ++ c.class_name == tc) = false) :
    ((strIn "Lcom" tc && strIn ((pySplit c.class_path "/").getD 1 "") tc) = true →
      c.add_invocation instr method_id block_id fl =
        .ok ({ c with invocations_global := c.invocations_global ++
                 [(method_id, block_id, tc, extract_target_method instr)] },
             queueAdd fl tc)) ∧
    ((strIn "Lcom" tc && strIn ((pySplit c.class_path "/").getD 1 "") tc) = false →
      c.add_invocation instr method_id block_id fl =
        .ok ({ c with invocations_lib := c.invocations_lib ++
                 [(method_id, block_id, tc, extract_target_method instr)] },
             fl)) := by
  unfold SmaliClass.add_invocation
  rw [hx]
  have hlt : ¬ (pySplit c.class_path "/").length < 2 := by omega
  simp only [hlt, if_false, ite_false, hne]
  constructor
  · intro hc
    simp only [Bool.and_eq_true] at hc
    simp only [List.getD, List.get?_eq_getElem?] at hc
    simp [hc.1, hc.2, queueAdd]
  · intro hc
    simp only [Bool.and_eq_false_iff] at hc
    simp only [List.getD, List.get?_eq_getElem?] at hc
    rcases hc with hc | hc <;> simp [hc]

/-- Witness for `C8_theorem` at the scenario invocation from class
`Lcom/app/A` to `Lnet/Lcomapp/B;->g()V`. -/
theorem C8_witness :
    extract_target_class inv8 = some "Lnet/Lcomapp/B" ∧
    2 ≤ (pySplit A8.class_path "/").length ∧
    (A8.class_path ++ "/" ++ A8.class_name == "Lnet/Lcomapp/B") = false ∧
    (((strIn "Lcom" "Lnet/Lcomapp/B" && strIn ((pySplit A8.class_path "/").getD 1 "") "Lnet/Lcomapp/B") = true →
      A8.add_invocation inv8 1 1 [] =
        .ok ({ A8 with invocations_global := A8.invocations_global ++
                 [(1, 1, "Lnet/Lcomapp/B", extract_target_method inv8)] },
             queueAdd [] "Lnet/Lcomapp/B")) ∧
     ((strIn "Lcom" "Lnet/Lcomapp/B" && strIn ((pySplit A8.class_path "/").getD 1 "") "Lnet/Lcomapp/B") = false →
      A8.add_invocation inv8 1 1 [] =
        .ok ({ A8 with invocations_lib := A8.invocations_lib ++
                 [(1, 1, "Lnet/Lcomapp/B", extract_target_method inv8)] },
             []))) :=
  ⟨by decide, by decide, by decide,
   C8_theorem A8 inv8 1 1 [] "Lnet/Lcomapp/B" (by decide) (by decide) (by decide)⟩


theorem listModify_length (f : α → α) (i : Nat) (l : List α) :
    (listModify f i l).length = l.length := by
  induction l generalizing i with
  | nil => cases i <;> rfl
  | cons a as ih => cases i <;> simp [listModify, ih]

theorem map_listModify_eq {proj : α → β} {f : α → α}
    (h : ∀ a, proj (f a) = proj a) (i : Nat) (l : List α) :
    (listModify f i l).map proj = l.map proj := by
  induction l generalizing i with
  | nil => cases i <;> rfl
  | cons a as ih => cases i <;> simp [listModify, ih, h]

theorem all_listModify {p : α → Bool} {f : α → α}
    (h : ∀ a, p a = true → p (f a) = true) (i : Nat) (l : List α) :
    l.all p = true → (listModify f i l).all p = true := by
  induction l generalizing i with
  | nil => intro h1; cases i <;> simp [listModify]
  | cons a as ih =>
    intro h1
    simp only [List.all_cons, Bool.and_eq_true] at h1
    cases i with
    | zero =>
      simp only [listModify, List.all_cons, Bool.and_eq_true]
      exact ⟨h a h1.1, h1.2⟩
    | succ n =>
      simp only [listModify, List.all_cons, Bool.and_eq_true]
      exact ⟨h1.1, ih n h1.2⟩

theorem foldl_inv {P : β → Prop} (step : β → α → β) (l : List α)
    (h : ∀ st a, P st → P (step st a)) : ∀ st, P st → P (l.foldl step st) := by
  induction l with
  | nil => intro st hst; exact hst
  | cons a as ih => intro st hst; exact ih _ (h st a hst)

theorem callsProj_classesModifyMethodBlocks (ci mi bi : Nat)
    (f : BasicBlock → BasicBlock) (cs : List SmaliClass) :
    callsProj (classesModifyBlock ci mi bi f cs) = callsProj cs := by
  unfold callsProj classesModifyBlock classesModifyMethod
  apply map_listModify_eq
  intro c
  simp
  apply map_listModify_eq
  intro m
  simp [methodModifyBlock]

theorem callsEmptyOk_classesModifyBlock (ci mi bi : Nat)
    (f : BasicBlock → BasicBlock) (cs : List SmaliClass) :
    callsEmptyOk cs = true → callsEmptyOk (classesModifyBlock ci mi bi f cs) = true := by
  unfold callsEmptyOk classesModifyBlock classesModifyMethod
  apply all_listModify
  intro c
  simp only []
  apply all_listModify
  intro m
  simp [methodModifyBlock]


theorem libFindOrCreate_inv (CP0 : List (List (Nat × List Nat × List Nat))) (N0 : Nat)
    (st : LibState) (tcn tmn : String)
    (h1 : callsProj st.classes = CP0) (h2 : st.classes.length = N0)
    (h3 : callsEmptyOk st.generated = true) :
    callsProj (libFindOrCreate st tcn tmn).1.classes = CP0 ∧
    (libFindOrCreate st tcn tmn).1.classes.length = N0 ∧
    callsEmptyOk (libFindOrCreate st tcn tmn).1.generated = true := by
  have haddm : ∀ (gen : List SmaliClass) (gi mid : Nat) (s : String) (b : BasicBlock),
      callsEmptyOk gen = true →
      callsEmptyOk (listModify
        (fun c => c.add_method ((mkMethod mid s).add_basic_block b)) gi gen) = true := by
    intro gen gi mid s b hg
    apply all_listModify ?_ _ _ hg
    intro c hc
    have e1 : ((mkMethod mid s).add_basic_block b).calls_out.isEmpty = true := rfl
    have e2 : ((mkMethod mid s).add_basic_block b).calls_in.isEmpty = true := rfl
    simp [SmaliClass.add_method, e1, e2, hc]
  have happ : ∀ (gen : List SmaliClass) (cid : Nat) (hdr : String),
      callsEmptyOk gen = true →
      callsEmptyOk (gen ++ [mkSmaliClass cid hdr]) = true := by
    intro gen cid hdr hg
    have e3 : (mkSmaliClass cid hdr).methods = [] := rfl
    simp only [callsEmptyOk, List.all_append, List.all_cons, List.all_nil,
      Bool.and_eq_true] at *
    simp [e3, hg]
  unfold libFindOrCreate
  cases hc : st.generated.findIdx?
      (fun g => g.class_path ++ "/" ++ g.class_name == tcn) <;>
    simp only [hc] <;> split <;>
    refine ⟨h1, h2, ?_⟩ <;>
    first
      | exact h3
      | exact haddm _ _ _ _ _ h3
      | exact happ _ _ _ h3
      | exact haddm _ _ _ _ _ (happ _ _ _ h3)

theorem classesModifyBlock_length (ci mi bi : Nat) (f : BasicBlock → BasicBlock)
    (cs : List SmaliClass) : (classesModifyBlock ci mi bi f cs).length = cs.length := by
  unfold classesModifyBlock classesModifyMethod
  exact listModify_length _ _ _

theorem libLink_inv (CP0 : List (List (Nat × List Nat × List Nat))) (N0 : Nat)
    (st : LibState) (i gi tmi sm sb : Nat) (tcn tmn : String)
    (h1 : callsProj st.classes = CP0) (h2 : st.classes.length = N0)
    (h3 : callsEmptyOk st.generated = true) :
    callsProj (sumStateLib (libLink st i gi tmi sm sb tcn tmn)).classes = CP0 ∧
    (sumStateLib (libLink st i gi tmi sm sb tcn tmn)).classes.length = N0 ∧
    callsEmptyOk (sumStateLib (libLink st i gi tmi sm sb tcn tmn)).generated = true := by
  unfold libLink
  simp only []
  split
  · exact ⟨h1, h2, h3⟩
  · split
    · exact ⟨h1, h2, h3⟩
    · split <;>
      · refine ⟨?_, ?_, ?_⟩
        · simp only [sumStateLib, callsProj_classesModifyMethodBlocks]
          exact h1
        · simp only [sumStateLib, classesModifyBlock_length]
          exact h2
        · simp only [sumStateLib]
          first
            | exact callsEmptyOk_classesModifyBlock _ _ _ _ _
                (callsEmptyOk_classesModifyBlock _ _ _ _ _ h3)
            | exact callsEmptyOk_classesModifyBlock _ _ _ _ _ h3


theorem resolveOneLib_inv (CP0 : List (List (Nat × List Nat × List Nat))) (N0 : Nat)
    (st : LibState) (i : Nat) (inv : Nat × Nat × String × String)
    (h1 : callsProj st.classes = CP0) (h2 : st.classes.length = N0)
    (h3 : callsEmptyOk st.generated = true) :
    callsProj (sumStateLib (resolveOneLib st i inv)).classes = CP0 ∧
    (sumStateLib (resolveOneLib st i inv)).classes.length = N0 ∧
    callsEmptyOk (sumStateLib (resolveOneLib st i inv)).generated = true := by
  obtain ⟨sm, sb, tcn, tmn⟩ := inv
  unfold resolveOneLib
  simp only []
  obtain ⟨k1, k2, k3⟩ := libFindOrCreate_inv CP0 N0 st tcn tmn h1 h2 h3
  exact libLink_inv CP0 N0 _ i _ _ sm sb tcn tmn k1 k2 k3

theorem resolveLibList_inv (CP0 : List (List (Nat × List Nat × List Nat))) (N0 : Nat)
    (i : Nat) (invs : List (Nat × Nat × String × String)) :
    ∀ st : LibState,
    callsProj st.classes = CP0 ∧ st.classes.length = N0 ∧
      callsEmptyOk st.generated = true →
    callsProj (resolveLibList i st invs).classes = CP0 ∧
    (resolveLibList i st invs).classes.length = N0 ∧
    callsEmptyOk (resolveLibList i st invs).generated = true := by
  induction invs with
  | nil => intro st h; exact h
  | cons inv rest ih =>
    intro st h
    obtain ⟨h1, h2, h3⟩ := h
    have hone := resolveOneLib_inv CP0 N0 st i inv h1 h2 h3
    unfold resolveLibList
    cases hres : resolveOneLib st i inv with
    | inl st' =>
      rw [hres] at hone
      simp only [sumStateLib] at hone
      exact ih st' hone
    | inr p =>
      obtain ⟨st', msg⟩ := p
      rw [hres] at hone
      simp only [sumStateLib] at hone
      exact ⟨hone.1, hone.2.1, hone.2.2⟩

/-- Claim C6 amended: library resolution adds only block-level edges; the
method-level call lists of every pre-existing method are untouched, and
every method of the synthesized classes appended at the end has empty
call-in and call-out lists.  The non-void return-edge policy likewise adds
only the block-level back edge. -/
theorem C6_theorem (g : Graph) :
    callsProj ((resolve_library_invocations g).1.classes.take g.classes.length) =
      callsProj g.classes ∧
    callsEmptyOk ((resolve_library_invocations g).1.classes.drop g.classes.length) = true := by
  unfold resolve_library_invocations
  simp only []
  have hP := @foldl_inv LibState Nat
    (fun st : LibState => callsProj st.classes = callsProj g.classes ∧
      st.classes.length = g.classes.length ∧ callsEmptyOk st.generated = true)
    (fun st i => resolveLibList i st ((st.classes.getD i default).invocations_lib))
    (List.range g.classes.length)
    (fun st a h => resolveLibList_inv (callsProj g.classes) g.classes.length a _ st h)
    { classes := g.classes, generated := [], class_id := g.class_id,
      method_id := g.method_id, block_id := g.block_id,
      instruction_id := g.instruction_id, report := [] }
    ⟨rfl, rfl, rfl⟩
  obtain ⟨p1, p2, p3⟩ := hP
  constructor
  · rw [List.take_left' p2]
    exact p1
  · rw [List.drop_left' p2]
    exact p3


theorem noMid_add_child (b : BasicBlock) (i : Nat) :
    noMidTerminators (b.add_child_block_id i) = noMidTerminators b := rfl

theorem noMid_add_parent (b : BasicBlock) (i : Nat) :
    noMidTerminators (b.add_parent_block_id i) = noMidTerminators b := rfl

theorem noMid_mk (bid : Nat) (i : Instruction) :
    noMidTerminators (mkBasicBlock bid i) = true := rfl

theorem lastNotTerm_mk (bid : Nat) (i : Instruction) :
    lastNotTerm (mkBasicBlock bid i) = !isTerminator i := rfl

theorem noMid_append (b : BasicBlock) (i : Instruction)
    (hb : noMidTerminators b = true) (hl : lastNotTerm b = true) :
    noMidTerminators (b.add_instruction i) = true := by
  unfold noMidTerminators BasicBlock.add_instruction at *
  unfold lastNotTerm at hl
  simp only [List.dropLast_concat]
  rcases hn : b.instructions with _ | ⟨x, xs⟩
  · simp
  · rw [hn] at hb hl
    have hne : x :: xs ≠ [] := by simp
    rw [← List.dropLast_append_getLast hne]
    simp only [List.all_append, List.all_cons, List.all_nil, Bool.and_eq_true]
    refine ⟨by simpa using hb, ?_, trivial⟩
    rw [List.getLastD_eq_getLast?] at hl
    rw [List.getLast?_eq_getLast _ hne] at hl
    simpa using hl

theorem lastNotTerm_append (b : BasicBlock) (i : Instruction) :
    lastNotTerm (b.add_instruction i) = !isTerminator i := by
  unfold lastNotTerm BasicBlock.add_instruction
  simp


theorem mem_stateBlocks_iff (s : Graph) (b : BasicBlock) :
    b ∈ stateBlocks s ↔
      ((∃ c ∈ s.classes, ∃ m ∈ c.methods, b ∈ m.basic_blocks) ∨
       (∃ c, s.active_class = some c ∧ ∃ m ∈ c.methods, b ∈ m.basic_blocks) ∨
       (∃ m, s.active_method = some m ∧ b ∈ m.basic_blocks) ∨
       s.active_block = some b) := by
  unfold stateBlocks stateMethods stateClasses optList
  cases s.active_class <;> cases s.active_method <;> cases s.active_block <;>
    simp [List.mem_flatMap, List.mem_append] <;> aesop


theorem inv2_terminate (s : Graph) (instr : Instruction) (s' : Graph)
    (h : terminate_and_start_block s instr = .ok s')
    (hB : ∀ b ∈ stateBlocks s, noMidTerminators b = true) :
    (∀ b ∈ stateBlocks s', noMidTerminators b = true) ∧
    (∃ nb, s'.active_block = some nb ∧ nb.instructions = [instr]) ∧
    s'.block_term = false ∧
    s'.classes = s.classes ∧ s'.active_class = s.active_class := by
  unfold terminate_and_start_block at h
  split at h
  case h_1 b heqb =>
    split at h
    case h_1 heqm => exact absurd h (by simp)
    case h_2 m heqm =>
      rw [Except.ok.injEq] at h
      subst h
      refine ⟨?_, ⟨_, rfl, rfl⟩, rfl, rfl, rfl⟩
      intro b' hb'
      rw [mem_stateBlocks_iff] at hb'
      simp only [Method.add_basic_block, List.mem_append, List.mem_singleton,
        Option.some.injEq] at hb'
      rcases hb' with hcl | hac | ⟨m', hm', hbm⟩ | hnb
      · exact hB b' ((mem_stateBlocks_iff s b').mpr (Or.inl hcl))
      · exact hB b' ((mem_stateBlocks_iff s b').mpr (Or.inr (Or.inl hac)))
      · subst hm'
        simp only [Method.add_basic_block, List.mem_append, List.mem_singleton] at hbm
        rcases hbm with hbm | hbm
        · exact hB b' ((mem_stateBlocks_iff s b').mpr (Or.inr (Or.inr (Or.inl ⟨m, heqm, hbm⟩))))
        · rw [hbm, noMid_add_child]
          exact hB b ((mem_stateBlocks_iff s b).mpr (Or.inr (Or.inr (Or.inr heqb))))
      · rw [← hnb, noMid_add_parent, noMid_mk]
  case h_2 heqb =>
    rw [Except.ok.injEq] at h
    subst h
    refine ⟨?_, ⟨_, rfl, rfl⟩, rfl, rfl, rfl⟩
    intro b' hb'
    rw [mem_stateBlocks_iff] at hb'
    simp only [Option.some.injEq] at hb'
    rcases hb' with hcl | hac | hm | hnb
    · exact hB b' ((mem_stateBlocks_iff s b').mpr (Or.inl hcl))
    · exact hB b' ((mem_stateBlocks_iff s b').mpr (Or.inr (Or.inl hac)))
    · exact hB b' ((mem_stateBlocks_iff s b').mpr (Or.inr (Or.inr (Or.inl hm))))
    · rw [← hnb, noMid_mk]


theorem inv2_append (s : Graph) (instr : Instruction) (s' : Graph)
    (h : append_or_start s instr = .ok s')
    (hInv : Inv2 s) :
    (∀ b ∈ stateBlocks s', noMidTerminators b = true) ∧
    (∃ nb, s'.active_block = some nb ∧ nb.instructions.getLastD default = instr) ∧
    s'.block_term = false ∧
    s'.classes = s.classes ∧ s'.active_class = s.active_class := by
  unfold append_or_start at h
  split at h
  case isTrue hterm =>
    obtain ⟨c1, ⟨nb, hnb, hins⟩, c3, c4, c5⟩ := inv2_terminate s instr s' h hInv.1
    refine ⟨c1, ⟨nb, hnb, ?_⟩, c3, c4, c5⟩
    rw [hins]
    rfl
  case isFalse hterm =>
    split at h
    case h_1 b heqb =>
      rw [Except.ok.injEq] at h
      subst h
      have hfalse : s.block_term = false := by
        cases hbt : s.block_term
        · rfl
        · exact absurd hbt hterm
      have hlast : lastNotTerm b = true := hInv.2 hfalse b heqb
      refine ⟨?_, ⟨_, rfl, ?_⟩, hfalse, rfl, rfl⟩
      · intro b' hb'
        rw [mem_stateBlocks_iff] at hb'
        simp only [Option.some.injEq] at hb'
        rcases hb' with hcl | hac | hm | hnb
        · exact hInv.1 b' ((mem_stateBlocks_iff s b').mpr (Or.inl hcl))
        · exact hInv.1 b' ((mem_stateBlocks_iff s b').mpr (Or.inr (Or.inl hac)))
        · exact hInv.1 b' ((mem_stateBlocks_iff s b').mpr (Or.inr (Or.inr (Or.inl hm))))
        · rw [← hnb]
          exact noMid_append b instr
            (hInv.1 b ((mem_stateBlocks_iff s b).mpr (Or.inr (Or.inr (Or.inr heqb)))))
            hlast
      · simp [BasicBlock.add_instruction]
    case h_2 heqb => exact absurd h (by simp)


theorem blocks_add_annot (m : Method) (l : String) :
    (m.add_annot l).basic_blocks = m.basic_blocks := rfl

theorem blocks_add_label_call (m : Method) (instr : String) (bid : Nat) :
    (m.add_label_call instr bid).basic_blocks = m.basic_blocks := rfl

theorem methods_add_field (c : SmaliClass) (l : String) :
    (c.add_field l).methods = c.methods := rfl

theorem methods_add_annot (c : SmaliClass) (l : String) :
    (c.add_annot l).methods = c.methods := rfl

theorem methods_add_super (c : SmaliClass) (l : String) :
    (c.add_super l).methods = c.methods := rfl

theorem methods_add_source (c : SmaliClass) (l : String) :
    (c.add_source l).methods = c.methods := rfl

theorem methods_mk_class (cid : Nat) (hdr : String) :
    (mkSmaliClass cid hdr).methods = [] := rfl

theorem methods_add_invocation (c : SmaliClass) (instr : String)
    (mid bid : Nat) (fl : List String) (c' : SmaliClass) (fl' : List String)
    (h : c.add_invocation instr mid bid fl = .ok (c', fl')) :
    c'.methods = c.methods := by
  unfold SmaliClass.add_invocation at h
  simp only [] at h
  repeat' split at h
  all_goals
    first
      | (injection h with h; injection h with h1 h2; subst h1; rfl)
      | exact absurd h (by simp)

theorem inv2_set_method (s : Graph) (m m' : Method)
    (hm : s.active_method = some m) (he : m'.basic_blocks = m.basic_blocks)
    (hInv : Inv2 s) : Inv2 { s with active_method := some m' } := by
  constructor
  · intro b hb
    rw [mem_stateBlocks_iff] at hb
    simp only [Option.some.injEq] at hb
    rcases hb with hcl | hac | ⟨m'', hm'', hbm⟩ | hnb
    · exact hInv.1 b ((mem_stateBlocks_iff s b).mpr (Or.inl hcl))
    · exact hInv.1 b ((mem_stateBlocks_iff s b).mpr (Or.inr (Or.inl hac)))
    · subst hm''
      rw [he] at hbm
      exact hInv.1 b ((mem_stateBlocks_iff s b).mpr (Or.inr (Or.inr (Or.inl ⟨m, hm, hbm⟩))))
    · exact hInv.1 b ((mem_stateBlocks_iff s b).mpr (Or.inr (Or.inr (Or.inr hnb))))
  · intro hbt b hb
    exact hInv.2 hbt b hb

theorem inv2_set_method_clear_block (s : Graph) (m m' : Method)
    (hm : s.active_method = some m) (he : m'.basic_blocks = m.basic_blocks)
    (hInv : Inv2 s) : Inv2 { s with active_method := some m', active_block := none } := by
  constructor
  · intro b hb
    rw [mem_stateBlocks_iff] at hb
    simp only [Option.some.injEq] at hb
    rcases hb with hcl | hac | ⟨m'', hm'', hbm⟩ | hnb
    · exact hInv.1 b ((mem_stateBlocks_iff s b).mpr (Or.inl hcl))
    · exact hInv.1 b ((mem_stateBlocks_iff s b).mpr (Or.inr (Or.inl hac)))
    · subst hm''
      rw [he] at hbm
      exact hInv.1 b ((mem_stateBlocks_iff s b).mpr (Or.inr (Or.inr (Or.inl ⟨m, hm, hbm⟩))))
    · exact absurd hnb (by simp)
  · intro hbt b hb
    exact absurd hb (by simp)

theorem inv2_set_class (s : Graph) (c c' : SmaliClass)
    (hc : s.active_class = some c) (he : c'.methods = c.methods)
    (hInv : Inv2 s) : Inv2 { s with active_class := some c' } := by
  constructor
  · intro b hb
    rw [mem_stateBlocks_iff] at hb
    simp only [Option.some.injEq] at hb
    rcases hb with hcl | ⟨c'', hc'', hbm⟩ | hm | hnb
    · exact hInv.1 b ((mem_stateBlocks_iff s b).mpr (Or.inl hcl))
    · subst hc''
      rw [he] at hbm
      exact hInv.1 b ((mem_stateBlocks_iff s b).mpr (Or.inr (Or.inl ⟨c, hc, hbm⟩)))
    · exact hInv.1 b ((mem_stateBlocks_iff s b).mpr (Or.inr (Or.inr (Or.inl hm))))
    · exact hInv.1 b ((mem_stateBlocks_iff s b).mpr (Or.inr (Or.inr (Or.inr hnb))))
  · intro hbt b hb
    exact hInv.2 hbt b hb

theorem inv2_new_class (s : Graph) (c' : SmaliClass) (k : Nat) (he : c'.methods = [])
    (hInv : Inv2 s) : Inv2 { s with active_class := some c', class_id := k } := by
  constructor
  · intro b hb
    rw [mem_stateBlocks_iff] at hb
    simp only [Option.some.injEq] at hb
    rcases hb with hcl | ⟨c'', hc'', hbm⟩ | hm | hnb
    · exact hInv.1 b ((mem_stateBlocks_iff s b).mpr (Or.inl hcl))
    · subst hc''
      rw [he] at hbm
      simp at hbm
    · exact hInv.1 b ((mem_stateBlocks_iff s b).mpr (Or.inr (Or.inr (Or.inl hm))))
    · exact hInv.1 b ((mem_stateBlocks_iff s b).mpr (Or.inr (Or.inr (Or.inr hnb))))
  · intro hbt b hb
    exact hInv.2 hbt b hb

theorem resolve_labels_all (m : Method) (P : BasicBlock → Bool)
    (hs1 : ∀ b i, P (b.add_child_block_id i) = P b)
    (hs2 : ∀ b i, P (b.add_parent_block_id i) = P b)
    (h : m.basic_blocks.all P = true) :
    (m.resolve_labels).1.basic_blocks.all P = true := by
  unfold Method.resolve_labels
  simp only []
  apply @foldl_inv (List BasicBlock) (String × Nat) (fun bs => bs.all P = true)
  · intro bs lc hbs
    split
    · split
      · apply all_listModify ?_ _ _ (all_listModify ?_ _ _ hbs)
        · intro b hb
          rw [hs2]
          exact hb
        · intro b hb
          rw [hs1]
          exact hb
      · exact hbs
    · exact hbs
  · exact h

theorem classesAllB_append (P : BasicBlock → Bool) (a b : List SmaliClass) :
    classesAllB P (a ++ b) = (classesAllB P a && classesAllB P b) := by
  unfold classesAllB
  exact List.all_append

theorem methodAll_modifyBlock (P : BasicBlock → Bool) (bi : Nat)
    (f : BasicBlock → BasicBlock) (hf : ∀ b, P (f b) = P b) (m : Method)
    (h : m.basic_blocks.all P = true) :
    (methodModifyBlock bi f m).basic_blocks.all P = true := by
  unfold methodModifyBlock
  exact all_listModify (fun b hb => by rw [hf]; exact hb) bi _ h

theorem classesAllB_modifyBlock (P : BasicBlock → Bool) (ci mi bi : Nat)
    (f : BasicBlock → BasicBlock) (hf : ∀ b, P (f b) = P b)
    (cs : List SmaliClass) (h : classesAllB P cs = true) :
    classesAllB P (classesModifyBlock ci mi bi f cs) = true := by
  unfold classesAllB classesModifyBlock classesModifyMethod at *
  refine all_listModify ?_ ci cs h
  intro c hc
  refine all_listModify ?_ mi c.methods hc
  intro m hm
  exact methodAll_modifyBlock P bi f hf m hm

theorem classesAllB_modifyMethodCalls (P : BasicBlock → Bool) (ci mi : Nat)
    (f : Method → Method) (hf : ∀ m, (f m).basic_blocks = m.basic_blocks)
    (cs : List SmaliClass) (h : classesAllB P cs = true) :
    classesAllB P (classesModifyMethod ci mi f cs) = true := by
  unfold classesAllB classesModifyMethod at *
  refine all_listModify ?_ ci cs h
  intro c hc
  refine all_listModify ?_ mi c.methods hc
  intro m hm
  show (f m).basic_blocks.all P = true
  rw [hf]
  exact hm

theorem isTerm_method_start (instr : String) (a b c d e : Nat) :
    isTerminator (mkInstr instr "method_start" a b c d e) = false := rfl

theorem isTerm_label (instr : String) (a b c d e : Nat) :
    isTerminator (mkInstr instr "label" a b c d e) = false := rfl

theorem isTerm_other (instr : String) (a b c d e : Nat) :
    isTerminator (mkInstr instr "other" a b c d e) = false := rfl

theorem classesAllB_mm_callin (P : BasicBlock → Bool) (ci mi k : Nat)
    (cs : List SmaliClass) (h : classesAllB P cs = true) :
    classesAllB P (classesModifyMethod ci mi (fun m => m.add_call_in k) cs) = true :=
  classesAllB_modifyMethodCalls P ci mi (fun m => m.add_call_in k) (fun m => rfl) cs h

theorem classesAllB_mm_callout (P : BasicBlock → Bool) (ci mi k : Nat)
    (cs : List SmaliClass) (h : classesAllB P cs = true) :
    classesAllB P (classesModifyMethod ci mi (fun m => m.add_call_out k) cs) = true :=
  classesAllB_modifyMethodCalls P ci mi (fun m => m.add_call_out k) (fun m => rfl) cs h

theorem classesAllB_mb_child (P : BasicBlock → Bool) (hS : BlockStable P)
    (ci mi bi k : Nat) (cs : List SmaliClass) (h : classesAllB P cs = true) :
    classesAllB P (classesModifyBlock ci mi bi (fun b => b.add_child_block_id k) cs) = true :=
  classesAllB_modifyBlock P ci mi bi (fun b => b.add_child_block_id k) (fun b => hS.1 b k) cs h

theorem classesAllB_mb_parent (P : BasicBlock → Bool) (hS : BlockStable P)
    (ci mi bi k : Nat) (cs : List SmaliClass) (h : classesAllB P cs = true) :
    classesAllB P (classesModifyBlock ci mi bi (fun b => b.add_parent_block_id k) cs) = true :=
  classesAllB_modifyBlock P ci mi bi (fun b => b.add_parent_block_id k) (fun b => hS.2 b k) cs h

theorem resolveOneGlobal_allB (P : BasicBlock → Bool) (hS : BlockStable P)
    (cs : List SmaliClass) (i : Nat) (inv : Nat × Nat × String × String)
    (cs' : List SmaliClass) (h : resolveOneGlobal cs i inv = .ok (.inl cs'))
    (hall : classesAllB P cs = true) : classesAllB P cs' = true := by
  unfold resolveOneGlobal at h
  simp only [] at h
  repeat' split at h
  all_goals
    first
      | (injection h with h; injection h with h; subst h;
         repeat'
           first
             | exact hall
             | refine classesAllB_mm_callin P _ _ _ _ ?_
             | refine classesAllB_mm_callout P _ _ _ _ ?_
             | refine classesAllB_mb_child P hS _ _ _ _ _ ?_
             | refine classesAllB_mb_parent P hS _ _ _ _ _ ?_)
      | (injection h with h; injection h)
      | injection h

theorem resolveGlobalList_allB (P : BasicBlock → Bool) (hS : BlockStable P)
    (invs : List (Nat × Nat × String × String)) :
    ∀ (i : Nat) (cs : List SmaliClass) (rep : List String)
      (cs' : List SmaliClass) (rep' : List String),
    resolveGlobalList i cs invs rep = .ok (cs', rep') →
    classesAllB P cs = true → classesAllB P cs' = true := by
  induction invs with
  | nil =>
    intro i cs rep cs' rep' h hall
    unfold resolveGlobalList at h
    injection h with h
    injection h with h1 h2
    subst h1
    exact hall
  | cons inv rest ih =>
    intro i cs rep cs' rep' h hall
    unfold resolveGlobalList at h
    split at h
    case h_1 => injection h
    case h_2 cs0 heq =>
      exact ih i cs0 rep cs' rep' h (resolveOneGlobal_allB P hS cs i inv cs0 heq hall)
    case h_3 msg heq =>
      injection h with h
      injection h with h1 h2
      subst h1
      exact hall

theorem resolve_global_allB (P : BasicBlock → Bool) (hS : BlockStable P)
    (classes cs' : List SmaliClass) (rep' : List String)
    (h : resolve_global_invocations classes = .ok (cs', rep'))
    (hall : classesAllB P classes = true) : classesAllB P cs' = true := by
  unfold resolve_global_invocations at h
  have hq := foldl_inv
    (P := fun (acc : Except String (List SmaliClass × List String)) =>
      ∀ cs rep, acc = .ok (cs, rep) → classesAllB P cs = true)
    (fun acc i =>
      match acc with
      | .error e => .error e
      | .ok (cs, rep) => resolveGlobalList i cs ((cs.getD i default).invocations_global) rep)
    (List.range classes.length)
    ?_ (.ok (classes, [])) ?_
  · exact hq cs' rep' h
  · intro st a hst
    cases st with
    | error e => intro cs rep hcs; injection hcs
    | ok p =>
      obtain ⟨cs0, rep0⟩ := p
      intro cs rep hcs
      exact resolveGlobalList_allB P hS _ a cs0 rep0 cs rep hcs (hst cs0 rep0 rfl)
  · intro cs rep hcs
    injection hcs with hcs
    injection hcs with h1 h2
    subst h1
    exact hall

theorem libFindOrCreate_allB (P : BasicBlock → Bool)
    (hmk : ∀ bid i, P (mkBasicBlock bid i) = true)
    (st : LibState) (tcn tmn : String)
    (hc : classesAllB P st.classes = true) (hg : classesAllB P st.generated = true) :
    classesAllB P (libFindOrCreate st tcn tmn).1.classes = true ∧
    classesAllB P (libFindOrCreate st tcn tmn).1.generated = true := by
  have haddm : ∀ (gen : List SmaliClass) (gi mid : Nat) (s : String) (bid : Nat)
      (ins : Instruction), classesAllB P gen = true →
      classesAllB P (listModify
        (fun c => c.add_method ((mkMethod mid s).add_basic_block (mkBasicBlock bid ins)))
        gi gen) = true := by
    intro gen gi mid s bid ins hgen
    apply all_listModify ?_ _ _ hgen
    intro c hcm
    simp only [SmaliClass.add_method, List.all_append, List.all_cons, List.all_nil,
      Bool.and_eq_true]
    refine ⟨hcm, ?_, trivial⟩
    show (([] : List BasicBlock) ++ [mkBasicBlock bid ins]).all P = true
    simp [hmk]
  have happ : ∀ (gen : List SmaliClass) (cid : Nat) (hdr : String),
      classesAllB P gen = true →
      classesAllB P (gen ++ [mkSmaliClass cid hdr]) = true := by
    intro gen cid hdr hgen
    have e3 : (mkSmaliClass cid hdr).methods = [] := rfl
    simp only [classesAllB, List.all_append, List.all_cons, List.all_nil,
      Bool.and_eq_true] at *
    simp [e3, hgen]
  unfold libFindOrCreate
  cases hcc : st.generated.findIdx?
      (fun g => g.class_path ++ "/" ++ g.class_name == tcn) <;>
    simp only [hcc] <;> split <;>
    refine ⟨hc, ?_⟩ <;>
    first
      | exact hg
      | exact haddm _ _ _ _ _ _ hg
      | exact happ _ _ _ hg
      | exact haddm _ _ _ _ _ _ (happ _ _ _ hg)

theorem libLink_allB (P : BasicBlock → Bool) (hS : BlockStable P)
    (st : LibState) (i gi tmi sm sb : Nat) (tcn tmn : String)
    (hc : classesAllB P st.classes = true) (hg : classesAllB P st.generated = true) :
    classesAllB P (sumStateLib (libLink st i gi tmi sm sb tcn tmn)).classes = true ∧
    classesAllB P (sumStateLib (libLink st i gi tmi sm sb tcn tmn)).generated = true := by
  unfold libLink
  simp only []
  split
  · exact ⟨hc, hg⟩
  · split
    · exact ⟨hc, hg⟩
    · split <;>
      · constructor
        · simp only [sumStateLib]
          repeat'
            first
              | exact hc
              | refine classesAllB_mb_child P hS _ _ _ _ _ ?_
              | refine classesAllB_mb_parent P hS _ _ _ _ _ ?_
        · simp only [sumStateLib]
          repeat'
            first
              | exact hg
              | refine classesAllB_mb_child P hS _ _ _ _ _ ?_
              | refine classesAllB_mb_parent P hS _ _ _ _ _ ?_

theorem resolveOneLib_allB (P : BasicBlock → Bool) (hS : BlockStable P)
    (hmk : ∀ bid i, P (mkBasicBlock bid i) = true)
    (st : LibState) (i : Nat) (inv : Nat × Nat × String × String)
    (hc : classesAllB P st.classes = true) (hg : classesAllB P st.generated = true) :
    classesAllB P (sumStateLib (resolveOneLib st i inv)).classes = true ∧
    classesAllB P (sumStateLib (resolveOneLib st i inv)).generated = true := by
  obtain ⟨sm, sb, tcn, tmn⟩ := inv
  unfold resolveOneLib
  simp only []
  obtain ⟨k1, k2⟩ := libFindOrCreate_allB P hmk st tcn tmn hc hg
  exact libLink_allB P hS _ i _ _ sm sb tcn tmn k1 k2

theorem resolveLibList_allB (P : BasicBlock → Bool) (hS : BlockStable P)
    (hmk : ∀ bid i, P (mkBasicBlock bid i) = true)
    (i : Nat) (invs : List (Nat × Nat × String × String)) :
    ∀ st : LibState,
    classesAllB P st.classes = true ∧ classesAllB P st.generated = true →
    classesAllB P (resolveLibList i st invs).classes = true ∧
    classesAllB P (resolveLibList i st invs).generated = true := by
  induction invs with
  | nil => intro st h; exact h
  | cons inv rest ih =>
    intro st h
    have hone := resolveOneLib_allB P hS hmk st i inv h.1 h.2
    unfold resolveLibList
    cases hres : resolveOneLib st i inv with
    | inl st' =>
      rw [hres] at hone
      simp only [sumStateLib] at hone
      exact ih st' hone
    | inr p =>
      obtain ⟨st', msg⟩ := p
      rw [hres] at hone
      simp only [sumStateLib] at hone
      exact hone

theorem resolve_library_allB (P : BasicBlock → Bool) (hS : BlockStable P)
    (hmk : ∀ bid i, P (mkBasicBlock bid i) = true)
    (g : Graph) (hall : classesAllB P g.classes = true) :
    classesAllB P (resolve_library_invocations g).1.classes = true := by
  unfold resolve_library_invocations
  simp only []
  have hq := @foldl_inv LibState Nat
    (fun st : LibState => classesAllB P st.classes = true ∧
      classesAllB P st.generated = true)
    (fun st i => resolveLibList i st ((st.classes.getD i default).invocations_lib))
    (List.range g.classes.length)
    (fun st a h => resolveLibList_allB P hS hmk a _ st h)
    { classes := g.classes, generated := [], class_id := g.class_id,
      method_id := g.method_id, block_id := g.block_id,
      instruction_id := g.instruction_id, report := [] }
    ⟨hall, rfl⟩
  rw [classesAllB_append, Bool.and_eq_true]
  exact ⟨hq.1, hq.2⟩

theorem methodsAll_mlm_child (P : BasicBlock → Bool) (hS : BlockStable P)
    (si bi k : Nat) (ms : List Method)
    (h : ms.all (fun m => m.basic_blocks.all P) = true) :
    (listModify (methodModifyBlock bi (fun b => b.add_child_block_id k)) si ms).all
      (fun m => m.basic_blocks.all P) = true :=
  all_listModify (fun m hm => methodAll_modifyBlock P bi _ (fun b => hS.1 b k) m hm) si ms h

theorem methodsAll_mlm_parent (P : BasicBlock → Bool) (hS : BlockStable P)
    (si bi k : Nat) (ms : List Method)
    (h : ms.all (fun m => m.basic_blocks.all P) = true) :
    (listModify (methodModifyBlock bi (fun b => b.add_parent_block_id k)) si ms).all
      (fun m => m.basic_blocks.all P) = true :=
  all_listModify (fun m hm => methodAll_modifyBlock P bi _ (fun b => hS.2 b k) m hm) si ms h

theorem methodsAll_mlm_callout (P : BasicBlock → Bool) (si k : Nat) (ms : List Method)
    (h : ms.all (fun m => m.basic_blocks.all P) = true) :
    (listModify (fun m => m.add_call_out k) si ms).all
      (fun m => m.basic_blocks.all P) = true :=
  @all_listModify Method (fun m => m.basic_blocks.all P)
    (fun m => m.add_call_out k) (fun m hm => hm) si ms h

theorem methodsAll_mlm_callin (P : BasicBlock → Bool) (si k : Nat) (ms : List Method)
    (h : ms.all (fun m => m.basic_blocks.all P) = true) :
    (listModify (fun m => m.add_call_in k) si ms).all
      (fun m => m.basic_blocks.all P) = true :=
  @all_listModify Method (fun m => m.basic_blocks.all P)
    (fun m => m.add_call_in k) (fun m hm => hm) si ms h

theorem resolve_local_allB (P : BasicBlock → Bool) (hS : BlockStable P)
    (c c' : SmaliClass) (rep : List String)
    (h : c.resolve_local_invocations = .ok (c', rep))
    (hall : c.methods.all (fun m => m.basic_blocks.all P) = true) :
    c'.methods.all (fun m => m.basic_blocks.all P) = true := by
  unfold SmaliClass.resolve_local_invocations at h
  simp only [] at h
  split at h
  case h_1 => injection h
  case h_2 ms fl heq =>
    injection h with h
    injection h with h1 h2
    subst h1
    show ms.all (fun m => m.basic_blocks.all P) = true
    refine @foldl_inv (Except String (List Method × Bool)) (Nat × Nat × String)
      (fun acc => ∀ ms2 fl2, acc = .ok (ms2, fl2) →
        ms2.all (fun m => m.basic_blocks.all P) = true)
      _ c.invocations_local ?_ (.ok (c.methods, false)) ?_ ms fl heq
    · intro acc inv hacc ms2 fl2 hms
      obtain ⟨ia, ib, ic⟩ := inv
      simp only [] at hms
      cases acc with
      | error e => injection hms
      | ok p =>
        obtain ⟨ms0, fl0⟩ := p
        have hms0 : ms0.all (fun m => m.basic_blocks.all P) = true := hacc ms0 fl0 rfl
        simp only [] at hms
        repeat' split at hms
        all_goals
          first
            | (injection hms with hms; injection hms with e1 e2; subst e1;
               repeat'
                 first
                   | exact hms0
                   | refine methodsAll_mlm_child P hS _ _ _ _ ?_
                   | refine methodsAll_mlm_parent P hS _ _ _ _ ?_
                   | refine methodsAll_mlm_callout P _ _ _ ?_
                   | refine methodsAll_mlm_callin P _ _ _ ?_)
            | (injection hms with hms; injection hms)
            | injection hms
    · intro ms2 fl2 hms
      injection hms with hms
      injection hms with e1 e2
      subst e1
      exact hall

theorem inv2_method_start_none (s : Graph) (m1 : Method) (bk : BasicBlock)
    (k1 k2 k3 : Nat) (hm1 : m1.basic_blocks = [])
    (hbk : noMidTerminators bk = true) (hlt : lastNotTerm bk = true)
    (hInv : Inv2 s) :
    Inv2 { s with active_method := some m1, active_block := some bk,
                  method_id := k1, instruction_id := k2, block_id := k3,
                  block_term := false } := by
  constructor
  · intro b hb
    rw [mem_stateBlocks_iff] at hb
    simp only [Option.some.injEq] at hb
    rcases hb with hcl | hac | ⟨m2, hm2, hbm⟩ | hnb
    · exact hInv.1 b ((mem_stateBlocks_iff s b).mpr (Or.inl hcl))
    · exact hInv.1 b ((mem_stateBlocks_iff s b).mpr (Or.inr (Or.inl hac)))
    · rw [← hm2, hm1] at hbm
      simp at hbm
    · rw [← hnb]
      exact hbk
  · intro _ b hb
    simp only [Option.some.injEq] at hb
    rw [← hb]
    exact hlt

theorem inv2_method_start_prev (s : Graph) (cls : SmaliClass) (prevm : Method)
    (pb : BasicBlock) (m1 : Method) (bk : BasicBlock) (k1 k2 k3 : Nat)
    (hc : s.active_class = some cls) (hm : s.active_method = some prevm)
    (hb : s.active_block = some pb) (hm1 : m1.basic_blocks = [])
    (hbk : noMidTerminators bk = true) (hlt : lastNotTerm bk = true)
    (hInv : Inv2 s) :
    Inv2 { s with active_class := some (cls.add_method (prevm.add_basic_block pb)),
                  active_method := some m1, active_block := some bk,
                  method_id := k1, instruction_id := k2, block_id := k3,
                  block_term := false } := by
  constructor
  · intro b hb'
    rw [mem_stateBlocks_iff] at hb'
    simp only [Option.some.injEq] at hb'
    rcases hb' with hcl | ⟨c2, hc2, m2, hm2, hbm⟩ | ⟨m2, hm2, hbm⟩ | hnb
    · exact hInv.1 b ((mem_stateBlocks_iff s b).mpr (Or.inl hcl))
    · rw [← hc2] at hm2
      simp only [SmaliClass.add_method, List.mem_append, List.mem_singleton] at hm2
      rcases hm2 with hm2 | hm2
      · exact hInv.1 b ((mem_stateBlocks_iff s b).mpr (Or.inr (Or.inl ⟨cls, hc, m2, hm2, hbm⟩)))
      · rw [hm2] at hbm
        simp only [Method.add_basic_block, List.mem_append, List.mem_singleton] at hbm
        rcases hbm with hbm | hbm
        · exact hInv.1 b ((mem_stateBlocks_iff s b).mpr (Or.inr (Or.inr (Or.inl ⟨prevm, hm, hbm⟩))))
        · rw [hbm]
          exact hInv.1 pb ((mem_stateBlocks_iff s pb).mpr (Or.inr (Or.inr (Or.inr hb))))
    · rw [← hm2, hm1] at hbm
      simp at hbm
    · rw [← hnb]
      exact hbk
  · intro _ b hb'
    simp only [Option.some.injEq] at hb'
    rw [← hb']
    exact hlt

theorem inv2_method_end_branch (s₀ s₁ : Graph) (ins : Instruction) (m2 : Method)
    (h2 : append_or_start s₀ ins = .ok s₁)
    (h3 : s₁.active_method = some m2) (hInv : Inv2 s₀) :
    Inv2 { s₁ with active_method := some m2.resolve_labels.1, block_term := true } := by
  obtain ⟨c1, _, _, _, _⟩ := inv2_append s₀ ins s₁ h2 hInv
  constructor
  · intro b hb
    rw [mem_stateBlocks_iff] at hb
    simp only [Option.some.injEq] at hb
    rcases hb with hcl | hac | ⟨m4, hm4, hbm⟩ | hnb
    · exact c1 b ((mem_stateBlocks_iff s₁ b).mpr (Or.inl hcl))
    · exact c1 b ((mem_stateBlocks_iff s₁ b).mpr (Or.inr (Or.inl hac)))
    · have hall : m2.basic_blocks.all noMidTerminators = true := by
        rw [List.all_eq_true]
        intro x hx
        exact c1 x ((mem_stateBlocks_iff s₁ x).mpr (Or.inr (Or.inr (Or.inl ⟨m2, h3, hx⟩))))
      have hall3 := resolve_labels_all m2 noMidTerminators
        (fun b i => noMid_add_child b i) (fun b i => noMid_add_parent b i) hall
      rw [← hm4] at hbm
      exact (List.all_eq_true).mp hall3 b hbm
    · exact c1 b ((mem_stateBlocks_iff s₁ b).mpr (Or.inr (Or.inr (Or.inr hnb))))
  · intro hbt
    exact absurd hbt (by simp)

theorem inv2_label_branch (s : Graph) (m : Method) (b : BasicBlock) (nb : BasicBlock)
    (cid k1 k2 : Nat) (hm : s.active_method = some m) (hb : s.active_block = some b)
    (hnb : noMidTerminators nb = true) (hlt : lastNotTerm nb = true) (hInv : Inv2 s) :
    Inv2 { s with active_method := some (m.add_basic_block (b.add_child_block_id cid)),
                  active_block := some nb, instruction_id := k1, block_id := k2 } := by
  constructor
  · intro b' hb'
    rw [mem_stateBlocks_iff] at hb'
    simp only [Option.some.injEq] at hb'
    rcases hb' with hcl | hac | ⟨m2, hm2, hbm⟩ | hnb'
    · exact hInv.1 b' ((mem_stateBlocks_iff s b').mpr (Or.inl hcl))
    · exact hInv.1 b' ((mem_stateBlocks_iff s b').mpr (Or.inr (Or.inl hac)))
    · rw [← hm2] at hbm
      simp only [Method.add_basic_block, List.mem_append, List.mem_singleton] at hbm
      rcases hbm with hbm | hbm
      · exact hInv.1 b' ((mem_stateBlocks_iff s b').mpr (Or.inr (Or.inr (Or.inl ⟨m, hm, hbm⟩))))
      · rw [hbm, noMid_add_child]
        exact hInv.1 b ((mem_stateBlocks_iff s b).mpr (Or.inr (Or.inr (Or.inr hb))))
    · rw [← hnb']
      exact hnb
  · intro _ b' hb'
    simp only [Option.some.injEq] at hb'
    rw [← hb']
    exact hlt

theorem inv2_term_true (s₀ s₁ : Graph) (ins : Instruction)
    (h2 : append_or_start s₀ ins = .ok s₁) (hInv : Inv2 s₀) :
    Inv2 { s₁ with block_term := true } := by
  obtain ⟨c1, _, _, _, _⟩ := inv2_append s₀ ins s₁ h2 hInv
  exact ⟨fun b hb => c1 b hb, fun hbt => absurd hbt (by simp)⟩

theorem inv2_label_call_true (s₀ s₁ : Graph) (ins : Instruction) (m2 m3 : Method)
    (h2 : append_or_start s₀ ins = .ok s₁) (hm : s₁.active_method = some m2)
    (he : m3.basic_blocks = m2.basic_blocks) (hInv : Inv2 s₀) :
    Inv2 { s₁ with active_method := some m3, block_term := true } := by
  obtain ⟨c1, _, _, _, _⟩ := inv2_append s₀ ins s₁ h2 hInv
  constructor
  · intro b hb
    rw [mem_stateBlocks_iff] at hb
    simp only [Option.some.injEq] at hb
    rcases hb with hcl | hac | ⟨m4, hm4, hbm⟩ | hnb
    · exact c1 b ((mem_stateBlocks_iff s₁ b).mpr (Or.inl hcl))
    · exact c1 b ((mem_stateBlocks_iff s₁ b).mpr (Or.inr (Or.inl hac)))
    · rw [← hm4, he] at hbm
      exact c1 b ((mem_stateBlocks_iff s₁ b).mpr (Or.inr (Or.inr (Or.inl ⟨m2, hm, hbm⟩))))
    · exact c1 b ((mem_stateBlocks_iff s₁ b).mpr (Or.inr (Or.inr (Or.inr hnb))))
  · intro hbt
    exact absurd hbt (by simp)

theorem inv2_invoke_true (s₀ s₁ : Graph) (ins : Instruction) (cls2 cls3 : SmaliClass)
    (fl : List String) (h2 : append_or_start s₀ ins = .ok s₁)
    (hc : s₁.active_class = some cls2) (he : cls3.methods = cls2.methods)
    (hInv : Inv2 s₀) :
    Inv2 { s₁ with active_class := some cls3, file_list := fl, block_term := true } := by
  obtain ⟨c1, _, _, _, _⟩ := inv2_append s₀ ins s₁ h2 hInv
  constructor
  · intro b hb
    rw [mem_stateBlocks_iff] at hb
    simp only [Option.some.injEq] at hb
    rcases hb with hcl | ⟨c2, hc2, hbm⟩ | hm | hnb
    · exact c1 b ((mem_stateBlocks_iff s₁ b).mpr (Or.inl hcl))
    · rw [← hc2, he] at hbm
      exact c1 b ((mem_stateBlocks_iff s₁ b).mpr (Or.inr (Or.inl ⟨cls2, hc, hbm⟩)))
    · exact c1 b ((mem_stateBlocks_iff s₁ b).mpr (Or.inr (Or.inr (Or.inl hm))))
    · exact c1 b ((mem_stateBlocks_iff s₁ b).mpr (Or.inr (Or.inr (Or.inr hnb))))
  · intro hbt
    exact absurd hbt (by simp)

theorem inv2_append_nonterm (s₀ s' : Graph) (ins : Instruction)
    (h : append_or_start s₀ ins = .ok s') (hterm : isTerminator ins = false)
    (hInv : Inv2 s₀) : Inv2 s' := by
  obtain ⟨c1, ⟨nb, hnb, hlast⟩, _, _, _⟩ := inv2_append s₀ ins s' h hInv
  constructor
  · exact c1
  · intro _ b hb
    rw [hnb] at hb
    injection hb with hb
    rw [← hb]
    unfold lastNotTerm
    rw [hlast, hterm]
    rfl

theorem inv2_bump (s : Graph) (k : Nat) (hInv : Inv2 s) :
    Inv2 { s with instruction_id := k } := hInv

theorem inv2_blocks (s : Graph) (hInv : Inv2 s) :
    ∀ b ∈ stateBlocks s, noMidTerminators b = true := hInv.1

theorem classesAllB_of_inv (s : Graph) (hInv : Inv2 s) :
    classesAllB noMidTerminators s.classes = true := by
  unfold classesAllB
  rw [List.all_eq_true]
  intro c hc
  rw [List.all_eq_true]
  intro m hm
  rw [List.all_eq_true]
  intro b hb
  exact hInv.1 b ((mem_stateBlocks_iff s b).mpr (Or.inl ⟨c, hc, m, hm, hb⟩))

theorem inv2_init : Inv2 (initGraph []) := by
  constructor
  · intro b hb
    simp [stateBlocks, stateMethods, stateClasses, optList, initGraph] at hb
  · intro hbt
    exact absurd hbt (by simp [initGraph])

theorem inv2_reset (s : Graph) (hInv : Inv2 s) :
    Inv2 { s with ANNOTATION_FLAG := false, FIELD_FLAG := false, SWITCH_FLAG := false,
                  METHOD_FLAG := false, active_class := none, active_method := none,
                  active_block := none } := by
  constructor
  · intro b hb
    rw [mem_stateBlocks_iff] at hb
    rcases hb with hcl | ⟨c, hc, _⟩ | ⟨m, hm, _⟩ | hb'
    · exact hInv.1 b ((mem_stateBlocks_iff s b).mpr (Or.inl hcl))
    · exact absurd hc (by simp)
    · exact absurd hm (by simp)
    · exact absurd hb' (by simp)
  · intro _ b hb
    exact absurd hb (by simp)

theorem inv2_flush (s s' : Graph) (h : flushFile s = .ok s') (hInv : Inv2 s) : Inv2 s' := by
  unfold flushFile at h
  split at h
  case h_1 => injection h
  case h_2 cls heqc =>
    split at h
    case h_1 => injection h
    case h_2 m heqm =>
      simp only [] at h
      split at h
      case h_1 => injection h
      case h_2 cls2 rep heqr =>
        injection h with h
        subst h
        have hm2 : ∀ b2 ∈ (match s.active_block with
            | some b => m.add_basic_block b
            | none => m).basic_blocks, noMidTerminators b2 = true := by
          intro b2 hb2
          split at hb2
          case h_1 pb heqb =>
            simp only [Method.add_basic_block, List.mem_append,
              List.mem_singleton] at hb2
            rcases hb2 with hb2 | hb2
            · exact hInv.1 b2 ((mem_stateBlocks_iff s b2).mpr
                (Or.inr (Or.inr (Or.inl ⟨m, heqm, hb2⟩))))
            · rw [hb2]
              exact hInv.1 pb ((mem_stateBlocks_iff s pb).mpr
                (Or.inr (Or.inr (Or.inr heqb))))
          case h_2 heqb =>
            exact hInv.1 b2 ((mem_stateBlocks_iff s b2).mpr
              (Or.inr (Or.inr (Or.inl ⟨m, heqm, hb2⟩))))
        have hall : (cls.add_method (match s.active_block with
            | some b => m.add_basic_block b
            | none => m)).methods.all
            (fun mm => mm.basic_blocks.all noMidTerminators) = true := by
          simp only [SmaliClass.add_method, List.all_append, List.all_cons,
            List.all_nil, Bool.and_eq_true]
          refine ⟨?_, ?_, trivial⟩
          · rw [List.all_eq_true]
            intro mm hmm
            rw [List.all_eq_true]
            intro b2 hb2
            exact hInv.1 b2 ((mem_stateBlocks_iff s b2).mpr
              (Or.inr (Or.inl ⟨cls, heqc, mm, hmm, hb2⟩)))
          · rw [List.all_eq_true]
            exact hm2
        have hall2 := resolve_local_allB noMidTerminators
          ⟨fun b i => noMid_add_child b i, fun b i => noMid_add_parent b i⟩
          _ cls2 rep heqr hall
        constructor
        · intro b hb
          rw [mem_stateBlocks_iff] at hb
          rcases hb with ⟨c, hc, mm, hmm, hb2⟩ | ⟨c, hc, _⟩ | ⟨mm, hmm, _⟩ | hb'
          · simp only [List.mem_append, List.mem_singleton] at hc
            rcases hc with hc | hc
            · exact hInv.1 b ((mem_stateBlocks_iff s b).mpr (Or.inl ⟨c, hc, mm, hmm, hb2⟩))
            · subst hc
              rw [List.all_eq_true] at hall2
              have := hall2 mm hmm
              rw [List.all_eq_true] at this
              exact this b hb2
          · exact absurd hc (by simp)
          · exact absurd hmm (by simp)
          · exact absurd hb' (by simp)
        · intro _ b hb
          exact absurd hb (by simp)

theorem inv2_flags (s : Graph) (a f sw m : Bool) (hInv : Inv2 s) :
    Inv2 { s with ANNOTATION_FLAG := a, FIELD_FLAG := f, SWITCH_FLAG := sw,
                  METHOD_FLAG := m } := hInv

attribute [irreducible] Inv2

theorem inv2_region_annotation (instr : String) (s s' : Graph)
    (h : process_region_annotation instr s = .ok s') (hInv : Inv2 s) : Inv2 s' := by
  unfold process_region_annotation at h
  repeat' (first | split at h | simp only [] at h)
  all_goals
    first
      | (injection h with h; subst h;
         first
           | exact inv2_set_method s _ _ (by assumption) (by rfl) hInv
           | exact inv2_set_class s _ _ (by assumption) (by rfl) hInv)
      | injection h

theorem inv2_region_field (instr : String) (s s' : Graph)
    (h : process_region_field instr s = .ok s') (hInv : Inv2 s) : Inv2 s' := by
  unfold process_region_field at h
  repeat' (first | split at h | simp only [] at h)
  all_goals
    first
      | (injection h with h; subst h;
         exact inv2_set_class s _ _ (by assumption) (by rfl) hInv)
      | injection h

theorem inv2_region_switch (instr : String) (s s' : Graph)
    (h : process_region_switch instr s = .ok s') (hInv : Inv2 s) : Inv2 s' := by
  unfold process_region_switch at h
  repeat' (first | split at h | simp only [] at h)
  all_goals
    first
      | (injection h with h; subst h;
         first
           | exact hInv
           | exact inv2_set_method s _ _ (by assumption) (by rfl) hInv
           | exact inv2_set_method_clear_block s _ _ (by assumption) (by rfl) hInv)
      | injection h

theorem inv2_region_method (instr : String) (ln : Nat) (s s' : Graph)
    (h : process_region_method instr ln s = .ok s') (hInv : Inv2 s) : Inv2 s' := by
  unfold process_region_method at h
  repeat' (first | split at h | simp only [] at h)
  all_goals
    first
      | (injection h with h; subst h;
         first
           | exact hInv
           | exact inv2_method_start_none s _ _ _ _ _ rfl rfl rfl hInv
           | exact inv2_method_start_prev s _ _ _ _ _ _ _ _ (by assumption)
               (by assumption) (by assumption) rfl rfl rfl hInv
           | exact inv2_method_end_branch _ _ _ _ (by assumption) (by assumption)
               (inv2_bump _ _ hInv)
           | exact inv2_label_branch s _ _ _ _ _ _ (by assumption) (by assumption)
               rfl rfl hInv
           | exact inv2_term_true _ _ _ (by assumption) (inv2_bump _ _ hInv)
           | exact inv2_label_call_true _ _ _ _ _ (by assumption) (by assumption) (by rfl) (inv2_bump _ _ hInv)
           | exact inv2_invoke_true _ _ _ _ _ _ (by assumption) (by assumption)
               (methods_add_invocation _ _ _ _ _ _ _ (by assumption)) (inv2_bump _ _ hInv))
      | exact inv2_append_nonterm _ _ _ h rfl (inv2_bump _ _ hInv)
      | injection h

theorem inv2_region_class (instr : String) (s s' : Graph)
    (h : process_region_class instr s = .ok s') (hInv : Inv2 s) : Inv2 s' := by
  unfold process_region_class at h
  repeat' (first | split at h | simp only [] at h)
  all_goals
    first
      | (injection h with h; subst h;
         first
           | exact hInv
           | exact inv2_new_class s _ _ rfl hInv
           | exact inv2_set_class s _ _ (by assumption) (by rfl) hInv)
      | injection h

theorem inv2_process (instr : String) (ln : Nat) (s s' : Graph)
    (h : process_instruction instr ln s = .ok s') (hInv : Inv2 s) : Inv2 s' := by
  unfold process_instruction at h
  repeat' split at h
  all_goals
    first
      | exact inv2_region_annotation _ _ _ h hInv
      | exact inv2_region_field _ _ _ h hInv
      | exact inv2_region_switch _ _ _ h hInv
      | exact inv2_region_method _ _ _ _ h hInv
      | exact inv2_region_class _ _ _ h hInv


theorem inv2_processLineDirective (instr : String) (n : Nat) (s s' : Graph)
    (h : processLineDirective instr n s = .ok s') (hInv : Inv2 s) : Inv2 s' := by
  unfold processLineDirective at h
  repeat' (first | split at h | simp only [] at h)
  all_goals
    first
      | (injection h with h; subst h;
         exact inv2_flags _ _ _ _ _ (inv2_process _ _ _ _ (by assumption) hInv))
      | exact inv2_process _ _ _ _ h (inv2_flags _ _ _ _ _ hInv)
      | injection h

theorem inv2_processLine (s : Graph) (n : Nat) (raw : String) (s' : Graph)
    (h : processLine s n raw = .ok s') (hInv : Inv2 s) : Inv2 s' := by
  unfold processLine at h
  repeat' (first | split at h | simp only [] at h)
  all_goals
    first
      | (injection h with h; subst h;
         first
           | exact hInv
           | exact inv2_flags _ _ _ _ _ (inv2_process _ _ _ _ (by assumption) hInv))
      | exact inv2_process _ _ _ _ h (inv2_flags _ _ _ _ _ hInv)
      | exact inv2_processLineDirective _ _ _ _ h hInv
      | injection h

theorem inv2_processLines (l : List (Nat × String)) :
    ∀ s s', processLines s l = .ok s' → Inv2 s → Inv2 s' := by
  induction l with
  | nil =>
    intro s s' h hInv
    injection h with h
    subst h
    exact hInv
  | cons p rest ih =>
    intro s s' h hInv
    obtain ⟨n, raw⟩ := p
    unfold processLines at h
    split at h
    case h_1 => injection h
    case h_2 s0 heq => exact ih s0 s' h (inv2_processLine s n raw s0 heq hInv)

theorem inv2_runFile (s : Graph) (lines : List String) (s' : Graph)
    (h : runFile s lines = .ok s') (hInv : Inv2 s) : Inv2 s' := by
  unfold runFile at h
  simp only [] at h
  split at h
  case h_1 => injection h
  case h_2 s1 heq =>
    exact inv2_flush s1 s' h (inv2_processLines _ _ _ heq (inv2_reset s hInv))

theorem inv2_runFiles (fs : List (List String)) :
    ∀ s s', runFiles s fs = .ok s' → Inv2 s → Inv2 s' := by
  induction fs with
  | nil =>
    intro s s' h hInv
    injection h with h
    subst h
    exact hInv
  | cons f rest ih =>
    intro s s' h hInv
    unfold runFiles at h
    split at h
    case h_1 => injection h
    case h_2 s1 heq => exact ih s1 s' h (inv2_runFile s f s1 heq hInv)

theorem graphBlocks_all_of_classesAllB (P : BasicBlock → Bool) (g : Graph)
    (h : classesAllB P g.classes = true) : (graphBlocks g).all P = true := by
  unfold graphBlocks
  unfold classesAllB at h
  rw [List.all_eq_true]
  intro b hb
  rw [List.mem_flatMap] at hb
  obtain ⟨m, hm, hbm⟩ := hb
  rw [List.mem_flatMap] at hm
  obtain ⟨c, hc, hmc⟩ := hm
  rw [List.all_eq_true] at h
  have h1 := h c hc
  rw [List.all_eq_true] at h1
  have h2 := h1 m hmc
  rw [List.all_eq_true] at h2
  exact h2 b hbm

/-- Claim C2 amended: in every graph the pipeline produces, a terminator
instruction (return, goto, conditional branch, invoke or method-end) can
only stand in the final position of its basic block.  The original claim
that every block also ends with a terminator is refuted by
`C2_counterexample`: a block closed by a label line ends in its leader. -/
theorem C2_theorem (files : List (List String)) (g : Graph)
    (h : runProgram files = .ok g) :
    ((graphBlocks g).all noMidTerminators) = true := by
  unfold runProgram at h
  split at h
  case h_1 => injection h
  case h_2 s heq1 =>
    split at h
    case h_1 => injection h
    case h_2 classes rep heq2 =>
      simp only [] at h
      injection h with h
      subst h
      have hInv := inv2_runFiles files (initGraph []) s heq1 inv2_init
      have hall := classesAllB_of_inv s hInv
      have hS : BlockStable noMidTerminators :=
        ⟨fun b i => noMid_add_child b i, fun b i => noMid_add_parent b i⟩
      have hall2 := resolve_global_allB noMidTerminators hS s.classes classes rep heq2 hall
      have hall3 := resolve_library_allB noMidTerminators hS
        (fun bid i => noMid_mk bid i) { s with classes := classes } hall2
      exact graphBlocks_all_of_classesAllB _ _ hall3

/-- Witness for claim C2 at the straight-line scenario input. -/
theorem C2_witness : (graphBlocks g1).all noMidTerminators = true :=
  C2_theorem [fileA] g1 (by rfl)

theorem freshIds_perm (l l' : List Nat) (c : Nat) (hp : l'.Perm l)
    (h : FreshIds l c) : FreshIds l' c :=
  ⟨hp.symm.nodup h.1, fun i hi => h.2 i (hp.mem_iff.mp hi)⟩

theorem freshIds_mono (l : List Nat) (c c' : Nat) (hc : c ≤ c')
    (h : FreshIds l c) : FreshIds l c' :=
  ⟨h.1, fun i hi => lt_of_lt_of_le (h.2 i hi) hc⟩

theorem freshIds_snoc (l : List Nat) (c n c' : Nat) (h : FreshIds l c)
    (hn : c ≤ n) (hn' : n < c') (hc : c ≤ c') : FreshIds (l ++ [n]) c' := by
  constructor
  · rw [List.nodup_append]
    refine ⟨h.1, List.nodup_singleton n, ?_⟩
    intro a ha hb
    rw [List.mem_singleton] at hb
    subst hb
    exact absurd (h.2 a ha) (by omega)
  · intro i hi
    rw [List.mem_append, List.mem_singleton] at hi
    rcases hi with hi | hi
    · exact lt_of_lt_of_le (h.2 i hi) hc
    · omega

theorem freshIds_sublist (l l' : List Nat) (c : Nat) (hs : l'.Sublist l)
    (h : FreshIds l c) : FreshIds l' c :=
  ⟨h.1.sublist hs, fun i hi => h.2 i (hs.mem hi)⟩

theorem flatMap_listModify_eq {α β : Type} {proj : α → List β} {f : α → α}
    (h : ∀ a, proj (f a) = proj a) (i : Nat) (l : List α) :
    (listModify f i l).flatMap proj = l.flatMap proj := by
  induction l generalizing i with
  | nil => cases i <;> rfl
  | cons a as ih =>
    cases i with
    | zero => simp [listModify, h a]
    | succ n => simp [listModify, ih n]

theorem bid_add_child (b : BasicBlock) (i : Nat) :
    (b.add_child_block_id i).block_id = b.block_id := rfl

theorem bid_add_parent (b : BasicBlock) (i : Nat) :
    (b.add_parent_block_id i).block_id = b.block_id := rfl

theorem instrs_add_child (b : BasicBlock) (i : Nat) :
    (b.add_child_block_id i).instructions = b.instructions := rfl

theorem instrs_add_parent (b : BasicBlock) (i : Nat) :
    (b.add_parent_block_id i).instructions = b.instructions := rfl

theorem inv3_bt (s : Graph) (bt : Bool) (hInv : Inv3 s) :
    Inv3 { s with block_term := bt } := hInv

theorem inv3_flags (s : Graph) (a f sw m : Bool) (hInv : Inv3 s) :
    Inv3 { s with ANNOTATION_FLAG := a, FIELD_FLAG := f, SWITCH_FLAG := sw,
                  METHOD_FLAG := m } := hInv

theorem inv3_set_method_ids (s : Graph) (m m' : Method) (bt : Bool)
    (hm : s.active_method = some m) (hid : m'.method_id = m.method_id)
    (hbid : m'.basic_blocks.map (fun b => b.block_id) =
      m.basic_blocks.map (fun b => b.block_id))
    (hiid : (m'.basic_blocks.flatMap (fun b => b.instructions)).map
        (fun i => i.instr_id) =
      (m.basic_blocks.flatMap (fun b => b.instructions)).map (fun i => i.instr_id))
    (hInv : Inv3 s) : Inv3 { s with active_method := some m', block_term := bt } := by
  obtain ⟨h1, h2, h3, h4⟩ := hInv
  refine ⟨h1, ?_, ?_, ?_⟩
  · have e : methodIdList { s with active_method := some m', block_term := bt } = methodIdList s := by
      unfold methodIdList stateMethods stateClasses
      rw [hm]
      simp [optList, hid, List.map_flatMap, List.flatMap_assoc]
    rw [e]
    exact h2
  · have e : blockIdList { s with active_method := some m', block_term := bt } = blockIdList s := by
      unfold blockIdList stateBlocks stateMethods stateClasses
      rw [hm]
      simp [optList, hbid, List.map_flatMap, List.flatMap_assoc]
    rw [e]
    exact h3
  · have e : instrIdList { s with active_method := some m', block_term := bt } = instrIdList s := by
      unfold instrIdList stateInstrs stateBlocks stateMethods stateClasses
      rw [hm]
      simp [optList, hiid, List.map_flatMap, List.flatMap_assoc]
    rw [e]
    exact h4

theorem inv3_set_class (s : Graph) (c c' : SmaliClass) (fl : List String) (bt : Bool)
    (hc : s.active_class = some c) (hid : c'.class_id = c.class_id)
    (hms : c'.methods = c.methods) (hInv : Inv3 s) :
    Inv3 { s with active_class := some c', file_list := fl, block_term := bt } := by
  obtain ⟨h1, h2, h3, h4⟩ := hInv
  refine ⟨?_, ?_, ?_, ?_⟩
  · have e : classIdList { s with active_class := some c', file_list := fl, block_term := bt } = classIdList s := by
      unfold classIdList stateClasses
      rw [hc]
      simp [optList, hid, List.map_flatMap, List.flatMap_assoc]
    rw [e]
    exact h1
  · have e : methodIdList { s with active_class := some c', file_list := fl, block_term := bt } = methodIdList s := by
      unfold methodIdList stateMethods stateClasses
      rw [hc]
      simp [optList, hms, List.map_flatMap, List.flatMap_assoc]
    rw [e]
    exact h2
  · have e : blockIdList { s with active_class := some c', file_list := fl, block_term := bt } = blockIdList s := by
      unfold blockIdList stateBlocks stateMethods stateClasses
      rw [hc]
      simp [optList, hms, List.map_flatMap, List.flatMap_assoc]
    rw [e]
    exact h3
  · have e : instrIdList { s with active_class := some c', file_list := fl, block_term := bt } = instrIdList s := by
      unfold instrIdList stateInstrs stateBlocks stateMethods stateClasses
      rw [hc]
      simp [optList, hms, List.map_flatMap, List.flatMap_assoc]
    rw [e]
    exact h4

theorem inv3_set_method_clear_block (s : Graph) (m m' : Method)
    (hm : s.active_method = some m) (hid : m'.method_id = m.method_id)
    (hbb : m'.basic_blocks = m.basic_blocks) (hInv : Inv3 s) :
    Inv3 { s with active_method := some m', active_block := none } := by
  obtain ⟨h1, h2, h3, h4⟩ := hInv
  refine ⟨h1, ?_, ?_, ?_⟩
  · have e : methodIdList { s with active_method := some m', active_block := none } = methodIdList s := by
      unfold methodIdList stateMethods stateClasses
      rw [hm]
      simp [optList, hid, List.map_flatMap, List.flatMap_assoc]
    rw [e]
    exact h2
  · refine freshIds_sublist (blockIdList s) _ _ ?_ h3
    have e1 : blockIdList { s with active_method := some m', active_block := none } = ((stateMethods s).flatMap (fun mm => mm.basic_blocks)).map (fun b => b.block_id) := by
      unfold blockIdList stateBlocks stateMethods stateClasses
      rw [hm]
      simp [optList, hbb, List.map_flatMap, List.flatMap_assoc]
    have e2 : blockIdList s =
        ((stateMethods s).flatMap (fun mm => mm.basic_blocks)).map
          (fun b => b.block_id) ++
        (optList s.active_block).map (fun b => b.block_id) := by
      unfold blockIdList stateBlocks
      simp [List.map_flatMap, List.flatMap_assoc]
    rw [e1, e2]
    exact List.sublist_append_left _ _
  · refine freshIds_sublist (instrIdList s) _ _ ?_ h4
    have e1 : instrIdList { s with active_method := some m', active_block := none } = (((stateMethods s).flatMap (fun mm => mm.basic_blocks)).flatMap (fun b => b.instructions)).map (fun i => i.instr_id) := by
      unfold instrIdList stateInstrs stateBlocks stateMethods stateClasses
      rw [hm]
      simp [optList, hbb, List.map_flatMap, List.flatMap_assoc]
    have e2 : instrIdList s =
        (((stateMethods s).flatMap (fun mm => mm.basic_blocks)).flatMap
          (fun b => b.instructions)).map (fun i => i.instr_id) ++
        ((optList s.active_block).flatMap (fun b => b.instructions)).map
          (fun i => i.instr_id) := by
      unfold instrIdList stateInstrs stateBlocks
      simp [List.map_flatMap, List.flatMap_assoc]
    rw [e1, e2]
    exact List.sublist_append_left _ _

theorem inv3_new_class (s : Graph) (c' : SmaliClass) (k : Nat)
    (hid : c'.class_id = s.class_id) (hms : c'.methods = [])
    (hInv : Inv3 s) :
    Inv3 { s with active_class := some c', class_id := s.class_id + 1 } := by
  obtain ⟨h1, h2, h3, h4⟩ := hInv
  refine ⟨?_, ?_, ?_, ?_⟩
  · have e1 : classIdList { s with active_class := some c', class_id := s.class_id + 1 } =
        s.classes.map (fun c => c.class_id) ++ [s.class_id] := by
      unfold classIdList stateClasses
      simp [optList, hid, List.map_flatMap, List.flatMap_assoc]
    have e2 : s.classes.map (fun c => c.class_id) ++
        (optList s.active_class).map (fun c => c.class_id) = classIdList s := by
      unfold classIdList stateClasses
      simp [List.map_flatMap, List.flatMap_assoc]
    rw [e1]
    refine freshIds_snoc _ s.class_id _ _ ?_ (le_refl _) (by exact Nat.lt_succ_self _) (by exact Nat.le_succ _)
    refine freshIds_sublist (classIdList s) _ _ ?_ h1
    rw [← e2]
    exact List.sublist_append_left _ _
  · have e1 : methodIdList { s with active_class := some c', class_id := s.class_id + 1 } =
        classesMethodIds s.classes ++ (optList s.active_method).map
          (fun m => m.method_id) := by
      unfold methodIdList stateMethods stateClasses classesMethodIds methodIdsProj
      simp [optList, hms, List.map_flatMap, List.flatMap_assoc]
    have e2 : methodIdList s = classesMethodIds s.classes ++
        (optList s.active_class).flatMap (fun c => methodIdsProj c.methods) ++
        (optList s.active_method).map (fun m => m.method_id) := by
      unfold methodIdList stateMethods stateClasses classesMethodIds methodIdsProj
      simp [List.map_flatMap, List.flatMap_assoc]
    rw [e1]
    refine freshIds_sublist (methodIdList s) _ _ ?_ h2
    rw [e2]
    refine List.Sublist.append ?_ (List.Sublist.refl _)
    exact List.sublist_append_left _ _
  · have e1 : blockIdList { s with active_class := some c', class_id := s.class_id + 1 } =
        classesBlockIds s.classes ++
        ((optList s.active_method).flatMap (fun m => m.basic_blocks)).map
          (fun b => b.block_id) ++
        (optList s.active_block).map (fun b => b.block_id) := by
      unfold blockIdList stateBlocks stateMethods stateClasses classesBlockIds
        methodBlockIds
      simp [optList, hms, List.map_flatMap, List.flatMap_assoc]
    have e2 : blockIdList s = classesBlockIds s.classes ++
        ((optList s.active_class).flatMap (fun c => c.methods)).flatMap
          (fun m => m.basic_blocks.map (fun b => b.block_id)) ++
        ((optList s.active_method).flatMap (fun m => m.basic_blocks)).map
          (fun b => b.block_id) ++
        (optList s.active_block).map (fun b => b.block_id) := by
      unfold blockIdList stateBlocks stateMethods stateClasses classesBlockIds
        methodBlockIds
      simp [List.map_flatMap, List.flatMap_assoc]
    rw [e1]
    refine freshIds_sublist (blockIdList s) _ _ ?_ h3
    rw [e2]
    refine List.Sublist.append (List.Sublist.append ?_ (List.Sublist.refl _))
      (List.Sublist.refl _)
    exact List.sublist_append_left _ _
  · have e1 : instrIdList { s with active_class := some c', class_id := s.class_id + 1 } =
        classesInstrIds s.classes ++
        (((optList s.active_method).flatMap (fun m => m.basic_blocks)).flatMap
          (fun b => b.instructions)).map (fun i => i.instr_id) ++
        ((optList s.active_block).flatMap (fun b => b.instructions)).map
          (fun i => i.instr_id) := by
      unfold instrIdList stateInstrs stateBlocks stateMethods stateClasses
        classesInstrIds methodInstrIds
      simp [optList, hms, List.map_flatMap, List.flatMap_assoc]
    have e2 : instrIdList s = classesInstrIds s.classes ++
        (((optList s.active_class).flatMap (fun c => c.methods)).flatMap
          (fun m => m.basic_blocks)).flatMap
          (fun b => b.instructions.map (fun i => i.instr_id)) ++
        (((optList s.active_method).flatMap (fun m => m.basic_blocks)).flatMap
          (fun b => b.instructions)).map (fun i => i.instr_id) ++
        ((optList s.active_block).flatMap (fun b => b.instructions)).map
          (fun i => i.instr_id) := by
      unfold instrIdList stateInstrs stateBlocks stateMethods stateClasses
        classesInstrIds methodInstrIds
      simp [List.map_flatMap, List.flatMap_assoc]
    rw [e1]
    refine freshIds_sublist (instrIdList s) _ _ ?_ h4
    rw [e2]
    refine List.Sublist.append (List.Sublist.append ?_ (List.Sublist.refl _))
      (List.Sublist.refl _)
    exact List.sublist_append_left _ _

theorem rlabels_foldl_ids (lcs : List (String × Nat)) (bs0 : List BasicBlock) :
    ((lcs.foldl (fun (bs : List BasicBlock) lc =>
      match bs.findIdx? (fun b => (b.instructions.headD default).instruction == lc.1) with
      | some ti =>
        match bs.findIdx? (fun b => b.block_id == lc.2) with
        | some si =>
          let tid := (bs.getD ti default).block_id
          let bs := listModify (fun b => b.add_child_block_id tid) si bs
          listModify (fun b => b.add_parent_block_id lc.2) ti bs
        | none => bs
      | none => bs) bs0).map (fun b => b.block_id) =
        bs0.map (fun b => b.block_id)) ∧
    ((lcs.foldl (fun (bs : List BasicBlock) lc =>
      match bs.findIdx? (fun b => (b.instructions.headD default).instruction == lc.1) with
      | some ti =>
        match bs.findIdx? (fun b => b.block_id == lc.2) with
        | some si =>
          let tid := (bs.getD ti default).block_id
          let bs := listModify (fun b => b.add_child_block_id tid) si bs
          listModify (fun b => b.add_parent_block_id lc.2) ti bs
        | none => bs
      | none => bs) bs0).flatMap (fun b => b.instructions) =
        bs0.flatMap (fun b => b.instructions)) := by
  refine @foldl_inv (List BasicBlock) (String × Nat)
    (fun bs => bs.map (fun b => b.block_id) = bs0.map (fun b => b.block_id) ∧
      bs.flatMap (fun b => b.instructions) = bs0.flatMap (fun b => b.instructions))
    _ lcs ?_ bs0 ⟨rfl, rfl⟩
  intro bs lc hbs
  simp only []
  split
  · split
    · constructor
      · rw [map_listModify_eq (fun b => bid_add_parent b _),
          map_listModify_eq (fun b => bid_add_child b _)]
        exact hbs.1
      · rw [flatMap_listModify_eq (fun b => instrs_add_parent b _),
          flatMap_listModify_eq (fun b => instrs_add_child b _)]
        exact hbs.2
    · exact hbs
  · exact hbs

theorem resolve_labels_mid (m : Method) :
    (m.resolve_labels).1.method_id = m.method_id := rfl

theorem resolve_labels_bids (m : Method) :
    (m.resolve_labels).1.basic_blocks.map (fun b => b.block_id) =
      m.basic_blocks.map (fun b => b.block_id) :=
  (rlabels_foldl_ids (m.label_calls.flatMap (fun lc =>
    match aliasGet m.label_aliases lc.1 with
    | some aliases => aliases.map (fun a => (a, lc.2))
    | none => [lc])) m.basic_blocks).1

theorem resolve_labels_instrs (m : Method) :
    (m.resolve_labels).1.basic_blocks.flatMap (fun b => b.instructions) =
      m.basic_blocks.flatMap (fun b => b.instructions) :=
  (rlabels_foldl_ids (m.label_calls.flatMap (fun lc =>
    match aliasGet m.label_aliases lc.1 with
    | some aliases => aliases.map (fun a => (a, lc.2))
    | none => [lc])) m.basic_blocks).2

theorem inv3_append (s : Graph) (ins : Instruction) (s' : Graph) (k : Nat)
    (h : append_or_start { s with instruction_id := k } ins = .ok s')
    (hins : ins.instr_id = s.instruction_id) (hk : s.instruction_id < k)
    (hInv : Inv3 s) : Inv3 s' := by
  obtain ⟨h1, h2, h3, h4⟩ := hInv
  unfold append_or_start terminate_and_start_block at h
  simp only [] at h
  split at h
  case isTrue hbt =>
    split at h
    case h_1 b heqb =>
      split at h
      case h_1 heqm => injection h
      case h_2 m heqm =>
        injection h with h
        subst h
        refine ⟨h1, ?_, ?_, ?_⟩
        · have e : methodIdList
              { s with
                instruction_id := k,
                active_method := some (m.add_basic_block (b.add_child_block_id s.block_id)),
                active_block := some ((mkBasicBlock s.block_id ins).add_parent_block_id (b.add_child_block_id s.block_id).block_id),
                block_term := false,
                block_id := s.block_id + 1 } = methodIdList s := by
            unfold methodIdList stateMethods stateClasses
            rw [heqm]
            simp [optList, Method.add_basic_block]
          rw [e]
          exact h2
        · have e : blockIdList
              { s with
                instruction_id := k,
                active_method := some (m.add_basic_block (b.add_child_block_id s.block_id)),
                active_block := some ((mkBasicBlock s.block_id ins).add_parent_block_id (b.add_child_block_id s.block_id).block_id),
                block_term := false,
                block_id := s.block_id + 1 } = blockIdList s ++ [s.block_id] := by
            unfold blockIdList stateBlocks stateMethods stateClasses
            rw [heqm, heqb]
            simp [optList, Method.add_basic_block, bid_add_child, bid_add_parent,
              mkBasicBlock]
          rw [e]
          exact freshIds_snoc _ s.block_id _ _ h3 (le_refl _) (by exact Nat.lt_succ_self _) (by exact Nat.le_succ _)
        · have e : instrIdList
              { s with
                instruction_id := k,
                active_method := some (m.add_basic_block (b.add_child_block_id s.block_id)),
                active_block := some ((mkBasicBlock s.block_id ins).add_parent_block_id (b.add_child_block_id s.block_id).block_id),
                block_term := false,
                block_id := s.block_id + 1 } = instrIdList s ++ [ins.instr_id] := by
            unfold instrIdList stateInstrs stateBlocks stateMethods stateClasses
            rw [heqm, heqb]
            simp [optList, Method.add_basic_block, instrs_add_child, instrs_add_parent,
              mkBasicBlock, BasicBlock.add_parent_block_id]
          rw [e, hins]
          exact freshIds_snoc _ s.instruction_id _ _ h4 (le_refl _) (by exact hk) (by exact le_of_lt hk)
    case h_2 heqb =>
      injection h with h
      subst h
      refine ⟨h1, ?_, ?_, ?_⟩
      · exact h2
      · have e : blockIdList
            { s with
              instruction_id := k,
              active_block := some (mkBasicBlock s.block_id ins),
              block_term := false,
              block_id := s.block_id + 1 } = blockIdList s ++ [s.block_id] := by
          unfold blockIdList stateBlocks stateMethods stateClasses
          rw [heqb]
          simp [optList, mkBasicBlock]
        rw [e]
        exact freshIds_snoc _ s.block_id _ _ h3 (le_refl _) (by exact Nat.lt_succ_self _) (by exact Nat.le_succ _)
      · have e : instrIdList
            { s with
              instruction_id := k,
              active_block := some (mkBasicBlock s.block_id ins),
              block_term := false,
              block_id := s.block_id + 1 } = instrIdList s ++ [ins.instr_id] := by
          unfold instrIdList stateInstrs stateBlocks stateMethods stateClasses
          rw [heqb]
          simp [optList, mkBasicBlock]
        rw [e, hins]
        exact freshIds_snoc _ s.instruction_id _ _ h4 (le_refl _) (by exact hk) (by exact le_of_lt hk)
  case isFalse hbt =>
    split at h
    case h_1 b heqb =>
      injection h with h
      subst h
      refine ⟨h1, ?_, ?_, ?_⟩
      · exact h2
      · have e : blockIdList
            { s with
              instruction_id := k,
              active_block := some (b.add_instruction ins) } = blockIdList s := by
          unfold blockIdList stateBlocks stateMethods stateClasses
          rw [heqb]
          simp [optList, BasicBlock.add_instruction]
        rw [e]
        exact h3
      · have e : instrIdList
            { s with
              instruction_id := k,
              active_block := some (b.add_instruction ins) } = instrIdList s ++ [ins.instr_id] := by
          unfold instrIdList stateInstrs stateBlocks stateMethods stateClasses
          rw [heqb]
          simp [optList, BasicBlock.add_instruction]
        rw [e, hins]
        exact freshIds_snoc _ s.instruction_id _ _ h4 (le_refl _) (by exact hk) (by exact le_of_lt hk)
    case h_2 heqb => injection h

theorem inv3_method_start_none (s : Graph) (m1 : Method) (bk : BasicBlock)
    (hm : s.active_method = none)
    (hm1id : m1.method_id = s.method_id + 1) (hm1bb : m1.basic_blocks = [])
    (hbkid : bk.block_id = s.block_id + 1)
    (hbki : bk.instructions.map (fun i => i.instr_id) = [s.instruction_id])
    (hInv : Inv3 s) :
    Inv3 { s with active_method := some m1, active_block := some bk,
                  method_id := s.method_id + 2, instruction_id := s.instruction_id + 1,
                  block_id := s.block_id + 2, block_term := false } := by
  obtain ⟨h1, h2, h3, h4⟩ := hInv
  refine ⟨h1, ?_, ?_, ?_⟩
  · have e : methodIdList
        { s with
          active_method := some m1,
          active_block := some bk,
          method_id := s.method_id + 2,
          instruction_id := s.instruction_id + 1,
          block_id := s.block_id + 2,
          block_term := false } = methodIdList s ++ [m1.method_id] := by
      unfold methodIdList stateMethods stateClasses
      rw [hm]
      simp [optList]
    rw [e, hm1id]
    exact freshIds_snoc _ s.method_id _ (s.method_id + 2) h2 (by omega) (by omega) (by omega)
  · have e2 : blockIdList s =
        ((stateMethods s).flatMap (fun mm => mm.basic_blocks)).map
          (fun b => b.block_id) ++
        (optList s.active_block).map (fun b => b.block_id) := by
      unfold blockIdList stateBlocks
      simp
    have e : blockIdList
        { s with
          active_method := some m1,
          active_block := some bk,
          method_id := s.method_id + 2,
          instruction_id := s.instruction_id + 1,
          block_id := s.block_id + 2,
          block_term := false } =
        ((stateMethods s).flatMap (fun mm => mm.basic_blocks)).map
          (fun b => b.block_id) ++ [bk.block_id] := by
      unfold blockIdList stateBlocks stateMethods stateClasses
      rw [hm]
      simp [optList, hm1bb]
    rw [e, hbkid]
    refine freshIds_snoc _ s.block_id _ (s.block_id + 2) ?_ (by omega) (by omega) (by omega)
    refine freshIds_sublist (blockIdList s) _ _ ?_ h3
    rw [e2]
    exact List.sublist_append_left _ _
  · have e2 : instrIdList s =
        (((stateMethods s).flatMap (fun mm => mm.basic_blocks)).flatMap
          (fun b => b.instructions)).map (fun i => i.instr_id) ++
        ((optList s.active_block).flatMap (fun b => b.instructions)).map
          (fun i => i.instr_id) := by
      unfold instrIdList stateInstrs stateBlocks
      simp
    have e : instrIdList
        { s with
          active_method := some m1,
          active_block := some bk,
          method_id := s.method_id + 2,
          instruction_id := s.instruction_id + 1,
          block_id := s.block_id + 2,
          block_term := false } =
        (((stateMethods s).flatMap (fun mm => mm.basic_blocks)).flatMap
          (fun b => b.instructions)).map (fun i => i.instr_id) ++ [s.instruction_id] := by
      unfold instrIdList stateInstrs stateBlocks stateMethods stateClasses
      rw [hm]
      simp [optList, hm1bb, hbki]
    rw [e]
    refine freshIds_snoc _ s.instruction_id _ (s.instruction_id + 1) ?_ (by omega) (by omega) (by omega)
    refine freshIds_sublist (instrIdList s) _ _ ?_ h4
    rw [e2]
    exact List.sublist_append_left _ _

theorem inv3_method_start_prev (s : Graph) (cls prevm pb m1 bk)
    (hc : s.active_class = some cls) (hm : s.active_method = some prevm)
    (hb : s.active_block = some pb)
    (hm1id : m1.method_id = s.method_id + 1) (hm1bb : m1.basic_blocks = [])
    (hbkid : bk.block_id = s.block_id + 1)
    (hbki : bk.instructions.map (fun i => i.instr_id) = [s.instruction_id])
    (hInv : Inv3 s) :
    Inv3 { s with active_class := some (cls.add_method (prevm.add_basic_block pb)),
                  active_method := some m1, active_block := some bk,
                  method_id := s.method_id + 2, instruction_id := s.instruction_id + 1,
                  block_id := s.block_id + 2, block_term := false } := by
  obtain ⟨h1, h2, h3, h4⟩ := hInv
  refine ⟨?_, ?_, ?_, ?_⟩
  · have e : classIdList
        { s with
          active_class := some (cls.add_method (prevm.add_basic_block pb)),
          active_method := some m1,
          active_block := some bk,
          method_id := s.method_id + 2,
          instruction_id := s.instruction_id + 1,
          block_id := s.block_id + 2,
          block_term := false } = classIdList s := by
      unfold classIdList stateClasses
      rw [hc]
      simp [optList, SmaliClass.add_method]
    rw [e]
    exact h1
  · have e : methodIdList
        { s with
          active_class := some (cls.add_method (prevm.add_basic_block pb)),
          active_method := some m1,
          active_block := some bk,
          method_id := s.method_id + 2,
          instruction_id := s.instruction_id + 1,
          block_id := s.block_id + 2,
          block_term := false } = methodIdList s ++ [m1.method_id] := by
      unfold methodIdList stateMethods stateClasses
      rw [hc, hm]
      simp [optList, SmaliClass.add_method, Method.add_basic_block]
    rw [e, hm1id]
    exact freshIds_snoc _ s.method_id _ (s.method_id + 2) h2 (by omega) (by omega) (by omega)
  · have e : blockIdList
        { s with
          active_class := some (cls.add_method (prevm.add_basic_block pb)),
          active_method := some m1,
          active_block := some bk,
          method_id := s.method_id + 2,
          instruction_id := s.instruction_id + 1,
          block_id := s.block_id + 2,
          block_term := false } = blockIdList s ++ [bk.block_id] := by
      unfold blockIdList stateBlocks stateMethods stateClasses
      rw [hc, hm, hb]
      simp [optList, SmaliClass.add_method, Method.add_basic_block, hm1bb]
    rw [e, hbkid]
    exact freshIds_snoc _ s.block_id _ (s.block_id + 2) h3 (by omega) (by omega) (by omega)
  · have e : instrIdList
        { s with
          active_class := some (cls.add_method (prevm.add_basic_block pb)),
          active_method := some m1,
          active_block := some bk,
          method_id := s.method_id + 2,
          instruction_id := s.instruction_id + 1,
          block_id := s.block_id + 2,
          block_term := false } = instrIdList s ++ [s.instruction_id] := by
      unfold instrIdList stateInstrs stateBlocks stateMethods stateClasses
      rw [hc, hm, hb]
      simp [optList, SmaliClass.add_method, Method.add_basic_block, hm1bb, hbki]
    rw [e]
    exact freshIds_snoc _ s.instruction_id _ (s.instruction_id + 1) h4 (by omega) (by omega) (by omega)

theorem inv3_label (s : Graph) (m : Method) (b : BasicBlock) (nb : BasicBlock)
    (cid : Nat) (hm : s.active_method = some m) (hb : s.active_block = some b)
    (hnbid : nb.block_id = s.block_id)
    (hnbi : nb.instructions.map (fun i => i.instr_id) = [s.instruction_id])
    (hInv : Inv3 s) :
    Inv3 { s with active_method := some (m.add_basic_block (b.add_child_block_id cid)),
                  active_block := some nb, instruction_id := s.instruction_id + 2,
                  block_id := s.block_id + 1 } := by
  obtain ⟨h1, h2, h3, h4⟩ := hInv
  refine ⟨h1, ?_, ?_, ?_⟩
  · have e : methodIdList
        { s with
          active_method := some (m.add_basic_block (b.add_child_block_id cid)),
          active_block := some nb,
          instruction_id := s.instruction_id + 2,
          block_id := s.block_id + 1 } = methodIdList s := by
      unfold methodIdList stateMethods stateClasses
      rw [hm]
      simp [optList, Method.add_basic_block]
    rw [e]
    exact h2
  · have e : blockIdList
        { s with
          active_method := some (m.add_basic_block (b.add_child_block_id cid)),
          active_block := some nb,
          instruction_id := s.instruction_id + 2,
          block_id := s.block_id + 1 } = blockIdList s ++ [nb.block_id] := by
      unfold blockIdList stateBlocks stateMethods stateClasses
      rw [hm, hb]
      simp [optList, Method.add_basic_block, bid_add_child]
    rw [e, hnbid]
    exact freshIds_snoc _ s.block_id _ (s.block_id + 1) h3 (by omega) (by omega) (by omega)
  · have e : instrIdList
        { s with
          active_method := some (m.add_basic_block (b.add_child_block_id cid)),
          active_block := some nb,
          instruction_id := s.instruction_id + 2,
          block_id := s.block_id + 1 } = instrIdList s ++ [s.instruction_id] := by
      unfold instrIdList stateInstrs stateBlocks stateMethods stateClasses
      rw [hm, hb]
      simp [optList, Method.add_basic_block, instrs_add_child, hnbi]
    rw [e]
    exact freshIds_snoc _ s.instruction_id _ (s.instruction_id + 2) h4 (by omega) (by omega) (by omega)

theorem mids_lm_child (si bi k : Nat) (ms : List Method) :
    methodIdsProj (listModify
      (methodModifyBlock bi (fun b => b.add_child_block_id k)) si ms) =
    methodIdsProj ms :=
  @map_listModify_eq Method Nat (fun m => m.method_id)
    (methodModifyBlock bi (fun b => b.add_child_block_id k)) (fun m => rfl) si ms

theorem mids_lm_parent (si bi k : Nat) (ms : List Method) :
    methodIdsProj (listModify
      (methodModifyBlock bi (fun b => b.add_parent_block_id k)) si ms) =
    methodIdsProj ms :=
  @map_listModify_eq Method Nat (fun m => m.method_id)
    (methodModifyBlock bi (fun b => b.add_parent_block_id k)) (fun m => rfl) si ms

theorem mids_lm_cout (si k : Nat) (ms : List Method) :
    methodIdsProj (listModify (fun m => m.add_call_out k) si ms) =
    methodIdsProj ms :=
  @map_listModify_eq Method Nat (fun m => m.method_id)
    (fun m => m.add_call_out k) (fun m => rfl) si ms

theorem mids_lm_cin (si k : Nat) (ms : List Method) :
    methodIdsProj (listModify (fun m => m.add_call_in k) si ms) =
    methodIdsProj ms :=
  @map_listModify_eq Method Nat (fun m => m.method_id)
    (fun m => m.add_call_in k) (fun m => rfl) si ms

theorem bids_mmb_child (bi k : Nat) (m : Method) :
    (methodModifyBlock bi (fun b => b.add_child_block_id k) m).basic_blocks.map
      (fun b => b.block_id) = m.basic_blocks.map (fun b => b.block_id) :=
  map_listModify_eq (fun b => bid_add_child b k) bi m.basic_blocks

theorem bids_mmb_parent (bi k : Nat) (m : Method) :
    (methodModifyBlock bi (fun b => b.add_parent_block_id k) m).basic_blocks.map
      (fun b => b.block_id) = m.basic_blocks.map (fun b => b.block_id) :=
  map_listModify_eq (fun b => bid_add_parent b k) bi m.basic_blocks

theorem instrs_mmb_child (bi k : Nat) (m : Method) :
    (methodModifyBlock bi (fun b => b.add_child_block_id k) m).basic_blocks.flatMap
      (fun b => b.instructions) = m.basic_blocks.flatMap (fun b => b.instructions) :=
  flatMap_listModify_eq (fun b => instrs_add_child b k) bi m.basic_blocks

theorem instrs_mmb_parent (bi k : Nat) (m : Method) :
    (methodModifyBlock bi (fun b => b.add_parent_block_id k) m).basic_blocks.flatMap
      (fun b => b.instructions) = m.basic_blocks.flatMap (fun b => b.instructions) :=
  flatMap_listModify_eq (fun b => instrs_add_parent b k) bi m.basic_blocks

theorem bids_lm_child (si bi k : Nat) (ms : List Method) :
    methodBlockIds (listModify
      (methodModifyBlock bi (fun b => b.add_child_block_id k)) si ms) =
    methodBlockIds ms :=
  flatMap_listModify_eq (fun m => bids_mmb_child bi k m) si ms

theorem bids_lm_parent (si bi k : Nat) (ms : List Method) :
    methodBlockIds (listModify
      (methodModifyBlock bi (fun b => b.add_parent_block_id k)) si ms) =
    methodBlockIds ms :=
  flatMap_listModify_eq (fun m => bids_mmb_parent bi k m) si ms

theorem bids_lm_cout (si k : Nat) (ms : List Method) :
    methodBlockIds (listModify (fun m => m.add_call_out k) si ms) =
    methodBlockIds ms :=
  by
  unfold methodBlockIds
  apply flatMap_listModify_eq
  intro m
  rfl

theorem bids_lm_cin (si k : Nat) (ms : List Method) :
    methodBlockIds (listModify (fun m => m.add_call_in k) si ms) =
    methodBlockIds ms :=
  by
  unfold methodBlockIds
  apply flatMap_listModify_eq
  intro m
  rfl

theorem iids_lm_child (si bi k : Nat) (ms : List Method) :
    methodInstrIds (listModify
      (methodModifyBlock bi (fun b => b.add_child_block_id k)) si ms) =
    methodInstrIds ms :=
  flatMap_listModify_eq (fun m => congrArg (List.map (fun i => i.instr_id))
    (instrs_mmb_child bi k m)) si ms

theorem iids_lm_parent (si bi k : Nat) (ms : List Method) :
    methodInstrIds (listModify
      (methodModifyBlock bi (fun b => b.add_parent_block_id k)) si ms) =
    methodInstrIds ms :=
  flatMap_listModify_eq (fun m => congrArg (List.map (fun i => i.instr_id))
    (instrs_mmb_parent bi k m)) si ms

theorem iids_lm_cout (si k : Nat) (ms : List Method) :
    methodInstrIds (listModify (fun m => m.add_call_out k) si ms) =
    methodInstrIds ms :=
  by
  unfold methodInstrIds
  apply flatMap_listModify_eq
  intro m
  rfl

theorem iids_lm_cin (si k : Nat) (ms : List Method) :
    methodInstrIds (listModify (fun m => m.add_call_in k) si ms) =
    methodInstrIds ms :=
  by
  unfold methodInstrIds
  apply flatMap_listModify_eq
  intro m
  rfl

theorem resolve_local_ids (c c' : SmaliClass) (rep : List String)
    (h : c.resolve_local_invocations = .ok (c', rep)) :
    c'.class_id = c.class_id ∧
    methodIdsProj c'.methods = methodIdsProj c.methods ∧
    methodBlockIds c'.methods = methodBlockIds c.methods ∧
    methodInstrIds c'.methods = methodInstrIds c.methods := by
  unfold SmaliClass.resolve_local_invocations at h
  simp only [] at h
  split at h
  case h_1 => injection h
  case h_2 ms fl heq =>
    injection h with h
    injection h with h1 h2
    subst h1
    refine ⟨rfl, ?_⟩
    show methodIdsProj ms = methodIdsProj c.methods ∧
      methodBlockIds ms = methodBlockIds c.methods ∧
      methodInstrIds ms = methodInstrIds c.methods
    refine @foldl_inv (Except String (List Method × Bool)) (Nat × Nat × String)
      (fun acc => ∀ ms2 fl2, acc = .ok (ms2, fl2) →
        methodIdsProj ms2 = methodIdsProj c.methods ∧
        methodBlockIds ms2 = methodBlockIds c.methods ∧
        methodInstrIds ms2 = methodInstrIds c.methods)
      _ c.invocations_local ?_ (.ok (c.methods, false)) ?_ ms fl heq
    · intro acc inv hacc ms2 fl2 hms
      obtain ⟨ia, ib, ic⟩ := inv
      simp only [] at hms
      cases acc with
      | error e => injection hms
      | ok p =>
        obtain ⟨ms0, fl0⟩ := p
        have hms0 := hacc ms0 fl0 rfl
        simp only [] at hms
        repeat' split at hms
        all_goals
          first
            | (injection hms with hms; injection hms with e1 e2; subst e1;
               refine ⟨?_, ?_, ?_⟩
               · repeat' rw [mids_lm_child]
                 repeat'
                   first
                     | rw [mids_lm_child]
                     | rw [mids_lm_parent]
                     | rw [mids_lm_cout]
                     | rw [mids_lm_cin]
                 exact hms0.1
               · repeat'
                   first
                     | rw [bids_lm_child]
                     | rw [bids_lm_parent]
                     | rw [bids_lm_cout]
                     | rw [bids_lm_cin]
                 exact hms0.2.1
               · repeat'
                   first
                     | rw [iids_lm_child]
                     | rw [iids_lm_parent]
                     | rw [iids_lm_cout]
                     | rw [iids_lm_cin]
                 exact hms0.2.2)
            | (injection hms with hms; injection hms)
            | injection hms
    · intro ms2 fl2 hms
      injection hms with hms
      injection hms with e1 e2
      subst e1
      exact ⟨rfl, rfl, rfl⟩

theorem inv3_flush_core (s : Graph) (cls : SmaliClass) (m : Method) (cls2 : SmaliClass)
    (heqc : s.active_class = some cls) (heqm : s.active_method = some m)
    (hcid : cls2.class_id = cls.class_id)
    (hmid : methodIdsProj cls2.methods = methodIdsProj cls.methods ++ [m.method_id])
    (hbidl : methodBlockIds cls2.methods = methodBlockIds cls.methods ++
      (m.basic_blocks.map (fun b => b.block_id) ++
       (optList s.active_block).map (fun b => b.block_id)))
    (hiidl : methodInstrIds cls2.methods = methodInstrIds cls.methods ++
      ((m.basic_blocks.flatMap (fun b => b.instructions)).map (fun i => i.instr_id) ++
       ((optList s.active_block).flatMap (fun b => b.instructions)).map
         (fun i => i.instr_id)))
    (hInv : Inv3 s) :
    Inv3 { s with classes := s.classes ++ [cls2], active_class := none,
                  active_method := none, active_block := none } := by
  obtain ⟨h1, h2, h3, h4⟩ := hInv
  refine ⟨?_, ?_, ?_, ?_⟩
  · have e : classIdList { s with classes := s.classes ++ [cls2], active_class := none, active_method := none, active_block := none } =
        s.classes.map (fun c => c.class_id) ++ [cls2.class_id] := by
      unfold classIdList stateClasses
      simp [optList]
    have e2 : classIdList s = s.classes.map (fun c => c.class_id) ++ [cls.class_id] := by
      unfold classIdList stateClasses
      rw [heqc]
      simp [optList]
    rw [e, hcid, ← e2]
    exact h1
  · have e : methodIdList { s with classes := s.classes ++ [cls2], active_class := none, active_method := none, active_block := none } =
        classesMethodIds s.classes ++ methodIdsProj cls2.methods := by
      unfold methodIdList stateMethods stateClasses classesMethodIds methodIdsProj
      simp [optList, List.map_flatMap]
    have e2 : methodIdList s =
        classesMethodIds s.classes ++ (methodIdsProj cls.methods ++ [m.method_id]) := by
      unfold methodIdList stateMethods stateClasses classesMethodIds methodIdsProj
      rw [heqc, heqm]
      simp [optList, List.map_flatMap]
    rw [e, hmid, ← e2]
    exact h2
  · have e : blockIdList { s with classes := s.classes ++ [cls2], active_class := none, active_method := none, active_block := none } =
        classesBlockIds s.classes ++ methodBlockIds cls2.methods := by
      unfold blockIdList stateBlocks stateMethods stateClasses classesBlockIds
        methodBlockIds
      simp [optList, List.map_flatMap, List.flatMap_assoc]
    have e2 : blockIdList s =
        classesBlockIds s.classes ++ (methodBlockIds cls.methods ++
          (m.basic_blocks.map (fun b => b.block_id) ++
           (optList s.active_block).map (fun b => b.block_id))) := by
      unfold blockIdList stateBlocks stateMethods stateClasses classesBlockIds
        methodBlockIds
      rw [heqc, heqm]
      simp [optList, List.map_flatMap, List.flatMap_assoc]
    rw [e, hbidl, ← e2]
    exact h3
  · have e : instrIdList { s with classes := s.classes ++ [cls2], active_class := none, active_method := none, active_block := none } =
        classesInstrIds s.classes ++ methodInstrIds cls2.methods := by
      unfold instrIdList stateInstrs stateBlocks stateMethods stateClasses
        classesInstrIds methodInstrIds
      simp [optList, List.map_flatMap, List.flatMap_assoc]
    have e2 : instrIdList s =
        classesInstrIds s.classes ++ (methodInstrIds cls.methods ++
          ((m.basic_blocks.flatMap (fun b => b.instructions)).map (fun i => i.instr_id) ++
           ((optList s.active_block).flatMap (fun b => b.instructions)).map
             (fun i => i.instr_id))) := by
      unfold instrIdList stateInstrs stateBlocks stateMethods stateClasses
        classesInstrIds methodInstrIds
      rw [heqc, heqm]
      simp [optList, List.map_flatMap, List.flatMap_assoc]
    rw [e, hiidl, ← e2]
    exact h4

theorem inv3_flush (s s' : Graph) (h : flushFile s = .ok s') (hInv : Inv3 s) :
    Inv3 s' := by
  unfold flushFile at h
  split at h
  case h_1 => injection h
  case h_2 cls heqc =>
    split at h
    case h_1 => injection h
    case h_2 m heqm =>
      cases hab : s.active_block with
      | some pb =>
        rw [hab] at h
        simp only [] at h
        split at h
        case h_1 => injection h
        case h_2 cls2 rep heqr =>
          injection h with h
          subst h
          obtain ⟨hcid, hmid, hbid, hiid⟩ := resolve_local_ids _ cls2 rep heqr
          refine inv3_flush_core s cls m cls2 heqc heqm ?_ ?_ ?_ ?_ hInv
          · rw [hcid]
            rfl
          · rw [hmid]
            unfold methodIdsProj
            simp [SmaliClass.add_method, Method.add_basic_block]
          · rw [hbid, hab]
            unfold methodBlockIds
            simp [SmaliClass.add_method, Method.add_basic_block, optList]
          · rw [hiid, hab]
            unfold methodInstrIds
            simp [SmaliClass.add_method, Method.add_basic_block, optList]
      | none =>
        rw [hab] at h
        simp only [] at h
        split at h
        case h_1 => injection h
        case h_2 cls2 rep heqr =>
          injection h with h
          subst h
          obtain ⟨hcid, hmid, hbid, hiid⟩ := resolve_local_ids _ cls2 rep heqr
          refine inv3_flush_core s cls m cls2 heqc heqm ?_ ?_ ?_ ?_ hInv
          · rw [hcid]
            rfl
          · rw [hmid]
            unfold methodIdsProj
            simp [SmaliClass.add_method]
          · rw [hbid, hab]
            unfold methodBlockIds
            simp [SmaliClass.add_method, optList]
          · rw [hiid, hab]
            unfold methodInstrIds
            simp [SmaliClass.add_method, optList]

theorem inv3_reset (s : Graph) (hInv : Inv3 s) :
    Inv3 { s with ANNOTATION_FLAG := false, FIELD_FLAG := false, SWITCH_FLAG := false,
                  METHOD_FLAG := false, active_class := none, active_method := none,
                  active_block := none } := by
  obtain ⟨h1, h2, h3, h4⟩ := hInv
  refine ⟨?_, ?_, ?_, ?_⟩
  · have e : classIdList { s with ANNOTATION_FLAG := false, FIELD_FLAG := false, SWITCH_FLAG := false, METHOD_FLAG := false, active_class := none, active_method := none, active_block := none } =
        s.classes.map (fun c => c.class_id) := by
      unfold classIdList stateClasses
      simp [optList]
    have e2 : classIdList s = s.classes.map (fun c => c.class_id) ++
        (optList s.active_class).map (fun c => c.class_id) := by
      unfold classIdList stateClasses
      simp
    rw [e]
    refine freshIds_sublist (classIdList s) _ _ ?_ h1
    rw [e2]
    exact List.sublist_append_left _ _
  · have e : methodIdList { s with ANNOTATION_FLAG := false, FIELD_FLAG := false, SWITCH_FLAG := false, METHOD_FLAG := false, active_class := none, active_method := none, active_block := none } =
        classesMethodIds s.classes := by
      unfold methodIdList stateMethods stateClasses classesMethodIds methodIdsProj
      simp [optList, List.map_flatMap]
    have e2 : methodIdList s = classesMethodIds s.classes ++
        ((optList s.active_class).flatMap (fun c => c.methods) ++
         optList s.active_method).map (fun m => m.method_id) := by
      unfold methodIdList stateMethods stateClasses classesMethodIds methodIdsProj
      simp [optList, List.map_flatMap]
    rw [e]
    refine freshIds_sublist (methodIdList s) _ _ ?_ h2
    rw [e2]
    exact List.sublist_append_left _ _
  · have e : blockIdList { s with ANNOTATION_FLAG := false, FIELD_FLAG := false, SWITCH_FLAG := false, METHOD_FLAG := false, active_class := none, active_method := none, active_block := none } =
        classesBlockIds s.classes := by
      unfold blockIdList stateBlocks stateMethods stateClasses classesBlockIds
        methodBlockIds
      simp [optList, List.map_flatMap, List.flatMap_assoc]
    have e2 : blockIdList s = classesBlockIds s.classes ++
        (((optList s.active_class).flatMap (fun c => c.methods) ++
          optList s.active_method).flatMap (fun m => m.basic_blocks) ++
         optList s.active_block).map (fun b => b.block_id) := by
      unfold blockIdList stateBlocks stateMethods stateClasses classesBlockIds
        methodBlockIds
      simp [optList, List.map_flatMap, List.flatMap_assoc]
    rw [e]
    refine freshIds_sublist (blockIdList s) _ _ ?_ h3
    rw [e2]
    exact List.sublist_append_left _ _
  · have e : instrIdList { s with ANNOTATION_FLAG := false, FIELD_FLAG := false, SWITCH_FLAG := false, METHOD_FLAG := false, active_class := none, active_method := none, active_block := none } =
        classesInstrIds s.classes := by
      unfold instrIdList stateInstrs stateBlocks stateMethods stateClasses
        classesInstrIds methodInstrIds
      simp [optList, List.map_flatMap, List.flatMap_assoc]
    have e2 : instrIdList s = classesInstrIds s.classes ++
        ((((optList s.active_class).flatMap (fun c => c.methods) ++
           optList s.active_method).flatMap (fun m => m.basic_blocks) ++
          optList s.active_block).flatMap (fun b => b.instructions)).map
          (fun i => i.instr_id) := by
      unfold instrIdList stateInstrs stateBlocks stateMethods stateClasses
        classesInstrIds methodInstrIds
      simp [optList, List.map_flatMap, List.flatMap_assoc]
    rw [e]
    refine freshIds_sublist (instrIdList s) _ _ ?_ h4
    rw [e2]
    exact List.sublist_append_left _ _

theorem inv3_init : Inv3 (initGraph []) := by
  refine ⟨⟨?_, ?_⟩, ⟨?_, ?_⟩, ⟨?_, ?_⟩, ⟨?_, ?_⟩⟩ <;>
    simp [classIdList, methodIdList, blockIdList, instrIdList, stateInstrs,
      stateBlocks, stateMethods, stateClasses, optList, initGraph]

theorem classid_add_invocation (c : SmaliClass) (instr : String)
    (mid bid : Nat) (fl : List String) (c' : SmaliClass) (fl' : List String)
    (h : c.add_invocation instr mid bid fl = .ok (c', fl')) :
    c'.class_id = c.class_id := by
  unfold SmaliClass.add_invocation at h
  simp only [] at h
  repeat' split at h
  all_goals
    first
      | (injection h with h; injection h with h1 h2; subst h1; rfl)
      | exact absurd h (by simp)

theorem inv3_elim (s : Graph) (h : Inv3 s) :
    FreshIds (classIdList s) s.class_id ∧ FreshIds (methodIdList s) s.method_id ∧
    FreshIds (blockIdList s) s.block_id ∧ FreshIds (instrIdList s) s.instruction_id := h

attribute [irreducible] Inv3

theorem inv3_region_annotation (instr : String) (s s' : Graph)
    (h : process_region_annotation instr s = .ok s') (hInv : Inv3 s) : Inv3 s' := by
  unfold process_region_annotation at h
  repeat' (first | split at h | simp only [] at h)
  all_goals
    first
      | (injection h with h; subst h;
         first
           | exact inv3_set_method_ids s _ _ _ (by assumption) (by rfl) (by rfl)
               (by rfl) hInv
           | exact inv3_set_class s _ _ _ _ (by assumption) (by rfl) (by rfl) hInv)
      | injection h

theorem inv3_region_field (instr : String) (s s' : Graph)
    (h : process_region_field instr s = .ok s') (hInv : Inv3 s) : Inv3 s' := by
  unfold process_region_field at h
  repeat' (first | split at h | simp only [] at h)
  all_goals
    first
      | (injection h with h; subst h;
         exact inv3_set_class s _ _ _ _ (by assumption) (by rfl) (by rfl) hInv)
      | injection h

theorem inv3_region_switch (instr : String) (s s' : Graph)
    (h : process_region_switch instr s = .ok s') (hInv : Inv3 s) : Inv3 s' := by
  unfold process_region_switch at h
  repeat' (first | split at h | simp only [] at h)
  all_goals
    first
      | (injection h with h; subst h;
         first
           | exact hInv
           | exact inv3_set_method_ids s _ _ _ (by assumption) (by rfl) (by rfl)
               (by rfl) hInv
           | exact inv3_set_method_clear_block s _ _ (by assumption) (by rfl)
               (by rfl) hInv)
      | injection h

theorem inv3_region_method (instr : String) (ln : Nat) (s s' : Graph)
    (h : process_region_method instr ln s = .ok s') (hInv : Inv3 s) : Inv3 s' := by
  unfold process_region_method at h
  repeat' (first | split at h | simp only [] at h)
  all_goals
    first
      | (injection h with h; subst h;
         first
           | exact hInv
           | exact inv3_method_start_none s _ _ (by assumption) (by rfl) (by rfl)
               (by rfl) (by rfl) hInv
           | exact inv3_method_start_prev s _ _ _ _ _ (by assumption) (by assumption)
               (by assumption) (by rfl) (by rfl) (by rfl) (by rfl) hInv
           | exact inv3_set_method_ids _ _ _ _ (by assumption)
               (by exact resolve_labels_mid _) (by exact resolve_labels_bids _)
               (by exact congrArg (List.map (fun i => i.instr_id)) (resolve_labels_instrs _))
               (inv3_append _ _ _ _ (by assumption) (by rfl) (by omega) hInv)
           | exact inv3_label s _ _ _ _ (by assumption) (by assumption) (by rfl)
               (by rfl) hInv
           | exact inv3_bt _ _ (inv3_append _ _ _ _ (by assumption) (by rfl)
               (by omega) hInv)
           | exact inv3_set_method_ids _ _ _ _ (by assumption) (by rfl) (by rfl)
               (by rfl) (inv3_append _ _ _ _ (by assumption) (by rfl) (by omega) hInv)
           | exact inv3_set_class _ _ _ _ _ (by assumption)
               (classid_add_invocation _ _ _ _ _ _ _ (by assumption))
               (methods_add_invocation _ _ _ _ _ _ _ (by assumption))
               (inv3_append _ _ _ _ (by assumption) (by rfl) (by omega) hInv))
      | exact inv3_append _ _ _ _ h (by rfl) (by omega) hInv
      | injection h

theorem inv3_region_class (instr : String) (s s' : Graph)
    (h : process_region_class instr s = .ok s') (hInv : Inv3 s) : Inv3 s' := by
  unfold process_region_class at h
  repeat' (first | split at h | simp only [] at h)
  all_goals
    first
      | (injection h with h; subst h;
         first
           | exact hInv
           | exact inv3_new_class s _ 0 (by rfl) (by rfl) hInv
           | exact inv3_set_class s _ _ _ _ (by assumption) (by rfl) (by rfl) hInv)
      | injection h

theorem inv3_process (instr : String) (ln : Nat) (s s' : Graph)
    (h : process_instruction instr ln s = .ok s') (hInv : Inv3 s) : Inv3 s' := by
  unfold process_instruction at h
  repeat' split at h
  all_goals
    first
      | exact inv3_region_annotation _ _ _ h hInv
      | exact inv3_region_field _ _ _ h hInv
      | exact inv3_region_switch _ _ _ h hInv
      | exact inv3_region_method _ _ _ _ h hInv
      | exact inv3_region_class _ _ _ h hInv

theorem inv3_processLineDirective (instr : String) (n : Nat) (s s' : Graph)
    (h : processLineDirective instr n s = .ok s') (hInv : Inv3 s) : Inv3 s' := by
  unfold processLineDirective at h
  repeat' (first | split at h | simp only [] at h)
  all_goals
    first
      | (injection h with h; subst h;
         exact inv3_flags _ _ _ _ _ (inv3_process _ _ _ _ (by assumption) hInv))
      | exact inv3_process _ _ _ _ h (inv3_flags _ _ _ _ _ hInv)
      | injection h

theorem inv3_processLine (s : Graph) (n : Nat) (raw : String) (s' : Graph)
    (h : processLine s n raw = .ok s') (hInv : Inv3 s) : Inv3 s' := by
  unfold processLine at h
  repeat' (first | split at h | simp only [] at h)
  all_goals
    first
      | (injection h with h; subst h;
         first
           | exact hInv
           | exact inv3_flags _ _ _ _ _ (inv3_process _ _ _ _ (by assumption) hInv))
      | exact inv3_process _ _ _ _ h (inv3_flags _ _ _ _ _ hInv)
      | exact inv3_processLineDirective _ _ _ _ h hInv
      | injection h

theorem inv3_processLines (l : List (Nat × String)) :
    ∀ s s', processLines s l = .ok s' → Inv3 s → Inv3 s' := by
  induction l with
  | nil =>
    intro s s' h hInv
    injection h with h
    subst h
    exact hInv
  | cons p rest ih =>
    intro s s' h hInv
    obtain ⟨n, raw⟩ := p
    unfold processLines at h
    split at h
    case h_1 => injection h
    case h_2 s0 heq => exact ih s0 s' h (inv3_processLine s n raw s0 heq hInv)

theorem inv3_runFile (s : Graph) (lines : List String) (s' : Graph)
    (h : runFile s lines = .ok s') (hInv : Inv3 s) : Inv3 s' := by
  unfold runFile at h
  simp only [] at h
  split at h
  case h_1 => injection h
  case h_2 s1 heq =>
    exact inv3_flush s1 s' h (inv3_processLines _ _ _ heq (inv3_reset s hInv))

theorem inv3_runFiles (fs : List (List String)) :
    ∀ s s', runFiles s fs = .ok s' → Inv3 s → Inv3 s' := by
  induction fs with
  | nil =>
    intro s s' h hInv
    injection h with h
    subst h
    exact hInv
  | cons f rest ih =>
    intro s s' h hInv
    unfold runFiles at h
    split at h
    case h_1 => injection h
    case h_2 s1 heq => exact ih s1 s' h (inv3_runFile s f s1 heq hInv)

theorem flatMap_listModify_perm {α β : Type} (proj : α → List β) (f : α → α) (x : β)
    (h : ∀ a, proj (f a) = proj a ++ [x]) (i : Nat) (l : List α) :
    ((listModify f i l).flatMap proj).Perm (l.flatMap proj ++ [x]) ∨
    (listModify f i l).flatMap proj = l.flatMap proj := by
  induction l generalizing i with
  | nil => right; cases i <;> rfl
  | cons a as ih =>
    cases i with
    | zero =>
      left
      simp only [listModify, List.flatMap_cons, h a, List.append_assoc]
      exact List.Perm.append_left _ List.perm_append_comm
    | succ n =>
      rcases ih n with hp | he
      · left
        simp only [listModify, List.flatMap_cons, List.append_assoc]
        refine List.Perm.append_left _ ?_
        have := hp.append_left (List.nil)
        simpa using hp
      · right
        simp only [listModify, List.flatMap_cons, he]

theorem freshIds_append_insert (A l l' : List Nat) (c x c' : Nat)
    (hp : l'.Perm (l ++ [x]) ∨ l' = l) (h : FreshIds (A ++ l) c)
    (hx : c ≤ x) (hx' : x < c') (hc : c ≤ c') : FreshIds (A ++ l') c' := by
  rcases hp with hp | he
  · refine freshIds_perm ((A ++ l) ++ [x]) (A ++ l') c' ?_
      (freshIds_snoc _ c _ _ h hx hx' hc)
    have h1 : (A ++ l').Perm (A ++ (l ++ [x])) := hp.append_left A
    rw [← List.append_assoc] at h1
    exact h1
  · rw [he]
    exact freshIds_mono _ c _ hc h

theorem cids_cmm (ci mi : Nat) (f : Method → Method) (cs : List SmaliClass) :
    classesClassIds (classesModifyMethod ci mi f cs) = classesClassIds cs := by
  unfold classesClassIds classesModifyMethod
  apply map_listModify_eq
  intro c
  rfl

theorem cids_cmb (ci mi bi : Nat) (f : BasicBlock → BasicBlock)
    (cs : List SmaliClass) :
    classesClassIds (classesModifyBlock ci mi bi f cs) = classesClassIds cs := by
  unfold classesModifyBlock
  rw [cids_cmm]

theorem cmids_cmb_child (ci mi bi k : Nat) (cs : List SmaliClass) :
    classesMethodIds (classesModifyBlock ci mi bi
      (fun b => b.add_child_block_id k) cs) = classesMethodIds cs := by
  unfold classesMethodIds classesModifyBlock classesModifyMethod
  apply flatMap_listModify_eq
  intro c
  exact mids_lm_child mi bi k c.methods

theorem cmids_cmb_parent (ci mi bi k : Nat) (cs : List SmaliClass) :
    classesMethodIds (classesModifyBlock ci mi bi
      (fun b => b.add_parent_block_id k) cs) = classesMethodIds cs := by
  unfold classesMethodIds classesModifyBlock classesModifyMethod
  apply flatMap_listModify_eq
  intro c
  exact mids_lm_parent mi bi k c.methods

theorem cmids_cmm_cout (ci mi k : Nat) (cs : List SmaliClass) :
    classesMethodIds (classesModifyMethod ci mi
      (fun m => m.add_call_out k) cs) = classesMethodIds cs := by
  unfold classesMethodIds classesModifyMethod
  apply flatMap_listModify_eq
  intro c
  exact mids_lm_cout mi k c.methods

theorem cmids_cmm_cin (ci mi k : Nat) (cs : List SmaliClass) :
    classesMethodIds (classesModifyMethod ci mi
      (fun m => m.add_call_in k) cs) = classesMethodIds cs := by
  unfold classesMethodIds classesModifyMethod
  apply flatMap_listModify_eq
  intro c
  exact mids_lm_cin mi k c.methods

theorem cbids_cmb_child (ci mi bi k : Nat) (cs : List SmaliClass) :
    classesBlockIds (classesModifyBlock ci mi bi
      (fun b => b.add_child_block_id k) cs) = classesBlockIds cs := by
  unfold classesBlockIds classesModifyBlock classesModifyMethod
  apply flatMap_listModify_eq
  intro c
  exact bids_lm_child mi bi k c.methods

theorem cbids_cmb_parent (ci mi bi k : Nat) (cs : List SmaliClass) :
    classesBlockIds (classesModifyBlock ci mi bi
      (fun b => b.add_parent_block_id k) cs) = classesBlockIds cs := by
  unfold classesBlockIds classesModifyBlock classesModifyMethod
  apply flatMap_listModify_eq
  intro c
  exact bids_lm_parent mi bi k c.methods

theorem cbids_cmm_cout (ci mi k : Nat) (cs : List SmaliClass) :
    classesBlockIds (classesModifyMethod ci mi
      (fun m => m.add_call_out k) cs) = classesBlockIds cs := by
  unfold classesBlockIds classesModifyMethod
  apply flatMap_listModify_eq
  intro c
  exact bids_lm_cout mi k c.methods

theorem cbids_cmm_cin (ci mi k : Nat) (cs : List SmaliClass) :
    classesBlockIds (classesModifyMethod ci mi
      (fun m => m.add_call_in k) cs) = classesBlockIds cs := by
  unfold classesBlockIds classesModifyMethod
  apply flatMap_listModify_eq
  intro c
  exact bids_lm_cin mi k c.methods

theorem ciids_cmb_child (ci mi bi k : Nat) (cs : List SmaliClass) :
    classesInstrIds (classesModifyBlock ci mi bi
      (fun b => b.add_child_block_id k) cs) = classesInstrIds cs := by
  unfold classesInstrIds classesModifyBlock classesModifyMethod
  apply flatMap_listModify_eq
  intro c
  exact iids_lm_child mi bi k c.methods

theorem ciids_cmb_parent (ci mi bi k : Nat) (cs : List SmaliClass) :
    classesInstrIds (classesModifyBlock ci mi bi
      (fun b => b.add_parent_block_id k) cs) = classesInstrIds cs := by
  unfold classesInstrIds classesModifyBlock classesModifyMethod
  apply flatMap_listModify_eq
  intro c
  exact iids_lm_parent mi bi k c.methods

theorem ciids_cmm_cout (ci mi k : Nat) (cs : List SmaliClass) :
    classesInstrIds (classesModifyMethod ci mi
      (fun m => m.add_call_out k) cs) = classesInstrIds cs := by
  unfold classesInstrIds classesModifyMethod
  apply flatMap_listModify_eq
  intro c
  exact iids_lm_cout mi k c.methods

theorem ciids_cmm_cin (ci mi k : Nat) (cs : List SmaliClass) :
    classesInstrIds (classesModifyMethod ci mi
      (fun m => m.add_call_in k) cs) = classesInstrIds cs := by
  unfold classesInstrIds classesModifyMethod
  apply flatMap_listModify_eq
  intro c
  exact iids_lm_cin mi k c.methods

theorem resolveOneGlobal_ids (cs : List SmaliClass) (i : Nat)
    (inv : Nat × Nat × String × String) (cs' : List SmaliClass)
    (h : resolveOneGlobal cs i inv = .ok (.inl cs')) :
    classesClassIds cs' = classesClassIds cs ∧
    classesMethodIds cs' = classesMethodIds cs ∧
    classesBlockIds cs' = classesBlockIds cs ∧
    classesInstrIds cs' = classesInstrIds cs := by
  unfold resolveOneGlobal at h
  simp only [] at h
  repeat' split at h
  all_goals
    first
      | (injection h with h; injection h with h; subst h;
         refine ⟨?_, ?_, ?_, ?_⟩
         · repeat' rw [cids_cmb]
           repeat' rw [cids_cmm]
           repeat' first | rw [cids_cmb] | rw [cids_cmm]
           try rfl
         · repeat'
             first
               | rw [cmids_cmb_child]
               | rw [cmids_cmb_parent]
               | rw [cmids_cmm_cout]
               | rw [cmids_cmm_cin]
           try rfl
         · repeat'
             first
               | rw [cbids_cmb_child]
               | rw [cbids_cmb_parent]
               | rw [cbids_cmm_cout]
               | rw [cbids_cmm_cin]
           try rfl
         · repeat'
             first
               | rw [ciids_cmb_child]
               | rw [ciids_cmb_parent]
               | rw [ciids_cmm_cout]
               | rw [ciids_cmm_cin]
           try rfl)
      | (injection h with h; injection h)
      | injection h

theorem resolveGlobalList_ids (invs : List (Nat × Nat × String × String)) :
    ∀ (i : Nat) (cs : List SmaliClass) (rep : List String)
      (cs' : List SmaliClass) (rep' : List String),
    resolveGlobalList i cs invs rep = .ok (cs', rep') →
    classesClassIds cs' = classesClassIds cs ∧
    classesMethodIds cs' = classesMethodIds cs ∧
    classesBlockIds cs' = classesBlockIds cs ∧
    classesInstrIds cs' = classesInstrIds cs := by
  induction invs with
  | nil =>
    intro i cs rep cs' rep' h
    unfold resolveGlobalList at h
    injection h with h
    injection h with h1 h2
    subst h1
    exact ⟨rfl, rfl, rfl, rfl⟩
  | cons inv rest ih =>
    intro i cs rep cs' rep' h
    unfold resolveGlobalList at h
    split at h
    case h_1 => injection h
    case h_2 cs0 heq =>
      obtain ⟨a1, a2, a3, a4⟩ := resolveOneGlobal_ids cs i inv cs0 heq
      obtain ⟨b1, b2, b3, b4⟩ := ih i cs0 rep cs' rep' h
      exact ⟨b1.trans a1, b2.trans a2, b3.trans a3, b4.trans a4⟩
    case h_3 msg heq =>
      injection h with h
      injection h with h1 h2
      subst h1
      exact ⟨rfl, rfl, rfl, rfl⟩

theorem resolve_global_ids (classes cs' : List SmaliClass) (rep' : List String)
    (h : resolve_global_invocations classes = .ok (cs', rep')) :
    classesClassIds cs' = classesClassIds classes ∧
    classesMethodIds cs' = classesMethodIds classes ∧
    classesBlockIds cs' = classesBlockIds classes ∧
    classesInstrIds cs' = classesInstrIds classes := by
  unfold resolve_global_invocations at h
  have hq := foldl_inv
    (P := fun (acc : Except String (List SmaliClass × List String)) =>
      ∀ cs rep, acc = .ok (cs, rep) →
        classesClassIds cs = classesClassIds classes ∧
        classesMethodIds cs = classesMethodIds classes ∧
        classesBlockIds cs = classesBlockIds classes ∧
        classesInstrIds cs = classesInstrIds classes)
    (fun acc i =>
      match acc with
      | .error e => .error e
      | .ok (cs, rep) => resolveGlobalList i cs ((cs.getD i default).invocations_global) rep)
    (List.range classes.length)
    ?_ (.ok (classes, [])) ?_
  · exact hq cs' rep' h
  · intro st a hst
    cases st with
    | error e => intro cs rep hcs; injection hcs
    | ok p =>
      obtain ⟨cs0, rep0⟩ := p
      intro cs rep hcs
      obtain ⟨a1, a2, a3, a4⟩ := resolveGlobalList_ids _ a cs0 rep0 cs rep hcs
      obtain ⟨b1, b2, b3, b4⟩ := hst cs0 rep0 rfl
      exact ⟨a1.trans b1, a2.trans b2, a3.trans b3, a4.trans b4⟩
  · intro cs rep hcs
    injection hcs with hcs
    injection hcs with h1 h2
    subst h1
    exact ⟨rfl, rfl, rfl, rfl⟩

theorem classesClassIds_append (a b : List SmaliClass) :
    classesClassIds (a ++ b) = classesClassIds a ++ classesClassIds b := by
  unfold classesClassIds
  exact List.map_append _ a b

theorem classesMethodIds_append (a b : List SmaliClass) :
    classesMethodIds (a ++ b) = classesMethodIds a ++ classesMethodIds b := by
  unfold classesMethodIds
  exact List.flatMap_append a b _

theorem classesBlockIds_append (a b : List SmaliClass) :
    classesBlockIds (a ++ b) = classesBlockIds a ++ classesBlockIds b := by
  unfold classesBlockIds
  exact List.flatMap_append a b _

theorem classesInstrIds_append (a b : List SmaliClass) :
    classesInstrIds (a ++ b) = classesInstrIds a ++ classesInstrIds b := by
  unfold classesInstrIds
  exact List.flatMap_append a b _

theorem cids_lm_addm (gi : Nat) (tm : Method) (gen : List SmaliClass) :
    classesClassIds (listModify (fun c => c.add_method tm) gi gen) =
    classesClassIds gen := by
  unfold classesClassIds
  apply map_listModify_eq
  intro c
  rfl

theorem cmids_lm_addm (gi : Nat) (tm : Method) (gen : List SmaliClass) :
    (classesMethodIds (listModify (fun c => c.add_method tm) gi gen)).Perm
      (classesMethodIds gen ++ [tm.method_id]) ∨
    classesMethodIds (listModify (fun c => c.add_method tm) gi gen) =
      classesMethodIds gen := by
  unfold classesMethodIds
  apply flatMap_listModify_perm
  intro c
  unfold methodIdsProj SmaliClass.add_method
  simp

theorem cbids_lm_addm (gi mid bid2 : Nat) (nm : String) (ins : Instruction)
    (gen : List SmaliClass) :
    (classesBlockIds (listModify (fun c => c.add_method
      ((mkMethod mid nm).add_basic_block (mkBasicBlock bid2 ins))) gi gen)).Perm
      (classesBlockIds gen ++ [bid2]) ∨
    classesBlockIds (listModify (fun c => c.add_method
      ((mkMethod mid nm).add_basic_block (mkBasicBlock bid2 ins))) gi gen) =
      classesBlockIds gen := by
  unfold classesBlockIds
  apply flatMap_listModify_perm
  intro c
  unfold methodBlockIds SmaliClass.add_method
  simp
  rfl

theorem ciids_lm_addm (gi mid bid2 : Nat) (nm : String) (ins : Instruction)
    (gen : List SmaliClass) :
    (classesInstrIds (listModify (fun c => c.add_method
      ((mkMethod mid nm).add_basic_block (mkBasicBlock bid2 ins))) gi gen)).Perm
      (classesInstrIds gen ++ [ins.instr_id]) ∨
    classesInstrIds (listModify (fun c => c.add_method
      ((mkMethod mid nm).add_basic_block (mkBasicBlock bid2 ins))) gi gen) =
      classesInstrIds gen := by
  unfold classesInstrIds
  apply flatMap_listModify_perm
  intro c
  unfold methodInstrIds SmaliClass.add_method
  simp
  rfl

theorem libFindOrCreate_ids (st : LibState) (tcn tmn : String)
    (h1 : FreshIds (classesClassIds (st.classes ++ st.generated)) st.class_id)
    (h2 : FreshIds (classesMethodIds (st.classes ++ st.generated)) st.method_id)
    (h3 : FreshIds (classesBlockIds (st.classes ++ st.generated)) st.block_id)
    (h4 : FreshIds (classesInstrIds (st.classes ++ st.generated)) st.instruction_id) :
    FreshIds (classesClassIds ((libFindOrCreate st tcn tmn).1.classes ++
      (libFindOrCreate st tcn tmn).1.generated)) (libFindOrCreate st tcn tmn).1.class_id ∧
    FreshIds (classesMethodIds ((libFindOrCreate st tcn tmn).1.classes ++
      (libFindOrCreate st tcn tmn).1.generated)) (libFindOrCreate st tcn tmn).1.method_id ∧
    FreshIds (classesBlockIds ((libFindOrCreate st tcn tmn).1.classes ++
      (libFindOrCreate st tcn tmn).1.generated)) (libFindOrCreate st tcn tmn).1.block_id ∧
    FreshIds (classesInstrIds ((libFindOrCreate st tcn tmn).1.classes ++
      (libFindOrCreate st tcn tmn).1.generated)) (libFindOrCreate st tcn tmn).1.instruction_id := by
  have hga : ∀ cid : Nat, ∀ hdr : String,
      classesClassIds (st.generated ++ [mkSmaliClass cid hdr]) =
        classesClassIds st.generated ++ [cid] := by
    intro cid hdr
    rw [classesClassIds_append]
    rfl
  have hgm : ∀ cid : Nat, ∀ hdr : String,
      classesMethodIds (st.generated ++ [mkSmaliClass cid hdr]) =
        classesMethodIds st.generated := by
    intro cid hdr
    rw [classesMethodIds_append]
    simp [classesMethodIds, methodIdsProj, mkSmaliClass]
  have hgb : ∀ cid : Nat, ∀ hdr : String,
      classesBlockIds (st.generated ++ [mkSmaliClass cid hdr]) =
        classesBlockIds st.generated := by
    intro cid hdr
    rw [classesBlockIds_append]
    simp [classesBlockIds, methodBlockIds, mkSmaliClass]
  have hgi : ∀ cid : Nat, ∀ hdr : String,
      classesInstrIds (st.generated ++ [mkSmaliClass cid hdr]) =
        classesInstrIds st.generated := by
    intro cid hdr
    rw [classesInstrIds_append]
    simp [classesInstrIds, methodInstrIds, mkSmaliClass]
  unfold libFindOrCreate
  cases hcc : st.generated.findIdx?
      (fun g => g.class_path ++ "/" ++ g.class_name == tcn) <;>
    simp only [hcc] <;> split
  · refine ⟨?_, ?_, ?_, ?_⟩
    · rw [classesClassIds_append, hga, ← List.append_assoc]
      exact freshIds_snoc _ st.class_id _ _ (by rw [← classesClassIds_append]; exact h1)
        (le_refl _) (Nat.lt_succ_self _) (Nat.le_succ _)
    · rw [classesMethodIds_append, hgm, ← classesMethodIds_append]
      exact h2
    · rw [classesBlockIds_append, hgb, ← classesBlockIds_append]
      exact h3
    · rw [classesInstrIds_append, hgi, ← classesInstrIds_append]
      exact h4
  · refine ⟨?_, ?_, ?_, ?_⟩
    · rw [classesClassIds_append, cids_lm_addm, hga, ← List.append_assoc]
      exact freshIds_snoc _ st.class_id _ _ (by rw [← classesClassIds_append]; exact h1)
        (le_refl _) (Nat.lt_succ_self _) (Nat.le_succ _)
    · rw [classesMethodIds_append]
      refine freshIds_append_insert _ (classesMethodIds (st.generated ++ [mkSmaliClass st.class_id (".class public final " ++ tcn ++ ";")])) _ st.method_id _ _ (cmids_lm_addm _ _ _) ?_ (le_refl _) (Nat.lt_succ_self _) (Nat.le_succ _)
      rw [hgm, ← classesMethodIds_append]
      exact h2
    · rw [classesBlockIds_append]
      refine freshIds_append_insert _ (classesBlockIds (st.generated ++ [mkSmaliClass st.class_id (".class public final " ++ tcn ++ ";")])) _ st.block_id _ _ (cbids_lm_addm _ _ _ _ _ _) ?_ (le_refl _) (Nat.lt_succ_self _) (Nat.le_succ _)
      rw [hgb, ← classesBlockIds_append]
      exact h3
    · rw [classesInstrIds_append]
      refine freshIds_append_insert _ (classesInstrIds (st.generated ++ [mkSmaliClass st.class_id (".class public final " ++ tcn ++ ";")])) _ st.instruction_id _ _ (ciids_lm_addm _ _ _ _ _ _) ?_ (le_refl _) (Nat.lt_succ_self _) (Nat.le_succ _)
      rw [hgi, ← classesInstrIds_append]
      exact h4
  · exact ⟨h1, h2, h3, h4⟩
  · refine ⟨?_, ?_, ?_, ?_⟩
    · rw [classesClassIds_append, cids_lm_addm, ← classesClassIds_append]
      exact h1
    · rw [classesMethodIds_append]
      refine freshIds_append_insert _ (classesMethodIds st.generated) _ st.method_id _ _ (cmids_lm_addm _ _ _) ?_ (le_refl _) (Nat.lt_succ_self _) (Nat.le_succ _)
      rw [← classesMethodIds_append]
      exact h2
    · rw [classesBlockIds_append]
      refine freshIds_append_insert _ (classesBlockIds st.generated) _ st.block_id _ _ (cbids_lm_addm _ _ _ _ _ _) ?_ (le_refl _) (Nat.lt_succ_self _) (Nat.le_succ _)
      rw [← classesBlockIds_append]
      exact h3
    · rw [classesInstrIds_append]
      refine freshIds_append_insert _ (classesInstrIds st.generated) _ st.instruction_id _ _ (ciids_lm_addm _ _ _ _ _ _) ?_ (le_refl _) (Nat.lt_succ_self _) (Nat.le_succ _)
      rw [← classesInstrIds_append]
      exact h4

theorem libLink_ids (st : LibState) (i gi tmi sm sb : Nat) (tcn tmn : String)
    (h1 : FreshIds (classesClassIds (st.classes ++ st.generated)) st.class_id)
    (h2 : FreshIds (classesMethodIds (st.classes ++ st.generated)) st.method_id)
    (h3 : FreshIds (classesBlockIds (st.classes ++ st.generated)) st.block_id)
    (h4 : FreshIds (classesInstrIds (st.classes ++ st.generated)) st.instruction_id) :
    FreshIds (classesClassIds ((sumStateLib (libLink st i gi tmi sm sb tcn tmn)).classes ++
      (sumStateLib (libLink st i gi tmi sm sb tcn tmn)).generated))
      (sumStateLib (libLink st i gi tmi sm sb tcn tmn)).class_id ∧
    FreshIds (classesMethodIds ((sumStateLib (libLink st i gi tmi sm sb tcn tmn)).classes ++
      (sumStateLib (libLink st i gi tmi sm sb tcn tmn)).generated))
      (sumStateLib (libLink st i gi tmi sm sb tcn tmn)).method_id ∧
    FreshIds (classesBlockIds ((sumStateLib (libLink st i gi tmi sm sb tcn tmn)).classes ++
      (sumStateLib (libLink st i gi tmi sm sb tcn tmn)).generated))
      (sumStateLib (libLink st i gi tmi sm sb tcn tmn)).block_id ∧
    FreshIds (classesInstrIds ((sumStateLib (libLink st i gi tmi sm sb tcn tmn)).classes ++
      (sumStateLib (libLink st i gi tmi sm sb tcn tmn)).generated))
      (sumStateLib (libLink st i gi tmi sm sb tcn tmn)).instruction_id := by
  unfold libLink
  simp only []
  split
  · exact ⟨h1, h2, h3, h4⟩
  · split
    · exact ⟨h1, h2, h3, h4⟩
    · split <;>
      · refine ⟨?_, ?_, ?_, ?_⟩
        · simp only [sumStateLib]
          rw [classesClassIds_append]
          repeat' rw [cids_cmb]
          rw [← classesClassIds_append]
          exact h1
        · simp only [sumStateLib]
          rw [classesMethodIds_append]
          repeat'
            first
              | rw [cmids_cmb_child]
              | rw [cmids_cmb_parent]
          rw [← classesMethodIds_append]
          exact h2
        · simp only [sumStateLib]
          rw [classesBlockIds_append]
          repeat'
            first
              | rw [cbids_cmb_child]
              | rw [cbids_cmb_parent]
          rw [← classesBlockIds_append]
          exact h3
        · simp only [sumStateLib]
          rw [classesInstrIds_append]
          repeat'
            first
              | rw [ciids_cmb_child]
              | rw [ciids_cmb_parent]
          rw [← classesInstrIds_append]
          exact h4

theorem resolveOneLib_ids (st : LibState) (i : Nat)
    (inv : Nat × Nat × String × String)
    (h1 : FreshIds (classesClassIds (st.classes ++ st.generated)) st.class_id)
    (h2 : FreshIds (classesMethodIds (st.classes ++ st.generated)) st.method_id)
    (h3 : FreshIds (classesBlockIds (st.classes ++ st.generated)) st.block_id)
    (h4 : FreshIds (classesInstrIds (st.classes ++ st.generated)) st.instruction_id) :
    FreshIds (classesClassIds ((sumStateLib (resolveOneLib st i inv)).classes ++
      (sumStateLib (resolveOneLib st i inv)).generated))
      (sumStateLib (resolveOneLib st i inv)).class_id ∧
    FreshIds (classesMethodIds ((sumStateLib (resolveOneLib st i inv)).classes ++
      (sumStateLib (resolveOneLib st i inv)).generated))
      (sumStateLib (resolveOneLib st i inv)).method_id ∧
    FreshIds (classesBlockIds ((sumStateLib (resolveOneLib st i inv)).classes ++
      (sumStateLib (resolveOneLib st i inv)).generated))
      (sumStateLib (resolveOneLib st i inv)).block_id ∧
    FreshIds (classesInstrIds ((sumStateLib (resolveOneLib st i inv)).classes ++
      (sumStateLib (resolveOneLib st i inv)).generated))
      (sumStateLib (resolveOneLib st i inv)).instruction_id := by
  obtain ⟨sm, sb, tcn, tmn⟩ := inv
  unfold resolveOneLib
  simp only []
  obtain ⟨k1, k2, k3, k4⟩ := libFindOrCreate_ids st tcn tmn h1 h2 h3 h4
  exact libLink_ids _ i _ _ sm sb tcn tmn k1 k2 k3 k4

theorem resolveLibList_ids (i : Nat) (invs : List (Nat × Nat × String × String)) :
    ∀ st : LibState,
    FreshIds (classesClassIds (st.classes ++ st.generated)) st.class_id ∧
    FreshIds (classesMethodIds (st.classes ++ st.generated)) st.method_id ∧
    FreshIds (classesBlockIds (st.classes ++ st.generated)) st.block_id ∧
    FreshIds (classesInstrIds (st.classes ++ st.generated)) st.instruction_id →
    FreshIds (classesClassIds ((resolveLibList i st invs).classes ++
      (resolveLibList i st invs).generated)) (resolveLibList i st invs).class_id ∧
    FreshIds (classesMethodIds ((resolveLibList i st invs).classes ++
      (resolveLibList i st invs).generated)) (resolveLibList i st invs).method_id ∧
    FreshIds (classesBlockIds ((resolveLibList i st invs).classes ++
      (resolveLibList i st invs).generated)) (resolveLibList i st invs).block_id ∧
    FreshIds (classesInstrIds ((resolveLibList i st invs).classes ++
      (resolveLibList i st invs).generated)) (resolveLibList i st invs).instruction_id := by
  induction invs with
  | nil => intro st h; exact h
  | cons inv rest ih =>
    intro st h
    have hone := resolveOneLib_ids st i inv h.1 h.2.1 h.2.2.1 h.2.2.2
    unfold resolveLibList
    cases hres : resolveOneLib st i inv with
    | inl st' =>
      rw [hres] at hone
      simp only [sumStateLib] at hone
      exact ih st' hone
    | inr p =>
      obtain ⟨st', msg⟩ := p
      rw [hres] at hone
      simp only [sumStateLib] at hone
      exact hone

theorem resolve_library_ids (g : Graph)
    (h1 : FreshIds (classesClassIds g.classes) g.class_id)
    (h2 : FreshIds (classesMethodIds g.classes) g.method_id)
    (h3 : FreshIds (classesBlockIds g.classes) g.block_id)
    (h4 : FreshIds (classesInstrIds g.classes) g.instruction_id) :
    FreshIds (classesClassIds (resolve_library_invocations g).1.classes)
      (resolve_library_invocations g).1.class_id ∧
    FreshIds (classesMethodIds (resolve_library_invocations g).1.classes)
      (resolve_library_invocations g).1.method_id ∧
    FreshIds (classesBlockIds (resolve_library_invocations g).1.classes)
      (resolve_library_invocations g).1.block_id ∧
    FreshIds (classesInstrIds (resolve_library_invocations g).1.classes)
      (resolve_library_invocations g).1.instruction_id := by
  unfold resolve_library_invocations
  simp only []
  have hq := @foldl_inv LibState Nat
    (fun st : LibState =>
      FreshIds (classesClassIds (st.classes ++ st.generated)) st.class_id ∧
      FreshIds (classesMethodIds (st.classes ++ st.generated)) st.method_id ∧
      FreshIds (classesBlockIds (st.classes ++ st.generated)) st.block_id ∧
      FreshIds (classesInstrIds (st.classes ++ st.generated)) st.instruction_id)
    (fun st i => resolveLibList i st ((st.classes.getD i default).invocations_lib))
    (List.range g.classes.length)
    (fun st a h => resolveLibList_ids a _ st h)
    { classes := g.classes, generated := [], class_id := g.class_id,
      method_id := g.method_id, block_id := g.block_id,
      instruction_id := g.instruction_id, report := [] }
    ⟨by simpa using h1, by simpa using h2, by simpa using h3, by simpa using h4⟩
  exact hq

theorem classIds_eq (g : Graph) : classIds g = classesClassIds g.classes := rfl

theorem methodIds_eq (g : Graph) : methodIds g = classesMethodIds g.classes := by
  simp [methodIds, graphMethods, classesMethodIds, methodIdsProj, List.map_flatMap]

theorem blockIds_eq (g : Graph) : blockIds g = classesBlockIds g.classes := by
  simp [blockIds, graphBlocks, graphMethods, classesBlockIds, methodBlockIds,
    List.map_flatMap, List.flatMap_assoc]

theorem instrIds_eq (g : Graph) : instrIds g = classesInstrIds g.classes := by
  simp [instrIds, graphInstrs, graphBlocks, graphMethods, classesInstrIds,
    methodInstrIds, List.map_flatMap, List.flatMap_assoc]

theorem idsFresh_classes_of_inv3 (s : Graph) (hInv : Inv3 s) :
    FreshIds (classesClassIds s.classes) s.class_id ∧
    FreshIds (classesMethodIds s.classes) s.method_id ∧
    FreshIds (classesBlockIds s.classes) s.block_id ∧
    FreshIds (classesInstrIds s.classes) s.instruction_id := by
  obtain ⟨h1, h2, h3, h4⟩ := inv3_elim s hInv
  refine ⟨?_, ?_, ?_, ?_⟩
  · refine freshIds_sublist (classIdList s) _ _ ?_ h1
    have e2 : classIdList s = classesClassIds s.classes ++
        (optList s.active_class).map (fun c => c.class_id) := by
      unfold classIdList stateClasses classesClassIds
      simp
    rw [e2]
    exact List.sublist_append_left _ _
  · refine freshIds_sublist (methodIdList s) _ _ ?_ h2
    have e2 : methodIdList s = classesMethodIds s.classes ++
        ((optList s.active_class).flatMap (fun c => c.methods) ++
         optList s.active_method).map (fun m => m.method_id) := by
      unfold methodIdList stateMethods stateClasses classesMethodIds methodIdsProj
      simp [optList, List.map_flatMap]
    rw [e2]
    exact List.sublist_append_left _ _
  · refine freshIds_sublist (blockIdList s) _ _ ?_ h3
    have e2 : blockIdList s = classesBlockIds s.classes ++
        (((optList s.active_class).flatMap (fun c => c.methods) ++
          optList s.active_method).flatMap (fun m => m.basic_blocks) ++
         optList s.active_block).map (fun b => b.block_id) := by
      unfold blockIdList stateBlocks stateMethods stateClasses classesBlockIds
        methodBlockIds
      simp [optList, List.map_flatMap, List.flatMap_assoc]
    rw [e2]
    exact List.sublist_append_left _ _
  · refine freshIds_sublist (instrIdList s) _ _ ?_ h4
    have e2 : instrIdList s = classesInstrIds s.classes ++
        ((((optList s.active_class).flatMap (fun c => c.methods) ++
           optList s.active_method).flatMap (fun m => m.basic_blocks) ++
          optList s.active_block).flatMap (fun b => b.instructions)).map
          (fun i => i.instr_id) := by
      unfold instrIdList stateInstrs stateBlocks stateMethods stateClasses
        classesInstrIds methodInstrIds
      simp [optList, List.map_flatMap, List.flatMap_assoc]
    rw [e2]
    exact List.sublist_append_left _ _

/-- Claim C3 amended: identifiers are allocated from ever-increasing
counters, so in every graph the pipeline produces the class ids, method
ids, block ids and instruction ids are each pairwise distinct.  The
original claim that they are consecutive from zero is refuted by
`C3_counterexample`: the parser burns ids (a discarded Method and a
skipped block id at every method start, an extra instruction id at every
label), so the id sequences have gaps. -/
theorem C3_theorem (files : List (List String)) (g : Graph)
    (h : runProgram files = .ok g) :
    (classIds g).Nodup ∧ (methodIds g).Nodup ∧
    (blockIds g).Nodup ∧ (instrIds g).Nodup := by
  unfold runProgram at h
  split at h
  case h_1 => injection h
  case h_2 s heq1 =>
    split at h
    case h_1 => injection h
    case h_2 classes rep heq2 =>
      simp only [] at h
      injection h with h
      subst h
      have hInv := inv3_runFiles files (initGraph []) s heq1 inv3_init
      obtain ⟨p1, p2, p3, p4⟩ := idsFresh_classes_of_inv3 s hInv
      obtain ⟨e1, e2, e3, e4⟩ := resolve_global_ids s.classes classes rep heq2
      obtain ⟨q1, q2, q3, q4⟩ := resolve_library_ids { s with classes := classes }
        (by show FreshIds (classesClassIds classes) s.class_id; rw [e1]; exact p1)
        (by show FreshIds (classesMethodIds classes) s.method_id; rw [e2]; exact p2)
        (by show FreshIds (classesBlockIds classes) s.block_id; rw [e3]; exact p3)
        (by show FreshIds (classesInstrIds classes) s.instruction_id; rw [e4]; exact p4)
      refine ⟨?_, ?_, ?_, ?_⟩
      · rw [classIds_eq]
        exact q1.1
      · rw [methodIds_eq]
        exact q2.1
      · rw [blockIds_eq]
        exact q3.1
      · rw [instrIds_eq]
        exact q4.1

/-- Witness for claim C3 at the straight-line scenario input. -/
theorem C3_witness : (classIds g1).Nodup ∧ (methodIds g1).Nodup ∧
    (blockIds g1).Nodup ∧ (instrIds g1).Nodup :=
  C3_theorem [fileA] g1 (by rfl)

/-- Claim C10: each COO serializer raises the IndexError of the
`feature_vectors[0]` header lookup exactly on an empty program (no basic
blocks for the CFG writer, no methods for the FCG writer), and produces
the output text exactly when at least one node exists. -/
theorem C10_theorem (g : Graph) :
    (isIndexError (output_cfg_coo g) = (graphBlocks g).isEmpty) ∧
    (producedOutput (output_cfg_coo g) = !(graphBlocks g).isEmpty) ∧
    (isIndexError (output_fcg_coo g) = (graphMethods g).isEmpty) ∧
    (producedOutput (output_fcg_coo g) = !(graphMethods g).isEmpty) := by
  refine ⟨?_, ?_, ?_, ?_⟩
  · unfold output_cfg_coo
    simp only []
    cases hb : graphBlocks g <;> simp [isIndexError]
  · unfold output_cfg_coo
    simp only []
    cases hb : graphBlocks g <;> simp [producedOutput]
  · unfold output_fcg_coo
    simp only []
    cases hm : graphMethods g <;> simp [isIndexError]
  · unfold output_fcg_coo
    simp only []
    cases hm : graphMethods g <;> simp [producedOutput]


theorem cE_cons (b : BasicBlock) (L : List BasicBlock) :
    childEdges (b :: L) =
      b.child_block_ids.map (fun c => (b.block_id, c)) ++ childEdges L := rfl

theorem pE_cons (b : BasicBlock) (L : List BasicBlock) :
    parentEdges (b :: L) =
      b.parent_block_ids.map (fun p => (p, b.block_id)) ++ parentEdges L := rfl

theorem cE_append (A B : List BasicBlock) :
    childEdges (A ++ B) = childEdges A ++ childEdges B := List.flatMap_append A B _

theorem pE_append (A B : List BasicBlock) :
    parentEdges (A ++ B) = parentEdges A ++ parentEdges B := List.flatMap_append A B _

theorem recip_nil : Recip [] := fun _ => Iff.rfl

theorem recip_append (A B : List BasicBlock) (hA : Recip A) (hB : Recip B) :
    Recip (A ++ B) := by
  intro e
  rw [cE_append, pE_append]
  simp only [List.mem_append]
  exact or_congr (hA e) (hB e)

theorem recip_mBlocks (ms : List Method) (h : ∀ m ∈ ms, Recip m.basic_blocks) :
    Recip (mBlocks ms) := by
  induction ms with
  | nil => exact recip_nil
  | cons m t ih =>
    have : mBlocks (m :: t) = m.basic_blocks ++ mBlocks t := rfl
    rw [this]
    exact recip_append _ _ (h m (by simp)) (ih (fun m2 hm2 => h m2 (by simp [hm2])))

theorem recip_csBlocks (cs : List SmaliClass) (h : ∀ c ∈ cs, Recip (classBlocks c)) :
    Recip (csBlocks cs) := by
  induction cs with
  | nil => exact recip_nil
  | cons c t ih =>
    have : csBlocks (c :: t) = classBlocks c ++ csBlocks t := rfl
    rw [this]
    exact recip_append _ _ (h c (by simp)) (ih (fun c2 hc2 => h c2 (by simp [hc2])))

theorem take_getD_drop [Inhabited α] (i : Nat) (l : List α) (hi : i < l.length) :
    l.take i ++ l.getD i default :: l.drop (i + 1) = l := by
  induction l generalizing i with
  | nil => simp at hi
  | cons a t ih =>
    cases i with
    | zero => rfl
    | succ n =>
      have hn : n < t.length := by simpa using hi
      simpa using ih n hn

theorem listModify_decomp [Inhabited α] (f : α → α) (i : Nat) (l : List α)
    (hi : i < l.length) :
    listModify f i l = l.take i ++ f (l.getD i default) :: l.drop (i + 1) := by
  induction l generalizing i with
  | nil => simp at hi
  | cons a t ih =>
    cases i with
    | zero => rfl
    | succ n =>
      have hn : n < t.length := by simpa using hi
      simpa [listModify] using ih n hn

theorem getD_lm_proj {p : α → β} [Inhabited α] (f : α → α)
    (hp : ∀ a, p (f a) = p a) (i j : Nat) (l : List α) :
    p ((listModify f i l).getD j default) = p (l.getD j default) := by
  induction l generalizing i j with
  | nil => cases i <;> rfl
  | cons a t ih =>
    cases i with
    | zero => cases j with
      | zero => exact hp a
      | succ m => rfl
    | succ n => cases j with
      | zero => rfl
      | succ m => exact ih n m

theorem findIdx?_lt_length {p : α → Bool} {l : List α} {i : Nat}
    (h : l.findIdx? p = some i) : i < l.length :=
  (List.findIdx?_eq_some_iff_findIdx_eq.mp h).1

theorem findIdx?_getD [Inhabited α] {p : α → Bool} {l : List α} {i : Nat}
    (h : l.findIdx? p = some i) : p (l.getD i default) = true := by
  obtain ⟨hlt, hfi⟩ := List.findIdx?_eq_some_iff_findIdx_eq.mp h
  subst hfi
  have hx := @List.findIdx_getElem _ p l hlt
  rw [List.getD_eq_getElem?_getD, List.getElem?_eq_getElem hlt]
  simpa using hx

theorem mem_cE_lm_child (k i : Nat) (L : List BasicBlock) (b₀ : BasicBlock)
    (hb : L.getD i default = b₀) (hi : i < L.length) (e : Nat × Nat) :
    e ∈ childEdges (listModify (fun b => b.add_child_block_id k) i L) ↔
      e ∈ childEdges L ∨ e = (b₀.block_id, k) := by
  have hsplit := take_getD_drop i L hi
  rw [hb] at hsplit
  rw [listModify_decomp _ i L hi, hb]
  conv_rhs => rw [← hsplit]
  rw [cE_append, cE_cons, cE_append, cE_cons]
  simp only [BasicBlock.add_child_block_id, List.map_append, List.mem_append,
    List.map_cons, List.map_nil, List.mem_singleton]
  tauto

theorem mem_pE_lm_parent (p i : Nat) (L : List BasicBlock) (b₀ : BasicBlock)
    (hb : L.getD i default = b₀) (hi : i < L.length) (e : Nat × Nat) :
    e ∈ parentEdges (listModify (fun b => b.add_parent_block_id p) i L) ↔
      e ∈ parentEdges L ∨ e = (p, b₀.block_id) := by
  have hsplit := take_getD_drop i L hi
  rw [hb] at hsplit
  rw [listModify_decomp _ i L hi, hb]
  conv_rhs => rw [← hsplit]
  rw [pE_append, pE_cons, pE_append, pE_cons]
  simp only [BasicBlock.add_parent_block_id, List.map_append, List.mem_append,
    List.map_cons, List.map_nil, List.mem_singleton]
  tauto

theorem pE_lm_child (k i : Nat) (L : List BasicBlock) :
    parentEdges (listModify (fun b => b.add_child_block_id k) i L) = parentEdges L := by
  unfold parentEdges
  apply flatMap_listModify_eq
  intro a
  rfl

theorem cE_lm_parent (p i : Nat) (L : List BasicBlock) :
    childEdges (listModify (fun b => b.add_parent_block_id p) i L) = childEdges L := by
  unfold childEdges
  apply flatMap_listModify_eq
  intro a
  rfl

theorem recip_pair_update (A L : List BasicBlock) (si ti k p : Nat)
    (hsi : si < L.length) (hti : ti < L.length)
    (hp : (L.getD si default).block_id = p) (hk : (L.getD ti default).block_id = k)
    (h : Recip (L ++ A)) :
    Recip (listModify (fun b => b.add_parent_block_id p) ti
            (listModify (fun b => b.add_child_block_id k) si L) ++ A) := by
  intro e
  have hL1 : (listModify (fun b => b.add_child_block_id k) si L).length = L.length :=
    listModify_length _ _ _
  have hbid : ((listModify (fun b => b.add_child_block_id k) si L).getD ti
      default).block_id = (L.getD ti default).block_id := by
    apply getD_lm_proj
    intro a
    rfl
  rw [cE_append, pE_append]
  simp only [List.mem_append]
  rw [cE_lm_parent,
      mem_cE_lm_child k si L _ rfl hsi e,
      mem_pE_lm_parent p ti _ _ rfl (by rw [hL1]; exact hti) e,
      pE_lm_child, hbid, hk, hp]
  have he := h e
  rw [cE_append, pE_append] at he
  simp only [List.mem_append] at he
  tauto

theorem cE_mBlocks (ms : List Method) :
    childEdges (mBlocks ms) = ms.flatMap (fun m => childEdges m.basic_blocks) := by
  unfold childEdges mBlocks
  rw [List.flatMap_assoc]

theorem pE_mBlocks (ms : List Method) :
    parentEdges (mBlocks ms) = ms.flatMap (fun m => parentEdges m.basic_blocks) := by
  unfold parentEdges mBlocks
  rw [List.flatMap_assoc]

theorem cE_csBlocks (cs : List SmaliClass) :
    childEdges (csBlocks cs) = cs.flatMap (fun c => childEdges (classBlocks c)) := by
  unfold childEdges csBlocks
  rw [List.flatMap_assoc]

theorem pE_csBlocks (cs : List SmaliClass) :
    parentEdges (csBlocks cs) = cs.flatMap (fun c => parentEdges (classBlocks c)) := by
  unfold parentEdges csBlocks
  rw [List.flatMap_assoc]

theorem classBlocks_eq_mBlocks (c : SmaliClass) : classBlocks c = mBlocks c.methods := rfl

theorem mem_cE_mm_child (k mi bi : Nat) (ms : List Method) (m₀ : Method)
    (b₀ : BasicBlock) (hm : ms.getD mi default = m₀)
    (hb : m₀.basic_blocks.getD bi default = b₀)
    (hmi : mi < ms.length) (hbi : bi < m₀.basic_blocks.length) (e : Nat × Nat) :
    e ∈ childEdges (mBlocks (listModify
        (methodModifyBlock bi (fun b => b.add_child_block_id k)) mi ms)) ↔
      e ∈ childEdges (mBlocks ms) ∨ e = (b₀.block_id, k) := by
  rw [cE_mBlocks, cE_mBlocks]
  have hsplit := take_getD_drop mi ms hmi
  rw [hm] at hsplit
  rw [listModify_decomp _ mi ms hmi, hm]
  conv_rhs => rw [← hsplit]
  simp only [List.flatMap_append, List.flatMap_cons, List.mem_append]
  have hmid : childEdges (methodModifyBlock bi
      (fun b => b.add_child_block_id k) m₀).basic_blocks =
      childEdges (listModify (fun b => b.add_child_block_id k) bi m₀.basic_blocks) := rfl
  rw [hmid, mem_cE_lm_child k bi m₀.basic_blocks b₀ hb hbi e]
  tauto

theorem mem_pE_mm_parent (p mi bi : Nat) (ms : List Method) (m₀ : Method)
    (b₀ : BasicBlock) (hm : ms.getD mi default = m₀)
    (hb : m₀.basic_blocks.getD bi default = b₀)
    (hmi : mi < ms.length) (hbi : bi < m₀.basic_blocks.length) (e : Nat × Nat) :
    e ∈ parentEdges (mBlocks (listModify
        (methodModifyBlock bi (fun b => b.add_parent_block_id p)) mi ms)) ↔
      e ∈ parentEdges (mBlocks ms) ∨ e = (p, b₀.block_id) := by
  rw [pE_mBlocks, pE_mBlocks]
  have hsplit := take_getD_drop mi ms hmi
  rw [hm] at hsplit
  rw [listModify_decomp _ mi ms hmi, hm]
  conv_rhs => rw [← hsplit]
  simp only [List.flatMap_append, List.flatMap_cons, List.mem_append]
  have hmid : parentEdges (methodModifyBlock bi
      (fun b => b.add_parent_block_id p) m₀).basic_blocks =
      parentEdges (listModify (fun b => b.add_parent_block_id p) bi m₀.basic_blocks) := rfl
  rw [hmid, mem_pE_lm_parent p bi m₀.basic_blocks b₀ hb hbi e]
  tauto

theorem pE_mm_child (k mi bi : Nat) (ms : List Method) :
    parentEdges (mBlocks (listModify
        (methodModifyBlock bi (fun b => b.add_child_block_id k)) mi ms)) =
      parentEdges (mBlocks ms) := by
  rw [pE_mBlocks, pE_mBlocks]
  apply flatMap_listModify_eq
  intro m
  exact pE_lm_child k bi m.basic_blocks

theorem cE_mm_parent (p mi bi : Nat) (ms : List Method) :
    childEdges (mBlocks (listModify
        (methodModifyBlock bi (fun b => b.add_parent_block_id p)) mi ms)) =
      childEdges (mBlocks ms) := by
  rw [cE_mBlocks, cE_mBlocks]
  apply flatMap_listModify_eq
  intro m
  exact cE_lm_parent p bi m.basic_blocks

theorem mBlocks_lm_bbpres (g : Method → Method)
    (hg : ∀ m, (g m).basic_blocks = m.basic_blocks) (mi : Nat) (ms : List Method) :
    mBlocks (listModify g mi ms) = mBlocks ms := by
  unfold mBlocks
  apply flatMap_listModify_eq
  intro m
  exact hg m

theorem cE_classBlocks_set (c : SmaliClass) (X : List Method) :
    childEdges (classBlocks { c with methods := X }) = childEdges (mBlocks X) := rfl

theorem pE_classBlocks_set (c : SmaliClass) (X : List Method) :
    parentEdges (classBlocks { c with methods := X }) = parentEdges (mBlocks X) := rfl

theorem mem_cE_cmb_child (k ci mi bi : Nat) (cs : List SmaliClass) (c₀ : SmaliClass)
    (m₀ : Method) (b₀ : BasicBlock) (hc : cs.getD ci default = c₀)
    (hm : c₀.methods.getD mi default = m₀)
    (hb : m₀.basic_blocks.getD bi default = b₀)
    (hci : ci < cs.length) (hmi : mi < c₀.methods.length)
    (hbi : bi < m₀.basic_blocks.length) (e : Nat × Nat) :
    e ∈ childEdges (csBlocks (classesModifyBlock ci mi bi
        (fun b => b.add_child_block_id k) cs)) ↔
      e ∈ childEdges (csBlocks cs) ∨ e = (b₀.block_id, k) := by
  unfold classesModifyBlock classesModifyMethod
  rw [cE_csBlocks, cE_csBlocks]
  have hsplit := take_getD_drop ci cs hci
  rw [hc] at hsplit
  rw [listModify_decomp _ ci cs hci, hc]
  conv_rhs => rw [← hsplit]
  simp only [List.flatMap_append, List.flatMap_cons, List.mem_append]
  rw [cE_classBlocks_set, classBlocks_eq_mBlocks,
    mem_cE_mm_child k mi bi c₀.methods m₀ b₀ hm hb hmi hbi e]
  tauto

theorem mem_pE_cmb_parent (p ci mi bi : Nat) (cs : List SmaliClass) (c₀ : SmaliClass)
    (m₀ : Method) (b₀ : BasicBlock) (hc : cs.getD ci default = c₀)
    (hm : c₀.methods.getD mi default = m₀)
    (hb : m₀.basic_blocks.getD bi default = b₀)
    (hci : ci < cs.length) (hmi : mi < c₀.methods.length)
    (hbi : bi < m₀.basic_blocks.length) (e : Nat × Nat) :
    e ∈ parentEdges (csBlocks (classesModifyBlock ci mi bi
        (fun b => b.add_parent_block_id p) cs)) ↔
      e ∈ parentEdges (csBlocks cs) ∨ e = (p, b₀.block_id) := by
  unfold classesModifyBlock classesModifyMethod
  rw [pE_csBlocks, pE_csBlocks]
  have hsplit := take_getD_drop ci cs hci
  rw [hc] at hsplit
  rw [listModify_decomp _ ci cs hci, hc]
  conv_rhs => rw [← hsplit]
  simp only [List.flatMap_append, List.flatMap_cons, List.mem_append]
  rw [pE_classBlocks_set, classBlocks_eq_mBlocks,
    mem_pE_mm_parent p mi bi c₀.methods m₀ b₀ hm hb hmi hbi e]
  tauto

theorem pE_cmb_child (k ci mi bi : Nat) (cs : List SmaliClass) :
    parentEdges (csBlocks (classesModifyBlock ci mi bi
        (fun b => b.add_child_block_id k) cs)) = parentEdges (csBlocks cs) := by
  unfold classesModifyBlock classesModifyMethod
  rw [pE_csBlocks, pE_csBlocks]
  apply flatMap_listModify_eq
  intro c
  rw [classBlocks_eq_mBlocks]
  exact pE_mm_child k mi bi c.methods

theorem cE_cmb_parent (p ci mi bi : Nat) (cs : List SmaliClass) :
    childEdges (csBlocks (classesModifyBlock ci mi bi
        (fun b => b.add_parent_block_id p) cs)) = childEdges (csBlocks cs) := by
  unfold classesModifyBlock classesModifyMethod
  rw [cE_csBlocks, cE_csBlocks]
  apply flatMap_listModify_eq
  intro c
  rw [classBlocks_eq_mBlocks]
  exact cE_mm_parent p mi bi c.methods

theorem csBlocks_cmm_bbpres (g : Method → Method)
    (hg : ∀ m, (g m).basic_blocks = m.basic_blocks) (ci mi : Nat)
    (cs : List SmaliClass) :
    csBlocks (classesModifyMethod ci mi g cs) = csBlocks cs := by
  unfold classesModifyMethod csBlocks
  apply flatMap_listModify_eq
  intro c
  rw [classBlocks_eq_mBlocks, classBlocks_eq_mBlocks]
  exact mBlocks_lm_bbpres g hg mi c.methods

theorem getD_methods_proj (q : List Method → β) (g : Method → Method) (mi : Nat)
    (hq : ∀ ms, q (listModify g mi ms) = q ms) (ci cj : Nat) (cs : List SmaliClass) :
    q (((listModify (fun c => { c with methods := listModify g mi c.methods })
        ci cs).getD cj default).methods) = q ((cs.getD cj default).methods) :=
  @getD_lm_proj SmaliClass _ (fun c => q c.methods) _
    (fun c => { c with methods := listModify g mi c.methods })
    (fun c => hq c.methods) ci cj cs

theorem mmb_bid (f : BasicBlock → BasicBlock)
    (hf : ∀ b, (f b).block_id = b.block_id) (bi bj : Nat) (m : Method) :
    ((listModify f bi m.basic_blocks).getD bj default).block_id =
      (m.basic_blocks.getD bj default).block_id :=
  @getD_lm_proj BasicBlock _ (fun b => b.block_id) _ f hf bi bj m.basic_blocks

theorem cmb_entry_bid (f : BasicBlock → BasicBlock)
    (hf : ∀ b, (f b).block_id = b.block_id) (ci mi bi cj mj bj : Nat)
    (cs : List SmaliClass) :
    ((((classesModifyBlock ci mi bi f cs).getD cj default).methods.getD mj
        default).basic_blocks.getD bj default).block_id =
      (((cs.getD cj default).methods.getD mj default).basic_blocks.getD bj
        default).block_id :=
  getD_methods_proj
    (fun ms => ((ms.getD mj default).basic_blocks.getD bj default).block_id)
    (methodModifyBlock bi f) mi
    (fun ms => @getD_lm_proj Method _
      (fun m => (m.basic_blocks.getD bj default).block_id) _
      (methodModifyBlock bi f) (fun m => mmb_bid f hf bi bj m) mi mj ms)
    ci cj cs

theorem cmb_entry_mlen (f : BasicBlock → BasicBlock) (ci mi bi cj : Nat)
    (cs : List SmaliClass) :
    ((classesModifyBlock ci mi bi f cs).getD cj default).methods.length =
      (cs.getD cj default).methods.length :=
  getD_methods_proj (fun ms => ms.length) (methodModifyBlock bi f) mi
    (fun ms => listModify_length _ _ _) ci cj cs

theorem cmb_entry_blen (f : BasicBlock → BasicBlock) (ci mi bi cj mj : Nat)
    (cs : List SmaliClass) :
    (((classesModifyBlock ci mi bi f cs).getD cj default).methods.getD mj
        default).basic_blocks.length =
      ((cs.getD cj default).methods.getD mj default).basic_blocks.length :=
  getD_methods_proj
    (fun ms => ((ms.getD mj default)).basic_blocks.length)
    (methodModifyBlock bi f) mi
    (fun ms => @getD_lm_proj Method _ (fun m => m.basic_blocks.length) _
      (methodModifyBlock bi f) (fun m => listModify_length _ _ _) mi mj ms)
    ci cj cs

theorem cmb_length (ci mi bi : Nat) (f : BasicBlock → BasicBlock)
    (cs : List SmaliClass) :
    (classesModifyBlock ci mi bi f cs).length = cs.length := by
  unfold classesModifyBlock classesModifyMethod
  exact listModify_length _ _ _

theorem cmm_length (ci mi : Nat) (g : Method → Method) (cs : List SmaliClass) :
    (classesModifyMethod ci mi g cs).length = cs.length := by
  unfold classesModifyMethod
  exact listModify_length _ _ _

theorem cmm_entry_proj (q : List Method → β) (g : Method → Method) (ci mi cj : Nat)
    (hq : ∀ ms, q (listModify g mi ms) = q ms) (cs : List SmaliClass) :
    q (((classesModifyMethod ci mi g cs).getD cj default).methods) =
      q ((cs.getD cj default).methods) :=
  getD_methods_proj q g mi hq ci cj cs

theorem neParents_add_child (b : BasicBlock) (k : Nat) :
    neParents (b.add_child_block_id k) = neParents b := rfl

theorem neParents_add_parent (b : BasicBlock) (p : Nat) :
    neParents (b.add_parent_block_id p) = true := by
  unfold neParents BasicBlock.add_parent_block_id
  simp

theorem drop_one_listModify_zero (f : α → α) (l : List α) :
    (listModify f 0 l).drop 1 = l.drop 1 := by
  cases l <;> rfl

theorem drop_one_listModify_succ (f : α → α) (j : Nat) (l : List α) :
    (listModify f (j + 1) l).drop 1 = listModify f j (l.drop 1) := by
  cases l with
  | nil => cases j <;> rfl
  | cons a t => rfl

theorem tpB_mmb (f : BasicBlock → BasicBlock)
    (hf : ∀ b, neParents b = true → neParents (f b) = true) (bi : Nat) (m : Method)
    (h : tpB m = true) : tpB (methodModifyBlock bi f m) = true := by
  unfold tpB methodModifyBlock at *
  simp only []
  cases bi with
  | zero => rw [drop_one_listModify_zero]; exact h
  | succ j => rw [drop_one_listModify_succ]; exact all_listModify hf j _ h

theorem tpB_addblock (m : Method) (b : BasicBlock) (hm : tpB m = true)
    (hb : m.basic_blocks = [] ∨ neParents b = true) :
    tpB (m.add_basic_block b) = true := by
  unfold tpB Method.add_basic_block at *
  simp only []
  rcases hb with hb | hb
  · rw [hb]
    rfl
  · cases hbb : m.basic_blocks with
    | nil => rfl
    | cons x t =>
      rw [hbb] at hm
      simp only [List.cons_append, List.drop_succ_cons, List.drop_zero] at hm ⊢
      rw [List.all_append]
      simp [hm, hb]

theorem tailParents_of_tpB (m : Method) (h : tpB m = true) : tailParents m := by
  intro b hb
  unfold tpB at h
  rw [List.all_eq_true] at h
  have := h b hb
  unfold neParents at this
  simp only [Bool.not_eq_true'] at this
  intro hnil
  rw [hnil] at this
  simp at this

theorem tpB_of_tailParents (m : Method) (h : tailParents m) : tpB m = true := by
  unfold tpB
  rw [List.all_eq_true]
  intro b hb
  have := h b hb
  unfold neParents
  simp only [Bool.not_eq_true']
  cases hp : b.parent_block_ids with
  | nil => exact absurd hp this
  | cons x t => rfl

theorem ctpAll_append (a b : List SmaliClass) :
    ctpAll (a ++ b) = (ctpAll a && ctpAll b) := by
  unfold ctpAll
  exact List.all_append

theorem ctpAll_cmb (f : BasicBlock → BasicBlock)
    (hf : ∀ b, neParents b = true → neParents (f b) = true) (ci mi bi : Nat)
    (cs : List SmaliClass) (h : ctpAll cs = true) :
    ctpAll (classesModifyBlock ci mi bi f cs) = true := by
  unfold ctpAll classesModifyBlock classesModifyMethod at *
  refine all_listModify ?_ ci cs h
  intro c hc
  simp only [] at hc ⊢
  refine all_listModify ?_ mi c.methods hc
  intro m hm
  exact tpB_mmb f hf bi m hm

theorem ctpAll_cmm (g : Method → Method)
    (hg : ∀ m, tpB m = true → tpB (g m) = true) (ci mi : Nat)
    (cs : List SmaliClass) (h : ctpAll cs = true) :
    ctpAll (classesModifyMethod ci mi g cs) = true := by
  unfold ctpAll classesModifyMethod at *
  refine all_listModify ?_ ci cs h
  intro c hc
  simp only [] at hc ⊢
  exact all_listModify hg mi c.methods hc

theorem tpB_bbpres (g : Method → Method)
    (hg : ∀ m, (g m).basic_blocks = m.basic_blocks) (m : Method)
    (h : tpB m = true) : tpB (g m) = true := by
  unfold tpB at *
  rw [hg]
  exact h

theorem genBBne_append (a b : List SmaliClass) :
    genBBne (a ++ b) = (genBBne a && genBBne b) := by
  unfold genBBne
  exact List.all_append

theorem genBBne_cmb (f : BasicBlock → BasicBlock) (ci mi bi : Nat)
    (cs : List SmaliClass) (h : genBBne cs = true) :
    genBBne (classesModifyBlock ci mi bi f cs) = true := by
  unfold genBBne classesModifyBlock classesModifyMethod at *
  refine all_listModify ?_ ci cs h
  intro c hc
  simp only [] at hc ⊢
  refine all_listModify ?_ mi c.methods hc
  intro m hm
  unfold methodModifyBlock
  simp only [] at hm ⊢
  cases hbb : m.basic_blocks with
  | nil => rw [hbb] at hm; simp at hm
  | cons x t =>
    have : (listModify f bi (x :: t)).length = (x :: t).length := listModify_length _ _ _
    cases hlm : listModify f bi (x :: t) with
    | nil => rw [hlm] at this; simp at this
    | cons y u => simp

theorem rlabels_foldl_recip (A : List BasicBlock) (lcs : List (String × Nat))
    (bs0 : List BasicBlock) (h : Recip (bs0 ++ A)) :
    Recip ((lcs.foldl (fun (bs : List BasicBlock) lc =>
      match bs.findIdx? (fun b => (b.instructions.headD default).instruction == lc.1) with
      | some ti =>
        match bs.findIdx? (fun b => b.block_id == lc.2) with
        | some si =>
          let tid := (bs.getD ti default).block_id
          let bs := listModify (fun b => b.add_child_block_id tid) si bs
          listModify (fun b => b.add_parent_block_id lc.2) ti bs
        | none => bs
      | none => bs) bs0) ++ A) := by
  refine @foldl_inv (List BasicBlock) (String × Nat)
    (fun bs => Recip (bs ++ A)) _ lcs ?_ bs0 h
  intro bs lc hbs
  simp only []
  split
  case h_2 => exact hbs
  case h_1 ti hti =>
    split
    case h_2 => exact hbs
    case h_1 si hsi =>
      have hsilt : si < bs.length := findIdx?_lt_length hsi
      have htilt : ti < bs.length := findIdx?_lt_length hti
      have hp : (bs.getD si default).block_id = lc.2 := by
        have hx := findIdx?_getD hsi
        simpa using hx
      exact recip_pair_update A bs si ti ((bs.getD ti default).block_id) lc.2
        hsilt htilt hp rfl hbs

theorem resolve_labels_recip (m : Method) (A : List BasicBlock)
    (h : Recip (m.basic_blocks ++ A)) :
    Recip ((m.resolve_labels).1.basic_blocks ++ A) :=
  rlabels_foldl_recip A (m.label_calls.flatMap (fun lc =>
    match aliasGet m.label_aliases lc.1 with
    | some aliases => aliases.map (fun a => (a, lc.2))
    | none => [lc])) m.basic_blocks h

theorem drop_all_listModify (f : BasicBlock → BasicBlock)
    (hf : ∀ b, neParents b = true → neParents (f b) = true) (i : Nat)
    (l : List BasicBlock) (h : (l.drop 1).all neParents = true) :
    ((listModify f i l).drop 1).all neParents = true := by
  cases i with
  | zero => rw [drop_one_listModify_zero]; exact h
  | succ j => rw [drop_one_listModify_succ]; exact all_listModify hf j _ h

theorem rlabels_foldl_tail (lcs : List (String × Nat)) (bs0 : List BasicBlock)
    (h : (bs0.drop 1).all neParents = true) :
    (((lcs.foldl (fun (bs : List BasicBlock) lc =>
      match bs.findIdx? (fun b => (b.instructions.headD default).instruction == lc.1) with
      | some ti =>
        match bs.findIdx? (fun b => b.block_id == lc.2) with
        | some si =>
          let tid := (bs.getD ti default).block_id
          let bs := listModify (fun b => b.add_child_block_id tid) si bs
          listModify (fun b => b.add_parent_block_id lc.2) ti bs
        | none => bs
      | none => bs) bs0).drop 1).all neParents) = true := by
  refine @foldl_inv (List BasicBlock) (String × Nat)
    (fun bs => ((bs.drop 1).all neParents) = true) _ lcs ?_ bs0 h
  intro bs lc hbs
  simp only []
  split
  case h_2 => exact hbs
  case h_1 ti hti =>
    split
    case h_2 => exact hbs
    case h_1 si hsi =>
      refine drop_all_listModify _ ?_ ti _ (drop_all_listModify _ ?_ si bs hbs)
      · intro b hb
        rw [neParents_add_parent]
      · intro b hb
        rw [neParents_add_child]
        exact hb

theorem resolve_labels_tail (m : Method) (h : tpB m = true) :
    tpB (m.resolve_labels).1 = true :=
  rlabels_foldl_tail (m.label_calls.flatMap (fun lc =>
    match aliasGet m.label_aliases lc.1 with
    | some aliases => aliases.map (fun a => (a, lc.2))
    | none => [lc])) m.basic_blocks h

theorem resolve_labels_nil (m : Method) (h : m.basic_blocks = []) :
    (m.resolve_labels).1.basic_blocks = [] := by
  have hb := resolve_labels_bids m
  rw [h] at hb
  simp only [List.map_nil, List.map_eq_nil] at hb
  exact hb

theorem mlm_entry_bid (f : BasicBlock → BasicBlock)
    (hf : ∀ b, (f b).block_id = b.block_id) (mi bi mj bj : Nat) (ms : List Method) :
    (((listModify (methodModifyBlock bi f) mi ms).getD mj
        default).basic_blocks.getD bj default).block_id =
      ((ms.getD mj default).basic_blocks.getD bj default).block_id :=
  @getD_lm_proj Method _ (fun m => (m.basic_blocks.getD bj default).block_id) _
    (methodModifyBlock bi f) (fun m => mmb_bid f hf bi bj m) mi mj ms

theorem mlm_entry_blen (f : BasicBlock → BasicBlock) (mi bi mj : Nat)
    (ms : List Method) :
    ((listModify (methodModifyBlock bi f) mi ms).getD mj
        default).basic_blocks.length =
      (ms.getD mj default).basic_blocks.length :=
  @getD_lm_proj Method _ (fun m => m.basic_blocks.length) _
    (methodModifyBlock bi f) (fun _ => listModify_length _ _ _) mi mj ms

theorem mlm_entry_bb (g : Method → Method)
    (hg : ∀ m, (g m).basic_blocks = m.basic_blocks) (mi mj : Nat)
    (ms : List Method) :
    ((listModify g mi ms).getD mj default).basic_blocks =
      (ms.getD mj default).basic_blocks :=
  @getD_lm_proj Method _ (fun m => m.basic_blocks) _ g hg mi mj ms

theorem recip_mm_pair (ms : List Method) (cmi cbi pmi pbi k p : Nat)
    (hcmi : cmi < ms.length)
    (hcbi : cbi < (ms.getD cmi default).basic_blocks.length)
    (hpmi : pmi < ms.length)
    (hpbi : pbi < (ms.getD pmi default).basic_blocks.length)
    (hk : ((ms.getD pmi default).basic_blocks.getD pbi default).block_id = k)
    (hp2 : ((ms.getD cmi default).basic_blocks.getD cbi default).block_id = p)
    (hR : Recip (mBlocks ms)) :
    Recip (mBlocks (listModify (methodModifyBlock pbi
        (fun b => b.add_parent_block_id p)) pmi
      (listModify (methodModifyBlock cbi
        (fun b => b.add_child_block_id k)) cmi ms))) := by
  intro e
  have hlen1 : (listModify (methodModifyBlock cbi
      (fun b => b.add_child_block_id k)) cmi ms).length = ms.length :=
    listModify_length _ _ _
  have hc : e ∈ childEdges (mBlocks (listModify (methodModifyBlock pbi
      (fun b => b.add_parent_block_id p)) pmi
      (listModify (methodModifyBlock cbi
        (fun b => b.add_child_block_id k)) cmi ms))) ↔
      e ∈ childEdges (mBlocks ms) ∨ e = (p, k) := by
    rw [cE_mm_parent, mem_cE_mm_child k cmi cbi ms _ _ rfl rfl hcmi hcbi e, hp2]
  have hq : e ∈ parentEdges (mBlocks (listModify (methodModifyBlock pbi
      (fun b => b.add_parent_block_id p)) pmi
      (listModify (methodModifyBlock cbi
        (fun b => b.add_child_block_id k)) cmi ms))) ↔
      e ∈ parentEdges (mBlocks ms) ∨ e = (p, k) := by
    rw [mem_pE_mm_parent p pmi pbi _ _ _ rfl rfl (by rw [hlen1]; exact hpmi)
        (by rw [mlm_entry_blen]; exact hpbi) e,
      pE_mm_child,
      mlm_entry_bid (fun b => b.add_child_block_id k) (fun _ => rfl) cmi cbi pmi pbi ms,
      hk]
  rw [hc, hq]
  exact or_congr (hR e) Iff.rfl

theorem cmb_entry_bb (g : Method → Method)
    (hg : ∀ m, (g m).basic_blocks = m.basic_blocks) (ci mi cj mj : Nat)
    (cs : List SmaliClass) :
    (((classesModifyMethod ci mi g cs).getD cj default).methods.getD mj
        default).basic_blocks =
      ((cs.getD cj default).methods.getD mj default).basic_blocks :=
  cmm_entry_proj (fun ms => (ms.getD mj default).basic_blocks) g ci mi cj
    (fun ms => mlm_entry_bb g hg mi mj ms) cs

theorem recip_cs_pair (cs : List SmaliClass) (cci cmi cbi pci pmi pbi k p : Nat)
    (hcci : cci < cs.length)
    (hcmi : cmi < (cs.getD cci default).methods.length)
    (hcbi : cbi < ((cs.getD cci default).methods.getD cmi
      default).basic_blocks.length)
    (hpci : pci < cs.length)
    (hpmi : pmi < (cs.getD pci default).methods.length)
    (hpbi : pbi < ((cs.getD pci default).methods.getD pmi
      default).basic_blocks.length)
    (hk : (((cs.getD pci default).methods.getD pmi
      default).basic_blocks.getD pbi default).block_id = k)
    (hp2 : (((cs.getD cci default).methods.getD cmi
      default).basic_blocks.getD cbi default).block_id = p)
    (hR : Recip (csBlocks cs)) :
    Recip (csBlocks (classesModifyBlock pci pmi pbi
        (fun b => b.add_parent_block_id p)
      (classesModifyBlock cci cmi cbi
        (fun b => b.add_child_block_id k) cs))) := by
  intro e
  have hlen1 : (classesModifyBlock cci cmi cbi
      (fun b => b.add_child_block_id k) cs).length = cs.length :=
    cmb_length _ _ _ _ _
  have hc : e ∈ childEdges (csBlocks (classesModifyBlock pci pmi pbi
      (fun b => b.add_parent_block_id p)
      (classesModifyBlock cci cmi cbi
        (fun b => b.add_child_block_id k) cs))) ↔
      e ∈ childEdges (csBlocks cs) ∨ e = (p, k) := by
    rw [cE_cmb_parent,
      mem_cE_cmb_child k cci cmi cbi cs _ _ _ rfl rfl rfl hcci hcmi hcbi e, hp2]
  have hq : e ∈ parentEdges (csBlocks (classesModifyBlock pci pmi pbi
      (fun b => b.add_parent_block_id p)
      (classesModifyBlock cci cmi cbi
        (fun b => b.add_child_block_id k) cs))) ↔
      e ∈ parentEdges (csBlocks cs) ∨ e = (p, k) := by
    rw [mem_pE_cmb_parent p pci pmi pbi _ _ _ _ rfl rfl rfl
        (by rw [hlen1]; exact hpci)
        (by rw [cmb_entry_mlen]; exact hpmi)
        (by rw [cmb_entry_blen]; exact hpbi) e,
      pE_cmb_child,
      cmb_entry_bid (fun b => b.add_child_block_id k) (fun _ => rfl)
        cci cmi cbi pci pmi pbi cs,
      hk]
  rw [hc, hq]
  exact or_congr (hR e) Iff.rfl

theorem listModify_append_left (f : α → α) (i : Nat) (A B : List α)
    (hi : i < A.length) :
    listModify f i (A ++ B) = listModify f i A ++ B := by
  induction A generalizing i with
  | nil => simp at hi
  | cons a t ih =>
    cases i with
    | zero => rfl
    | succ n =>
      have hn : n < t.length := by simpa using hi
      show a :: listModify f n (t ++ B) = a :: (listModify f n t ++ B)
      rw [ih n hn]

theorem listModify_append_right (f : α → α) (j : Nat) (A B : List α) :
    listModify f (A.length + j) (A ++ B) = A ++ listModify f j B := by
  induction A with
  | nil => simp
  | cons a t ih =>
    simp only [List.cons_append, List.length_cons]
    have : t.length + 1 + j = (t.length + j) + 1 := by omega
    rw [this]
    simp only [listModify, ih]

theorem mBlocks_lm_callout (k si : Nat) (ms : List Method) :
    mBlocks (listModify (fun m => m.add_call_out k) si ms) = mBlocks ms := by
  apply mBlocks_lm_bbpres
  intro m
  rfl

theorem mBlocks_lm_callin (k si : Nat) (ms : List Method) :
    mBlocks (listModify (fun m => m.add_call_in k) si ms) = mBlocks ms := by
  apply mBlocks_lm_bbpres
  intro m
  rfl

theorem mlm_entry_bb_cout (k : Nat) (mi mj : Nat) (ms : List Method) :
    ((listModify (fun m => m.add_call_out k) mi ms).getD mj
        default).basic_blocks = (ms.getD mj default).basic_blocks := by
  apply mlm_entry_bb
  intro m
  rfl

theorem mlm_entry_bb_cin (k : Nat) (mi mj : Nat) (ms : List Method) :
    ((listModify (fun m => m.add_call_in k) mi ms).getD mj
        default).basic_blocks = (ms.getD mj default).basic_blocks := by
  apply mlm_entry_bb
  intro m
  rfl

theorem mlm_entry_bid_child (k bi : Nat) (mi mj bj : Nat) (ms : List Method) :
    (((listModify (methodModifyBlock bi
        (fun b => b.add_child_block_id k)) mi ms).getD mj
        default).basic_blocks.getD bj default).block_id =
      ((ms.getD mj default).basic_blocks.getD bj default).block_id := by
  apply mlm_entry_bid
  intro b
  rfl

theorem mlm_entry_bid_parent (k bi : Nat) (mi mj bj : Nat) (ms : List Method) :
    (((listModify (methodModifyBlock bi
        (fun b => b.add_parent_block_id k)) mi ms).getD mj
        default).basic_blocks.getD bj default).block_id =
      ((ms.getD mj default).basic_blocks.getD bj default).block_id := by
  apply mlm_entry_bid
  intro b
  rfl

theorem mlm_entry_blen_child (k bi : Nat) (mi mj : Nat) (ms : List Method) :
    ((listModify (methodModifyBlock bi
        (fun b => b.add_child_block_id k)) mi ms).getD mj
        default).basic_blocks.length =
      (ms.getD mj default).basic_blocks.length :=
  mlm_entry_blen _ mi bi mj ms

theorem mlm_entry_blen_parent (k bi : Nat) (mi mj : Nat) (ms : List Method) :
    ((listModify (methodModifyBlock bi
        (fun b => b.add_parent_block_id k)) mi ms).getD mj
        default).basic_blocks.length =
      (ms.getD mj default).basic_blocks.length :=
  mlm_entry_blen _ mi bi mj ms

theorem msAll_tpB_child (k si bi : Nat) (ms : List Method)
    (h : ms.all tpB = true) :
    (listModify (methodModifyBlock bi
      (fun b => b.add_child_block_id k)) si ms).all tpB = true :=
  all_listModify (fun m hm => tpB_mmb _
    (fun b hb => by rw [neParents_add_child]; exact hb) bi m hm) si ms h

theorem msAll_tpB_parent (k si bi : Nat) (ms : List Method)
    (h : ms.all tpB = true) :
    (listModify (methodModifyBlock bi
      (fun b => b.add_parent_block_id k)) si ms).all tpB = true :=
  all_listModify (fun m hm => tpB_mmb _
    (fun b _ => neParents_add_parent b k) bi m hm) si ms h

theorem msAll_tpB_cout (k si : Nat) (ms : List Method) (h : ms.all tpB = true) :
    (listModify (fun m => m.add_call_out k) si ms).all tpB = true := by
  refine all_listModify ?_ si ms h
  intro m hm
  apply tpB_bbpres _ _ m hm
  intro m2
  rfl

theorem msAll_tpB_cin (k si : Nat) (ms : List Method) (h : ms.all tpB = true) :
    (listModify (fun m => m.add_call_in k) si ms).all tpB = true := by
  refine all_listModify ?_ si ms h
  intro m hm
  apply tpB_bbpres _ _ m hm
  intro m2
  rfl

theorem head?_pos {l : List α} {a : α} (h : l.head? = some a) : 0 < l.length := by
  cases l with
  | nil => simp at h
  | cons x t => simp

theorem head?_getD [Inhabited α] {l : List α} {a : α} (h : l.head? = some a) :
    l.getD 0 default = a := by
  cases l with
  | nil => simp at h
  | cons x t => simpa using h

theorem resolve_local_c4 (c c' : SmaliClass) (rep : List String)
    (h : c.resolve_local_invocations = .ok (c', rep))
    (hR : Recip (mBlocks c.methods)) (hT : c.methods.all tpB = true) :
    Recip (mBlocks c'.methods) ∧ c'.methods.all tpB = true := by
  unfold SmaliClass.resolve_local_invocations at h
  simp only [] at h
  split at h
  case h_1 => injection h
  case h_2 ms fl heq =>
    injection h with h
    injection h with h1 h2
    subst h1
    refine @foldl_inv (Except String (List Method × Bool)) (Nat × Nat × String)
      (fun acc => ∀ ms2 fl2, acc = .ok (ms2, fl2) →
        Recip (mBlocks ms2) ∧ ms2.all tpB = true)
      _ c.invocations_local ?_ (.ok (c.methods, false)) ?_ ms fl heq
    · intro acc inv hacc ms2 fl2 hms
      obtain ⟨ia, ib, ic⟩ := inv
      simp only [] at hms
      cases acc with
      | error e => injection hms
      | ok pr =>
        obtain ⟨ms0, fl0⟩ := pr
        obtain ⟨hR0, hT0⟩ := hacc ms0 fl0 rfl
        simp only [] at hms
        split at hms
        case h_1 => injection hms with hms; injection hms with e1 e2; subst e1
                    exact ⟨hR0, hT0⟩
        case h_2 ti hti =>
          split at hms
          case h_1 => injection hms
          case h_2 tbo htbo =>
            split at hms
            case isTrue =>
              injection hms with hms; injection hms with e1 e2; subst e1
              exact ⟨hR0, hT0⟩
            case isFalse =>
              split at hms
              case h_1 => injection hms with hms; injection hms with e1 e2; subst e1
                          exact ⟨hR0, hT0⟩
              case h_2 si hsi =>
                split at hms
                case h_1 => injection hms with hms; injection hms with e1 e2
                            subst e1
                            exact ⟨hR0, hT0⟩
                case h_2 sbi hsbi =>
                  have hsilt : si < ms0.length := findIdx?_lt_length hsi
                  have htilt : ti < ms0.length := findIdx?_lt_length hti
                  have hsbilt : sbi <
                      (ms0.getD si default).basic_blocks.length :=
                    findIdx?_lt_length hsbi
                  have h0lt : 0 < (ms0.getD ti default).basic_blocks.length :=
                    head?_pos htbo
                  have h0id : ((ms0.getD ti default).basic_blocks.getD 0
                      default).block_id = tbo.block_id := by
                    rw [head?_getD htbo]
                  split at hms
                  case isFalse =>
                    injection hms with hms; injection hms with e1 e2; subst e1
                    constructor
                    · rw [mBlocks_lm_callin, mBlocks_lm_callout]
                      exact recip_mm_pair ms0 si sbi ti 0 tbo.block_id _
                        hsilt hsbilt htilt h0lt h0id rfl hR0
                    · exact msAll_tpB_cin _ _ _ (msAll_tpB_cout _ _ _
                        (msAll_tpB_parent _ _ _ _ (msAll_tpB_child _ _ _ _ hT0)))
                  case isTrue =>
                    injection hms with hms; injection hms with e1 e2; subst e1
                    constructor
                    · rw [mBlocks_lm_callout, mBlocks_lm_callin]
                      have hR4 : Recip (mBlocks (listModify
                          (fun m => m.add_call_in
                            ((ms0.getD si default)).method_id) ti
                          (listModify (fun m => m.add_call_out
                            ((ms0.getD ti default)).method_id) si
                          (listModify (methodModifyBlock 0
                            (fun b => b.add_parent_block_id
                              ((ms0.getD si default).basic_blocks.getD sbi
                                default).block_id)) ti
                          (listModify (methodModifyBlock sbi
                            (fun b => b.add_child_block_id tbo.block_id))
                            si ms0))))) := by
                        rw [mBlocks_lm_callin, mBlocks_lm_callout]
                        exact recip_mm_pair ms0 si sbi ti 0 tbo.block_id _
                          hsilt hsbilt htilt h0lt h0id rfl hR0
                      refine recip_mm_pair _ ti
                        ((ms0.getD ti default).basic_blocks.length - 1)
                        si sbi _ _ ?_ ?_ ?_ ?_ ?_ ?_ hR4
                      · simp only [listModify_length]
                        exact htilt
                      · rw [mlm_entry_bb_cin, mlm_entry_bb_cout,
                          mlm_entry_blen_parent, mlm_entry_blen_child]
                        omega
                      · simp only [listModify_length]
                        exact hsilt
                      · rw [mlm_entry_bb_cin, mlm_entry_bb_cout,
                          mlm_entry_blen_parent, mlm_entry_blen_child]
                        exact hsbilt
                      · rw [mlm_entry_bb_cin, mlm_entry_bb_cout,
                          mlm_entry_bid_parent, mlm_entry_bid_child]
                      · rw [mlm_entry_bb_cin, mlm_entry_bb_cout,
                          mlm_entry_bid_parent, mlm_entry_bid_child]
                    · exact msAll_tpB_cout _ _ _ (msAll_tpB_cin _ _ _
                        (msAll_tpB_parent _ _ _ _ (msAll_tpB_child _ _ _ _
                        (msAll_tpB_cin _ _ _ (msAll_tpB_cout _ _ _
                        (msAll_tpB_parent _ _ _ _
                        (msAll_tpB_child _ _ _ _ hT0)))))))
    · intro ms2 fl2 hms
      injection hms with hms
      injection hms with e1 e2
      subst e1
      exact ⟨hR, hT⟩

theorem getD_out [Inhabited α] (l : List α) (i : Nat) (h : l.length ≤ i) :
    l.getD i default = default := by
  simp [List.getD_eq_getElem?_getD, List.getElem?_eq_none h]

theorem default_class_methods : (default : SmaliClass).methods = [] := rfl

theorem csBlocks_cmm_cout (k ci mi : Nat) (cs : List SmaliClass) :
    csBlocks (classesModifyMethod ci mi (fun m => m.add_call_out k) cs) =
      csBlocks cs := by
  apply csBlocks_cmm_bbpres
  intro m
  rfl

theorem csBlocks_cmm_cin (k ci mi : Nat) (cs : List SmaliClass) :
    csBlocks (classesModifyMethod ci mi (fun m => m.add_call_in k) cs) =
      csBlocks cs := by
  apply csBlocks_cmm_bbpres
  intro m
  rfl

theorem cmb_entry_bid_child (k ci mi bi cj mj bj : Nat) (cs : List SmaliClass) :
    ((((classesModifyBlock ci mi bi (fun b => b.add_child_block_id k) cs).getD cj
        default).methods.getD mj default).basic_blocks.getD bj
        default).block_id =
      (((cs.getD cj default).methods.getD mj default).basic_blocks.getD bj
        default).block_id := by
  apply cmb_entry_bid
  intro b
  rfl

theorem cmb_entry_bid_parent (k ci mi bi cj mj bj : Nat) (cs : List SmaliClass) :
    ((((classesModifyBlock ci mi bi (fun b => b.add_parent_block_id k) cs).getD cj
        default).methods.getD mj default).basic_blocks.getD bj
        default).block_id =
      (((cs.getD cj default).methods.getD mj default).basic_blocks.getD bj
        default).block_id := by
  apply cmb_entry_bid
  intro b
  rfl

theorem cmm_entry_bid_cout (k ci mi cj mj bj : Nat) (cs : List SmaliClass) :
    ((((classesModifyMethod ci mi (fun m => m.add_call_out k) cs).getD cj
        default).methods.getD mj default).basic_blocks.getD bj
        default).block_id =
      (((cs.getD cj default).methods.getD mj default).basic_blocks.getD bj
        default).block_id :=
  cmm_entry_proj (fun ms => ((ms.getD mj default).basic_blocks.getD bj
      default).block_id) _ ci mi cj
    (fun ms => @getD_lm_proj Method _
      (fun m => (m.basic_blocks.getD bj default).block_id) _
      (fun m => m.add_call_out k) (fun _ => rfl) mi mj ms) cs

theorem cmm_entry_bid_cin (k ci mi cj mj bj : Nat) (cs : List SmaliClass) :
    ((((classesModifyMethod ci mi (fun m => m.add_call_in k) cs).getD cj
        default).methods.getD mj default).basic_blocks.getD bj
        default).block_id =
      (((cs.getD cj default).methods.getD mj default).basic_blocks.getD bj
        default).block_id :=
  cmm_entry_proj (fun ms => ((ms.getD mj default).basic_blocks.getD bj
      default).block_id) _ ci mi cj
    (fun ms => @getD_lm_proj Method _
      (fun m => (m.basic_blocks.getD bj default).block_id) _
      (fun m => m.add_call_in k) (fun _ => rfl) mi mj ms) cs

theorem cmm_entry_mlen (g : Method → Method) (ci mi cj : Nat)
    (cs : List SmaliClass) :
    ((classesModifyMethod ci mi g cs).getD cj default).methods.length =
      (cs.getD cj default).methods.length :=
  cmm_entry_proj (fun ms => ms.length) g ci mi cj
    (fun _ => listModify_length _ _ _) cs

theorem cmm_entry_blen_cout (k ci mi cj mj : Nat) (cs : List SmaliClass) :
    (((classesModifyMethod ci mi (fun m => m.add_call_out k) cs).getD cj
        default).methods.getD mj default).basic_blocks.length =
      ((cs.getD cj default).methods.getD mj default).basic_blocks.length :=
  cmm_entry_proj (fun ms => (ms.getD mj default).basic_blocks.length) _ ci mi cj
    (fun ms => @getD_lm_proj Method _ (fun m => m.basic_blocks.length) _
      (fun m => m.add_call_out k) (fun _ => rfl) mi mj ms) cs

theorem cmm_entry_blen_cin (k ci mi cj mj : Nat) (cs : List SmaliClass) :
    (((classesModifyMethod ci mi (fun m => m.add_call_in k) cs).getD cj
        default).methods.getD mj default).basic_blocks.length =
      ((cs.getD cj default).methods.getD mj default).basic_blocks.length :=
  cmm_entry_proj (fun ms => (ms.getD mj default).basic_blocks.length) _ ci mi cj
    (fun ms => @getD_lm_proj Method _ (fun m => m.basic_blocks.length) _
      (fun m => m.add_call_in k) (fun _ => rfl) mi mj ms) cs

theorem ctpAll_cmb_child (k ci mi bi : Nat) (cs : List SmaliClass)
    (h : ctpAll cs = true) :
    ctpAll (classesModifyBlock ci mi bi
      (fun b => b.add_child_block_id k) cs) = true := by
  refine ctpAll_cmb _ ?_ ci mi bi cs h
  intro b hb
  rw [neParents_add_child]
  exact hb

theorem ctpAll_cmb_parent (k ci mi bi : Nat) (cs : List SmaliClass)
    (h : ctpAll cs = true) :
    ctpAll (classesModifyBlock ci mi bi
      (fun b => b.add_parent_block_id k) cs) = true := by
  refine ctpAll_cmb _ ?_ ci mi bi cs h
  intro b hb
  exact neParents_add_parent b k

theorem ctpAll_cmm_cout (k ci mi : Nat) (cs : List SmaliClass)
    (h : ctpAll cs = true) :
    ctpAll (classesModifyMethod ci mi (fun m => m.add_call_out k) cs) = true := by
  refine ctpAll_cmm _ ?_ ci mi cs h
  intro m hm
  apply tpB_bbpres _ _ m hm
  intro m2
  rfl

theorem ctpAll_cmm_cin (k ci mi : Nat) (cs : List SmaliClass)
    (h : ctpAll cs = true) :
    ctpAll (classesModifyMethod ci mi (fun m => m.add_call_in k) cs) = true := by
  refine ctpAll_cmm _ ?_ ci mi cs h
  intro m hm
  apply tpB_bbpres _ _ m hm
  intro m2
  rfl

theorem resolveOneGlobal_c4 (cs : List SmaliClass) (i : Nat)
    (inv : Nat × Nat × String × String) (cs' : List SmaliClass)
    (h : resolveOneGlobal cs i inv = .ok (.inl cs'))
    (hR : Recip (csBlocks cs)) (hT : ctpAll cs = true) :
    Recip (csBlocks cs') ∧ ctpAll cs' = true := by
  unfold resolveOneGlobal at h
  obtain ⟨ia, ib, tcn, tmn⟩ := inv
  simp only [] at h
  split at h
  case h_1 => injection h with h; injection h
  case h_2 smi hsmi =>
    split at h
    case h_1 => injection h with h; injection h
    case h_2 tci htci =>
      split at h
      case h_1 => injection h with h; injection h
      case h_2 sbi hsbi =>
        split at h
        case h_1 => injection h with h; injection h
        case h_2 tmi htmi =>
          split at h
          case h_1 => injection h
          case h_2 te hte =>
            have hilt : i < cs.length := by
              by_contra hge
              have hge2 : cs.length ≤ i := Nat.le_of_not_lt hge
              rw [getD_out cs i hge2, default_class_methods] at hsmi
              simp at hsmi
            have hsmilt : smi < (cs.getD i default).methods.length :=
              findIdx?_lt_length hsmi
            have hsbilt : sbi < ((cs.getD i default).methods.getD smi
                default).basic_blocks.length := findIdx?_lt_length hsbi
            have htcilt : tci < cs.length := findIdx?_lt_length htci
            have htmilt : tmi < (cs.getD tci default).methods.length :=
              findIdx?_lt_length htmi
            have h0lt : 0 < ((cs.getD tci default).methods.getD tmi
                default).basic_blocks.length := head?_pos hte
            have h0id : (((cs.getD tci default).methods.getD tmi
                default).basic_blocks.getD 0 default).block_id = te.block_id := by
              rw [head?_getD hte]
            have hsrcid : (((cs.getD i default).methods.getD smi
                default).basic_blocks.getD sbi default).block_id = ib := by
              have hx := findIdx?_getD hsbi
              simpa using hx
            have hpair1 : Recip (csBlocks (classesModifyBlock tci tmi 0
                (fun b => b.add_parent_block_id ib)
                (classesModifyBlock i smi sbi
                  (fun b => b.add_child_block_id te.block_id) cs))) :=
              recip_cs_pair cs i smi sbi tci tmi 0 te.block_id ib
                hilt hsmilt hsbilt htcilt htmilt h0lt h0id hsrcid hR
            split at h
            case isFalse =>
              injection h with h
              injection h with h
              subst h
              constructor
              · rw [csBlocks_cmm_cout, csBlocks_cmm_cin]
                exact hpair1
              · exact ctpAll_cmm_cout _ _ _ _ (ctpAll_cmm_cin _ _ _ _
                  (ctpAll_cmb_parent _ _ _ _ _
                    (ctpAll_cmb_child _ _ _ _ _ hT)))
            case isTrue =>
              injection h with h
              injection h with h
              subst h
              constructor
              · rw [csBlocks_cmm_cin, csBlocks_cmm_cout]
                refine recip_cs_pair _ tci tmi
                  (((cs.getD tci default).methods.getD tmi
                    default).basic_blocks.length - 1) i smi sbi ib _
                  ?_ ?_ ?_ ?_ ?_ ?_ ?_ ?_ ?_
                · simp only [cmm_length, cmb_length]
                  exact htcilt
                · rw [cmm_entry_mlen, cmm_entry_mlen, cmb_entry_mlen,
                    cmb_entry_mlen]
                  exact htmilt
                · rw [cmm_entry_blen_cout, cmm_entry_blen_cin, cmb_entry_blen,
                    cmb_entry_blen]
                  omega
                · simp only [cmm_length, cmb_length]
                  exact hilt
                · rw [cmm_entry_mlen, cmm_entry_mlen, cmb_entry_mlen,
                    cmb_entry_mlen]
                  exact hsmilt
                · rw [cmm_entry_blen_cout, cmm_entry_blen_cin, cmb_entry_blen,
                    cmb_entry_blen]
                  exact hsbilt
                · rw [cmm_entry_bid_cout, cmm_entry_bid_cin,
                    cmb_entry_bid_parent, cmb_entry_bid_child]
                  exact hsrcid
                · rw [cmm_entry_bid_cout, cmm_entry_bid_cin,
                    cmb_entry_bid_parent, cmb_entry_bid_child]
                · rw [csBlocks_cmm_cout, csBlocks_cmm_cin]
                  exact hpair1
              · exact ctpAll_cmm_cin _ _ _ _ (ctpAll_cmm_cout _ _ _ _
                  (ctpAll_cmb_parent _ _ _ _ _ (ctpAll_cmb_child _ _ _ _ _
                  (ctpAll_cmm_cout _ _ _ _ (ctpAll_cmm_cin _ _ _ _
                  (ctpAll_cmb_parent _ _ _ _ _
                    (ctpAll_cmb_child _ _ _ _ _ hT)))))))

theorem resolveGlobalList_c4 (invs : List (Nat × Nat × String × String)) :
    ∀ (i : Nat) (cs : List SmaliClass) (rep : List String)
      (cs' : List SmaliClass) (rep' : List String),
    resolveGlobalList i cs invs rep = .ok (cs', rep') →
    Recip (csBlocks cs) → ctpAll cs = true →
    Recip (csBlocks cs') ∧ ctpAll cs' = true := by
  induction invs with
  | nil =>
    intro i cs rep cs' rep' h hR hT
    unfold resolveGlobalList at h
    injection h with h
    injection h with h1 h2
    subst h1
    exact ⟨hR, hT⟩
  | cons inv rest ih =>
    intro i cs rep cs' rep' h hR hT
    unfold resolveGlobalList at h
    split at h
    case h_1 => injection h
    case h_2 cs0 heq =>
      obtain ⟨hR0, hT0⟩ := resolveOneGlobal_c4 cs i inv cs0 heq hR hT
      exact ih i cs0 rep cs' rep' h hR0 hT0
    case h_3 msg heq =>
      injection h with h
      injection h with h1 h2
      subst h1
      exact ⟨hR, hT⟩

theorem resolve_global_c4 (classes cs' : List SmaliClass) (rep' : List String)
    (h : resolve_global_invocations classes = .ok (cs', rep'))
    (hR : Recip (csBlocks classes)) (hT : ctpAll classes = true) :
    Recip (csBlocks cs') ∧ ctpAll cs' = true := by
  unfold resolve_global_invocations at h
  have hq := @foldl_inv (Except String (List SmaliClass × List String)) Nat
    (fun acc => ∀ cs rep, acc = .ok (cs, rep) →
      Recip (csBlocks cs) ∧ ctpAll cs = true)
    (fun acc i =>
      match acc with
      | .error e => .error e
      | .ok (cs, rep) =>
        resolveGlobalList i cs ((cs.getD i default).invocations_global) rep)
    (List.range classes.length) ?_ (.ok (classes, [])) ?_
  · exact hq cs' rep' h
  · intro st a hst
    cases st with
    | error e => intro cs rep hcs; injection hcs
    | ok p =>
      obtain ⟨cs0, rep0⟩ := p
      intro cs rep hcs
      obtain ⟨hR0, hT0⟩ := hst cs0 rep0 rfl
      exact resolveGlobalList_c4 _ a cs0 rep0 cs rep hcs hR0 hT0
  · intro cs rep hcs
    injection hcs with hcs
    injection hcs with h1 h2
    subst h1
    exact ⟨hR, hT⟩

theorem getD_append_left [Inhabited α] (A B : List α) (i : Nat)
    (h : i < A.length) : (A ++ B).getD i default = A.getD i default := by
  induction A generalizing i with
  | nil => simp at h
  | cons a t ih =>
    cases i with
    | zero => rfl
    | succ n =>
      have hn : n < t.length := by simpa using h
      simpa using ih n hn

theorem getD_append_right_self [Inhabited α] (A B : List α) (j : Nat) :
    (A ++ B).getD (A.length + j) default = B.getD j default := by
  induction A with
  | nil => simp
  | cons a t ih =>
    have : t.length + 1 + j = (t.length + j) + 1 := by omega
    simp only [List.cons_append, List.length_cons, this]
    exact ih

theorem getD_snoc [Inhabited α] (l : List α) (x : α) :
    (l ++ [x]).getD l.length default = x := by
  have := getD_append_right_self l [x] 0
  simpa using this

theorem getD_lm_self [Inhabited α] (f : α → α) (i : Nat) (l : List α)
    (hi : i < l.length) :
    (listModify f i l).getD i default = f (l.getD i default) := by
  induction l generalizing i with
  | nil => simp at hi
  | cons a t ih =>
    cases i with
    | zero => rfl
    | succ n =>
      have hn : n < t.length := by simpa using hi
      simpa [listModify] using ih n hn

theorem headD_ne [Inhabited α] (l : List α) (h : l ≠ []) :
    l.headD default = l.getD 0 default := by
  cases l with
  | nil => exact absurd rfl h
  | cons x t => rfl

theorem csBlocks_append (A B : List SmaliClass) :
    csBlocks (A ++ B) = csBlocks A ++ csBlocks B := List.flatMap_append A B _

theorem csBlocks_mk_nil (cid : Nat) (hdr : String) :
    csBlocks [mkSmaliClass cid hdr] = [] := rfl

theorem classBlocks_addm (c : SmaliClass) (tm : Method) :
    classBlocks (c.add_method tm) = classBlocks c ++ tm.basic_blocks := by
  unfold classBlocks SmaliClass.add_method
  simp only []
  rw [List.flatMap_append]
  simp

theorem cE_csBlocks_addm (gi : Nat) (gen : List SmaliClass) (tm : Method)
    (hct : childEdges tm.basic_blocks = []) :
    childEdges (csBlocks (listModify (fun c => c.add_method tm) gi gen)) =
      childEdges (csBlocks gen) := by
  rw [cE_csBlocks, cE_csBlocks]
  apply flatMap_listModify_eq
  intro c
  show childEdges (classBlocks (c.add_method tm)) = childEdges (classBlocks c)
  rw [classBlocks_addm, cE_append, hct, List.append_nil]

theorem pE_csBlocks_addm (gi : Nat) (gen : List SmaliClass) (tm : Method)
    (hpt : parentEdges tm.basic_blocks = []) :
    parentEdges (csBlocks (listModify (fun c => c.add_method tm) gi gen)) =
      parentEdges (csBlocks gen) := by
  rw [pE_csBlocks, pE_csBlocks]
  apply flatMap_listModify_eq
  intro c
  show parentEdges (classBlocks (c.add_method tm)) = parentEdges (classBlocks c)
  rw [classBlocks_addm, pE_append, hpt, List.append_nil]

theorem recip_cs_snoc_class (A gen : List SmaliClass) (cid : Nat) (hdr : String)
    (h : Recip (csBlocks (A ++ gen))) :
    Recip (csBlocks (A ++ (gen ++ [mkSmaliClass cid hdr]))) := by
  rw [← List.append_assoc, csBlocks_append, csBlocks_mk_nil, List.append_nil]
  exact h

theorem recip_cs_addm (A gen : List SmaliClass) (gi : Nat) (tm : Method)
    (hct : childEdges tm.basic_blocks = [])
    (hpt : parentEdges tm.basic_blocks = [])
    (h : Recip (csBlocks (A ++ gen))) :
    Recip (csBlocks (A ++ listModify (fun c => c.add_method tm) gi gen)) := by
  intro e
  rw [csBlocks_append, cE_append, pE_append,
    cE_csBlocks_addm gi gen tm hct, pE_csBlocks_addm gi gen tm hpt,
    ← cE_append, ← pE_append, ← csBlocks_append]
  exact h e

theorem getD_mem_of_lt [Inhabited α] (l : List α) (n : Nat) (h : n < l.length) :
    l.getD n default ∈ l := by
  rw [List.getD_eq_getElem?_getD, List.getElem?_eq_getElem h]
  exact List.getElem_mem h

theorem genBBne_getD (cs : List SmaliClass) (h : genBBne cs = true) (gi tmi : Nat)
    (hgi : gi < cs.length)
    (htmi : tmi < (cs.getD gi default).methods.length) :
    ((cs.getD gi default).methods.getD tmi default).basic_blocks ≠ [] := by
  unfold genBBne at h
  rw [List.all_eq_true] at h
  have hc := h _ (getD_mem_of_lt cs gi hgi)
  rw [List.all_eq_true] at hc
  have hm := hc _ (getD_mem_of_lt _ tmi htmi)
  simp only [Bool.not_eq_true'] at hm
  intro hnil
  rw [hnil] at hm
  simp at hm

theorem ctpAll_getD (cs : List SmaliClass) (h : ctpAll cs = true) (gi tmi : Nat)
    (hgi : gi < cs.length)
    (htmi : tmi < (cs.getD gi default).methods.length) :
    tpB ((cs.getD gi default).methods.getD tmi default) = true := by
  unfold ctpAll at h
  rw [List.all_eq_true] at h
  have hc := h _ (getD_mem_of_lt cs gi hgi)
  rw [List.all_eq_true] at hc
  exact hc _ (getD_mem_of_lt _ tmi htmi)

theorem methods_mkclass_nil (cid : Nat) (hdr : String) :
    (mkSmaliClass cid hdr).methods = [] := rfl

theorem ctpAll_snoc_class (gen : List SmaliClass) (cid : Nat) (hdr : String)
    (h : ctpAll gen = true) : ctpAll (gen ++ [mkSmaliClass cid hdr]) = true := by
  rw [ctpAll_append, h]
  simp [ctpAll, methods_mkclass_nil]

theorem genBBne_snoc_class (gen : List SmaliClass) (cid : Nat) (hdr : String)
    (h : genBBne gen = true) : genBBne (gen ++ [mkSmaliClass cid hdr]) = true := by
  rw [genBBne_append, h]
  simp [genBBne, methods_mkclass_nil]

theorem ctpAll_addm (gen : List SmaliClass) (gi : Nat) (tm : Method)
    (htm : tpB tm = true) (h : ctpAll gen = true) :
    ctpAll (listModify (fun c => c.add_method tm) gi gen) = true := by
  refine all_listModify ?_ gi gen h
  intro c hc
  simp only [SmaliClass.add_method, List.all_append, List.all_cons, List.all_nil,
    Bool.and_eq_true]
  exact ⟨hc, htm, trivial⟩

theorem genBBne_addm (gen : List SmaliClass) (gi : Nat) (tm : Method)
    (htm : (!tm.basic_blocks.isEmpty) = true) (h : genBBne gen = true) :
    genBBne (listModify (fun c => c.add_method tm) gi gen) = true := by
  refine all_listModify ?_ gi gen h
  intro c hc
  simp only [SmaliClass.add_method, List.all_append, List.all_cons, List.all_nil,
    Bool.and_eq_true]
  exact ⟨hc, htm, trivial⟩

theorem tpB_dummy (mid : Nat) (s : String) (bid : Nat) (ins : Instruction) :
    tpB ((mkMethod mid s).add_basic_block (mkBasicBlock bid ins)) = true := rfl

theorem bbne_dummy (mid : Nat) (s : String) (bid : Nat) (ins : Instruction) :
    (!((mkMethod mid s).add_basic_block
      (mkBasicBlock bid ins)).basic_blocks.isEmpty) = true := rfl

theorem cE_dummy (mid : Nat) (s : String) (bid : Nat) (ins : Instruction) :
    childEdges ((mkMethod mid s).add_basic_block
      (mkBasicBlock bid ins)).basic_blocks = [] := rfl

theorem pE_dummy (mid : Nat) (s : String) (bid : Nat) (ins : Instruction) :
    parentEdges ((mkMethod mid s).add_basic_block
      (mkBasicBlock bid ins)).basic_blocks = [] := rfl

theorem bb_dummy_ne (mid : Nat) (s : String) (bid : Nat) (ins : Instruction) :
    ((mkMethod mid s).add_basic_block (mkBasicBlock bid ins)).basic_blocks ≠ [] := by
  intro h
  have h2 : (((mkMethod mid s).add_basic_block
      (mkBasicBlock bid ins)).basic_blocks).length = 0 := by
    rw [h]
    rfl
  have h3 : (((mkMethod mid s).add_basic_block
      (mkBasicBlock bid ins)).basic_blocks).length =
      (mkMethod mid s).basic_blocks.length + 1 := by
    unfold Method.add_basic_block
    simp
  omega

theorem libFindOrCreate_c4 (st : LibState) (tcn tmn : String)
    (hR : Recip (csBlocks (st.classes ++ st.generated)))
    (hT : ctpAll (st.classes ++ st.generated) = true)
    (hG : genBBne st.generated = true) :
    (libFindOrCreate st tcn tmn).1.classes = st.classes ∧
    Recip (csBlocks ((libFindOrCreate st tcn tmn).1.classes ++
      (libFindOrCreate st tcn tmn).1.generated)) ∧
    ctpAll ((libFindOrCreate st tcn tmn).1.classes ++
      (libFindOrCreate st tcn tmn).1.generated) = true ∧
    genBBne (libFindOrCreate st tcn tmn).1.generated = true ∧
    (libFindOrCreate st tcn tmn).2.1 <
      (libFindOrCreate st tcn tmn).1.generated.length ∧
    (libFindOrCreate st tcn tmn).2.2 <
      ((libFindOrCreate st tcn tmn).1.generated.getD
        (libFindOrCreate st tcn tmn).2.1 default).methods.length ∧
    (((libFindOrCreate st tcn tmn).1.generated.getD
        (libFindOrCreate st tcn tmn).2.1 default).methods.getD
        (libFindOrCreate st tcn tmn).2.2 default).basic_blocks ≠ [] := by
  unfold libFindOrCreate
  cases hcc : st.generated.findIdx?
      (fun g => g.class_path ++ "/" ++ g.class_name == tcn) with
  | none =>
    simp only [hcc]
    split
    case h_1 tmi htmi =>
      rw [getD_snoc, methods_mkclass_nil, List.findIdx?_nil] at htmi
      injection htmi
    case h_2 htmi =>
      have htc := getD_snoc st.generated
        (mkSmaliClass st.class_id (".class public final " ++ tcn ++ ";"))
      rw [htc, methods_mkclass_nil]
      refine ⟨trivial, ?_, ?_, ?_, ?_, ?_, ?_⟩
      · exact recip_cs_addm _ _ _ _ (cE_dummy _ _ _ _) (pE_dummy _ _ _ _)
          (recip_cs_snoc_class _ _ _ _ hR)
      · rw [ctpAll_append]
        rw [ctpAll_append] at hT
        simp only [Bool.and_eq_true] at hT ⊢
        exact ⟨hT.1, ctpAll_addm _ _ _ (tpB_dummy _ _ _ _)
          (ctpAll_snoc_class _ _ _ hT.2)⟩
      · exact genBBne_addm _ _ _ (bbne_dummy _ _ _ _)
          (genBBne_snoc_class _ _ _ hG)
      · rw [listModify_length]
        simp
      · rw [getD_lm_self _ _ _ (by simp)]
        simp [SmaliClass.add_method]
      · rw [getD_lm_self _ _ _ (by simp), htc]
        simp only [SmaliClass.add_method, methods_mkclass_nil, List.nil_append,
          List.length_nil]
        exact bb_dummy_ne _ _ _ _
  | some gi =>
    simp only [hcc]
    split
    case h_1 tmi htmi =>
      have hgilt : gi < st.generated.length := findIdx?_lt_length hcc
      refine ⟨trivial, hR, hT, hG, hgilt, findIdx?_lt_length htmi, ?_⟩
      exact genBBne_getD st.generated hG gi tmi hgilt (findIdx?_lt_length htmi)
    case h_2 htmi =>
      have hgilt : gi < st.generated.length := findIdx?_lt_length hcc
      refine ⟨trivial, ?_, ?_, ?_, ?_, ?_, ?_⟩
      · exact recip_cs_addm _ _ _ _ (cE_dummy _ _ _ _) (pE_dummy _ _ _ _) hR
      · rw [ctpAll_append]
        rw [ctpAll_append] at hT
        simp only [Bool.and_eq_true] at hT ⊢
        exact ⟨hT.1, ctpAll_addm _ _ _ (tpB_dummy _ _ _ _) hT.2⟩
      · exact genBBne_addm _ _ _ (bbne_dummy _ _ _ _) hG
      · rw [listModify_length]
        exact hgilt
      · rw [getD_lm_self _ _ _ hgilt]
        simp [SmaliClass.add_method]
      · rw [getD_lm_self _ _ _ hgilt]
        simp only [SmaliClass.add_method]
        rw [getD_snoc]
        exact bb_dummy_ne _ _ _ _

theorem cmb_append_left (ci mi bi : Nat) (f : BasicBlock → BasicBlock)
    (A B : List SmaliClass) (h : ci < A.length) :
    classesModifyBlock ci mi bi f A ++ B = classesModifyBlock ci mi bi f (A ++ B) := by
  unfold classesModifyBlock classesModifyMethod
  exact (listModify_append_left _ ci A B h).symm

theorem cmb_append_right (ci mi bi : Nat) (f : BasicBlock → BasicBlock)
    (A B : List SmaliClass) :
    A ++ classesModifyBlock ci mi bi f B =
      classesModifyBlock (A.length + ci) mi bi f (A ++ B) := by
  unfold classesModifyBlock classesModifyMethod
  exact (listModify_append_right _ ci A B).symm

theorem recip_cs_pair_rev (cs : List SmaliClass) (cci cmi cbi pci pmi pbi k p : Nat)
    (hcci : cci < cs.length)
    (hcmi : cmi < (cs.getD cci default).methods.length)
    (hcbi : cbi < ((cs.getD cci default).methods.getD cmi
      default).basic_blocks.length)
    (hpci : pci < cs.length)
    (hpmi : pmi < (cs.getD pci default).methods.length)
    (hpbi : pbi < ((cs.getD pci default).methods.getD pmi
      default).basic_blocks.length)
    (hk : (((cs.getD pci default).methods.getD pmi
      default).basic_blocks.getD pbi default).block_id = k)
    (hp2 : (((cs.getD cci default).methods.getD cmi
      default).basic_blocks.getD cbi default).block_id = p)
    (hR : Recip (csBlocks cs)) :
    Recip (csBlocks (classesModifyBlock cci cmi cbi
        (fun b => b.add_child_block_id k)
      (classesModifyBlock pci pmi pbi
        (fun b => b.add_parent_block_id p) cs))) := by
  intro e
  have hlen1 : (classesModifyBlock pci pmi pbi
      (fun b => b.add_parent_block_id p) cs).length = cs.length :=
    cmb_length _ _ _ _ _
  have hc : e ∈ childEdges (csBlocks (classesModifyBlock cci cmi cbi
      (fun b => b.add_child_block_id k)
      (classesModifyBlock pci pmi pbi
        (fun b => b.add_parent_block_id p) cs))) ↔
      e ∈ childEdges (csBlocks cs) ∨ e = (p, k) := by
    rw [mem_cE_cmb_child k cci cmi cbi _ _ _ _ rfl rfl rfl
        (by rw [hlen1]; exact hcci)
        (by rw [cmb_entry_mlen]; exact hcmi)
        (by rw [cmb_entry_blen]; exact hcbi) e,
      cE_cmb_parent,
      cmb_entry_bid_parent, hp2]
  have hq : e ∈ parentEdges (csBlocks (classesModifyBlock cci cmi cbi
      (fun b => b.add_child_block_id k)
      (classesModifyBlock pci pmi pbi
        (fun b => b.add_parent_block_id p) cs))) ↔
      e ∈ parentEdges (csBlocks cs) ∨ e = (p, k) := by
    rw [pE_cmb_child,
      mem_pE_cmb_parent p pci pmi pbi cs _ _ _ rfl rfl rfl hpci hpmi hpbi e,
      hk]
  rw [hc, hq]
  exact or_congr (hR e) Iff.rfl

theorem libLink_c4 (st : LibState) (i gi tmi sm sb : Nat) (tcn tmn : String)
    (hR : Recip (csBlocks (st.classes ++ st.generated)))
    (hT : ctpAll (st.classes ++ st.generated) = true)
    (hG : genBBne st.generated = true)
    (hgi : gi < st.generated.length)
    (htmi : tmi < (st.generated.getD gi default).methods.length)
    (hbne : ((st.generated.getD gi default).methods.getD tmi
      default).basic_blocks ≠ []) :
    Recip (csBlocks ((sumStateLib (libLink st i gi tmi sm sb tcn tmn)).classes ++
      (sumStateLib (libLink st i gi tmi sm sb tcn tmn)).generated)) ∧
    ctpAll ((sumStateLib (libLink st i gi tmi sm sb tcn tmn)).classes ++
      (sumStateLib (libLink st i gi tmi sm sb tcn tmn)).generated) = true ∧
    genBBne (sumStateLib (libLink st i gi tmi sm sb tcn tmn)).generated = true := by
  unfold libLink
  simp only []
  split
  case h_1 => exact ⟨hR, hT, hG⟩
  case h_2 smi hsmi =>
    split
    case h_1 => exact ⟨hR, hT, hG⟩
    case h_2 sbi hsbi =>
      have hilt : i < st.classes.length := by
        by_contra hge
        have hge2 : st.classes.length ≤ i := Nat.le_of_not_lt hge
        rw [getD_out st.classes i hge2] at hsmi
        have hdm : (default : SmaliClass).methods = [] := rfl
        rw [hdm, List.findIdx?_nil] at hsmi
        injection hsmi
      have hsmilt : smi < (st.classes.getD i default).methods.length :=
        findIdx?_lt_length hsmi
      have hsbilt : sbi < ((st.classes.getD i default).methods.getD smi
          default).basic_blocks.length := findIdx?_lt_length hsbi
      have h0lt : 0 < ((st.generated.getD gi default).methods.getD tmi
          default).basic_blocks.length := List.length_pos.mpr hbne
      have hsrc : (((st.classes.getD i default).methods.getD smi
          default).basic_blocks.getD sbi default).block_id = sb := by
        have hx := findIdx?_getD hsbi
        simpa using hx
      have hpairV : Recip (csBlocks (classesModifyBlock i smi sbi
          (fun b => b.add_child_block_id
            (((st.generated.getD gi default).methods.getD tmi
              default).basic_blocks.headD default).block_id) st.classes ++
          classesModifyBlock gi tmi 0
            (fun b => b.add_parent_block_id sb) st.generated)) := by
        rw [cmb_append_left i smi sbi _ st.classes _ hilt, cmb_append_right]
        refine recip_cs_pair_rev (st.classes ++ st.generated) i smi sbi
          (st.classes.length + gi) tmi 0 _ sb ?_ ?_ ?_ ?_ ?_ ?_ ?_ ?_ hR
        · rw [List.length_append]
          omega
        · rw [getD_append_left _ _ _ hilt]
          exact hsmilt
        · rw [getD_append_left _ _ _ hilt]
          exact hsbilt
        · rw [List.length_append]
          omega
        · rw [getD_append_right_self]
          exact htmi
        · rw [getD_append_right_self]
          exact h0lt
        · rw [getD_append_right_self, headD_ne _ hbne]
        · rw [getD_append_left _ _ _ hilt]
          exact hsrc
      split
      case isFalse =>
        simp only [sumStateLib]
        refine ⟨hpairV, ?_, ?_⟩
        · rw [ctpAll_append]
          rw [ctpAll_append] at hT
          simp only [Bool.and_eq_true] at hT ⊢
          exact ⟨ctpAll_cmb_child _ _ _ _ _ hT.1,
            ctpAll_cmb_parent _ _ _ _ _ hT.2⟩
        · exact genBBne_cmb _ _ _ _ _ hG
      case isTrue =>
        simp only [sumStateLib]
        refine ⟨?_, ?_, ?_⟩
        · rw [cmb_append_left i smi sbi _ _ _ (by rw [cmb_length]; exact hilt),
            cmb_append_right]
          refine recip_cs_pair _
            ((classesModifyBlock i smi sbi
              (fun b => b.add_child_block_id
                (((st.generated.getD gi default).methods.getD tmi
                  default).basic_blocks.headD default).block_id)
              st.classes).length + gi) tmi
            (((st.generated.getD gi default).methods.getD tmi
              default).basic_blocks.length - 1) i smi sbi sb _
            ?_ ?_ ?_ ?_ ?_ ?_ ?_ ?_ hpairV
        
          · rw [List.length_append, cmb_length, cmb_length]
            omega
          · rw [getD_append_right_self, cmb_entry_mlen]
            exact htmi
          · rw [getD_append_right_self, cmb_entry_blen]
            omega
          · rw [List.length_append, cmb_length, cmb_length]
            omega
          · rw [getD_append_left _ _ _ (by rw [cmb_length]; exact hilt),
              cmb_entry_mlen]
            exact hsmilt
          · rw [getD_append_left _ _ _ (by rw [cmb_length]; exact hilt),
              cmb_entry_blen]
            exact hsbilt
          · rw [getD_append_left _ _ _ (by rw [cmb_length]; exact hilt),
              cmb_entry_bid_child]
            exact hsrc
          · rw [getD_append_right_self, cmb_entry_bid_parent]
        · rw [ctpAll_append]
          rw [ctpAll_append] at hT
          simp only [Bool.and_eq_true] at hT ⊢
          exact ⟨ctpAll_cmb_parent _ _ _ _ _ (ctpAll_cmb_child _ _ _ _ _ hT.1),
            ctpAll_cmb_child _ _ _ _ _ (ctpAll_cmb_parent _ _ _ _ _ hT.2)⟩
        · exact genBBne_cmb _ _ _ _ _ (genBBne_cmb _ _ _ _ _ hG)

theorem resolveOneLib_c4 (st : LibState) (i : Nat)
    (inv : Nat × Nat × String × String)
    (hR : Recip (csBlocks (st.classes ++ st.generated)))
    (hT : ctpAll (st.classes ++ st.generated) = true)
    (hG : genBBne st.generated = true) :
    Recip (csBlocks ((sumStateLib (resolveOneLib st i inv)).classes ++
      (sumStateLib (resolveOneLib st i inv)).generated)) ∧
    ctpAll ((sumStateLib (resolveOneLib st i inv)).classes ++
      (sumStateLib (resolveOneLib st i inv)).generated) = true ∧
    genBBne (sumStateLib (resolveOneLib st i inv)).generated = true := by
  obtain ⟨a, b, tcn, tmn⟩ := inv
  obtain ⟨hcl, hR2, hT2, hG2, hgi, htmi, hbne⟩ :=
    libFindOrCreate_c4 st tcn tmn hR hT hG
  unfold resolveOneLib
  simp only []
  rcases hlfc : libFindOrCreate st tcn tmn with ⟨st2, gi2, tmi2⟩
  rw [hlfc] at hR2 hT2 hG2 hgi htmi hbne
  exact libLink_c4 st2 i gi2 tmi2 a b tcn tmn hR2 hT2 hG2 hgi htmi hbne

theorem resolveLibList_c4 (i : Nat) (invs : List (Nat × Nat × String × String)) :
    ∀ st : LibState,
    Recip (csBlocks (st.classes ++ st.generated)) →
    ctpAll (st.classes ++ st.generated) = true →
    genBBne st.generated = true →
    Recip (csBlocks ((resolveLibList i st invs).classes ++
      (resolveLibList i st invs).generated)) ∧
    ctpAll ((resolveLibList i st invs).classes ++
      (resolveLibList i st invs).generated) = true ∧
    genBBne (resolveLibList i st invs).generated = true := by
  induction invs with
  | nil =>
    intro st hR hT hG
    exact ⟨hR, hT, hG⟩
  | cons inv rest ih =>
    intro st hR hT hG
    unfold resolveLibList
    split
    case h_1 st2 heq =>
      have h3 := resolveOneLib_c4 st i inv hR hT hG
      rw [heq] at h3
      exact ih st2 h3.1 h3.2.1 h3.2.2
    case h_2 st2 msg heq =>
      have h3 := resolveOneLib_c4 st i inv hR hT hG
      rw [heq] at h3
      exact ⟨h3.1, h3.2.1, h3.2.2⟩

theorem resolve_library_c4 (g : Graph)
    (hR : Recip (csBlocks g.classes)) (hT : ctpAll g.classes = true) :
    Recip (csBlocks (resolve_library_invocations g).1.classes) ∧
    ctpAll (resolve_library_invocations g).1.classes = true := by
  unfold resolve_library_invocations
  simp only []
  have hq := @foldl_inv LibState Nat
    (fun st => Recip (csBlocks (st.classes ++ st.generated)) ∧
      ctpAll (st.classes ++ st.generated) = true ∧
      genBBne st.generated = true)
    (fun st i => resolveLibList i st ((st.classes.getD i default).invocations_lib))
    (List.range g.classes.length) ?_
    { classes := g.classes, generated := [], class_id := g.class_id,
      method_id := g.method_id, block_id := g.block_id,
      instruction_id := g.instruction_id, report := [] } ?_
  · exact ⟨hq.1, hq.2.1⟩
  · intro st a hst
    exact resolveLibList_c4 a _ st hst.1 hst.2.1 hst.2.2
  · refine ⟨?_, ?_, rfl⟩
    · rw [List.append_nil]
      exact hR
    · rw [List.append_nil]
      exact hT

theorem cE_single_add_instr (b : BasicBlock) (ins : Instruction) :
    childEdges [b.add_instruction ins] = childEdges [b] := rfl

theorem pE_single_add_instr (b : BasicBlock) (ins : Instruction) :
    parentEdges [b.add_instruction ins] = parentEdges [b] := rfl

theorem recip_add_instr (L : List BasicBlock) (b : BasicBlock) (ins : Instruction)
    (h : Recip (L ++ [b])) : Recip (L ++ [b.add_instruction ins]) := by
  intro e
  have he := h e
  rw [cE_append, pE_append] at he
  rw [cE_append, pE_append, cE_single_add_instr, pE_single_add_instr]
  exact he

theorem recip_mk_single (k : Nat) (ins : Instruction) :
    Recip ([] ++ [mkBasicBlock k ins]) := by
  intro e
  constructor
  · intro h
    simp [childEdges, mkBasicBlock] at h
  · intro h
    simp [parentEdges, mkBasicBlock] at h

theorem cE_single_mk_par (k : Nat) (ins : Instruction) (p : Nat) :
    childEdges [(mkBasicBlock k ins).add_parent_block_id p] = [] := rfl

theorem pE_single_mk_par (k : Nat) (ins : Instruction) (p : Nat) :
    parentEdges [(mkBasicBlock k ins).add_parent_block_id p] = [(p, k)] := rfl

theorem pE_single_add_child (b : BasicBlock) (k : Nat) :
    parentEdges [b.add_child_block_id k] = parentEdges [b] := rfl

theorem mem_cE_single_add_child (b : BasicBlock) (k : Nat) (e : Nat × Nat) :
    e ∈ childEdges [b.add_child_block_id k] ↔
      e ∈ childEdges [b] ∨ e = (b.block_id, k) := by
  have hx := mem_cE_lm_child k 0 [b] b rfl (by simp) e
  rw [show listModify (fun b2 => b2.add_child_block_id k) 0 [b] =
    [b.add_child_block_id k] from rfl] at hx
  exact hx

theorem recip_term_pair (L : List BasicBlock) (b : BasicBlock) (k : Nat)
    (ins : Instruction) (h : Recip (L ++ [b])) :
    Recip ((L ++ [b.add_child_block_id k]) ++
      [(mkBasicBlock k ins).add_parent_block_id b.block_id]) := by
  intro e
  have he := h e
  rw [cE_append, pE_append] at he
  simp only [List.mem_append] at he
  rw [cE_append, cE_append, pE_append, pE_append,
    cE_single_mk_par, pE_single_mk_par, pE_single_add_child]
  simp only [List.mem_append, List.mem_singleton, List.not_mem_nil]
  rw [mem_cE_single_add_child]
  tauto

theorem inv4_sw (s : Graph) (h : Inv4 s) : s.SWITCH_FLAG = false := h.1

theorem inv4_classes (s : Graph) (h : Inv4 s) :
    ∀ c ∈ s.classes, Recip (classBlocks c) := h.2.2.1

theorem inv4_aclass (s : Graph) (h : Inv4 s) :
    ∀ c, s.active_class = some c → ∀ m ∈ c.methods, Recip m.basic_blocks :=
  h.2.2.2.1

theorem inv4_amethod (s : Graph) (h : Inv4 s) :
    ∀ m, s.active_method = some m →
      Recip (m.basic_blocks ++ optList s.active_block) := h.2.2.2.2.1

theorem inv4_tails (s : Graph) (h : Inv4 s) :
    ∀ c ∈ stateClasses s, ∀ m ∈ c.methods, tailParents m := h.2.2.2.2.2.1

theorem inv4_atail (s : Graph) (h : Inv4 s) :
    ∀ m, s.active_method = some m → tailParents m := h.2.2.2.2.2.2.1

theorem inv4_apar (s : Graph) (h : Inv4 s) :
    ∀ b, s.active_block = some b → b.parent_block_ids = [] →
      ∃ m, s.active_method = some m ∧ m.basic_blocks = [] := h.2.2.2.2.2.2.2

theorem inv4_bump (s : Graph) (k : Nat) (hInv : Inv4 s) :
    Inv4 { s with instruction_id := k } := hInv

theorem inv4_bt (s : Graph) (bt : Bool) (hInv : Inv4 s) :
    Inv4 { s with block_term := bt } := hInv

theorem inv4_flags (s : Graph) (a f m : Bool) (hInv : Inv4 s) :
    Inv4 { s with ANNOTATION_FLAG := a, FIELD_FLAG := f, METHOD_FLAG := m } := hInv

theorem inv4_swfalse (s : Graph) (hInv : Inv4 s) :
    Inv4 { s with SWITCH_FLAG := false } := ⟨rfl, hInv.2⟩

theorem inv4_set_method (s : Graph) (m m' : Method) (bt : Bool)
    (hm : s.active_method = some m) (he : m'.basic_blocks = m.basic_blocks)
    (hInv : Inv4 s) :
    Inv4 { s with active_method := some m', block_term := bt } := by
  refine ⟨hInv.1, ?_, hInv.2.2.1, hInv.2.2.2.1, ?_, hInv.2.2.2.2.2.1, ?_, ?_⟩
  · intro h2
    injection h2
  · intro m2 hm2
    injection hm2 with hm2
    subst hm2
    show Recip (m'.basic_blocks ++ optList s.active_block)
    rw [he]
    exact inv4_amethod s hInv m hm
  · intro m2 hm2
    injection hm2 with hm2
    subst hm2
    intro b hb
    rw [he] at hb
    exact inv4_atail s hInv m hm b hb
  · intro b hb hp
    obtain ⟨m0, hm0, hbb⟩ := inv4_apar s hInv b hb hp
    refine ⟨m', rfl, ?_⟩
    rw [hm] at hm0
    injection hm0 with hm0
    rw [he, hm0]
    exact hbb

theorem inv4_set_class (s : Graph) (c c' : SmaliClass) (fl : List String) (bt : Bool)
    (hc : s.active_class = some c) (he : c'.methods = c.methods)
    (hInv : Inv4 s) :
    Inv4 { s with active_class := some c', file_list := fl, block_term := bt } := by
  have hcmem : c ∈ stateClasses s := by
    unfold stateClasses
    rw [hc]
    simp [optList]
  refine ⟨hInv.1, hInv.2.1, hInv.2.2.1, ?_, hInv.2.2.2.2.1, ?_,
    hInv.2.2.2.2.2.2.1, hInv.2.2.2.2.2.2.2⟩
  · intro c2 hc2
    injection hc2 with hc2
    subst hc2
    intro m hm
    rw [he] at hm
    exact inv4_aclass s hInv c hc m hm
  · intro c2 hc2
    have hc2b : c2 ∈ s.classes ++ [c'] := hc2
    rcases List.mem_append.mp hc2b with h2 | h2
    · have hmem : c2 ∈ stateClasses s := by
        unfold stateClasses
        exact List.mem_append.mpr (Or.inl h2)
      exact inv4_tails s hInv c2 hmem
    · rw [List.mem_singleton] at h2
      subst h2
      intro m hm
      rw [he] at hm
      exact inv4_tails s hInv c hcmem m hm

theorem inv4_new_class (s : Graph) (c' : SmaliClass) (k : Nat)
    (he : c'.methods = []) (hInv : Inv4 s) :
    Inv4 { s with active_class := some c', class_id := k } := by
  refine ⟨hInv.1, hInv.2.1, hInv.2.2.1, ?_, hInv.2.2.2.2.1, ?_,
    hInv.2.2.2.2.2.2.1, hInv.2.2.2.2.2.2.2⟩
  · intro c2 hc2
    injection hc2 with hc2
    subst hc2
    intro m hm
    rw [he] at hm
    simp at hm
  · intro c2 hc2
    have hc2b : c2 ∈ s.classes ++ [c'] := hc2
    rcases List.mem_append.mp hc2b with h2 | h2
    · have hmem : c2 ∈ stateClasses s := by
        unfold stateClasses
        exact List.mem_append.mpr (Or.inl h2)
      exact inv4_tails s hInv c2 hmem
    · rw [List.mem_singleton] at h2
      subst h2
      intro m hm
      rw [he] at hm
      simp at hm

theorem tailParents_addblock (m : Method) (b : BasicBlock)
    (hm : tailParents m) (hb : m.basic_blocks = [] ∨ b.parent_block_ids ≠ []) :
    tailParents (m.add_basic_block b) := by
  apply tailParents_of_tpB
  apply tpB_addblock _ _ (tpB_of_tailParents _ hm)
  rcases hb with hb | hb
  · exact Or.inl hb
  · right
    unfold neParents
    simp only [Bool.not_eq_true']
    cases hp : b.parent_block_ids with
    | nil => exact absurd hp hb
    | cons x t => rfl

theorem inv4_terminate (s : Graph) (ins : Instruction) (s' : Graph) (m : Method)
    (b : BasicBlock) (hm : s.active_method = some m) (hb : s.active_block = some b)
    (h : terminate_and_start_block s ins = .ok s') (hInv : Inv4 s) : Inv4 s' := by
  unfold terminate_and_start_block at h
  rw [hb, hm] at h
  injection h with h
  subst h
  refine ⟨hInv.1, ?_, hInv.2.2.1, hInv.2.2.2.1, ?_, hInv.2.2.2.2.2.1, ?_, ?_⟩
  · intro h2
    injection h2
  · intro m2 hm2
    injection hm2 with hm2
    subst hm2
    have hc5 := inv4_amethod s hInv m hm
    rw [hb] at hc5
    exact recip_term_pair m.basic_blocks b s.block_id ins hc5
  · intro m2 hm2
    injection hm2 with hm2
    subst hm2
    refine tailParents_addblock m _ (inv4_atail s hInv m hm) ?_
    by_cases hp : b.parent_block_ids = []
    · obtain ⟨m0, hm0, hbb⟩ := inv4_apar s hInv b hb hp
      rw [hm] at hm0
      injection hm0 with hm0
      left
      rw [hm0]
      exact hbb
    · right
      show (b.add_child_block_id s.block_id).parent_block_ids ≠ []
      exact hp
  · intro b2 hb2 hp
    injection hb2 with hb2
    rw [← hb2] at hp
    exact absurd hp (by simp [mkBasicBlock, BasicBlock.add_parent_block_id])

theorem inv4_append (s : Graph) (ins : Instruction) (s' : Graph) (m : Method)
    (b : BasicBlock) (hm : s.active_method = some m) (hb : s.active_block = some b)
    (h : append_or_start s ins = .ok s') (hInv : Inv4 s) : Inv4 s' := by
  unfold append_or_start at h
  split at h
  case isTrue => exact inv4_terminate s ins s' m b hm hb h hInv
  case isFalse =>
    rw [hb] at h
    injection h with h
    subst h
    refine ⟨hInv.1, ?_, hInv.2.2.1, hInv.2.2.2.1, ?_, hInv.2.2.2.2.2.1, ?_, ?_⟩
    · intro h2
      rw [hm] at h2
      injection h2
    · intro m2 hm2
      have hc5 := inv4_amethod s hInv m2 hm2
      rw [hb] at hc5
      exact recip_add_instr m2.basic_blocks b ins hc5
    · exact fun m2 hm2 => inv4_atail s hInv m2 hm2
    · intro b2 hb2 hp
      injection hb2 with hb2
      have hp2 : b.parent_block_ids = [] := by
        rw [← hb2] at hp
        exact hp
      exact inv4_apar s hInv b hb hp2

theorem inv4_label (s : Graph) (m : Method) (b : BasicBlock) (ins : Instruction)
    (k1 k2 : Nat) (hm : s.active_method = some m) (hb : s.active_block = some b)
    (hInv : Inv4 s) :
    Inv4 { s with
      active_method := some (m.add_basic_block (b.add_child_block_id s.block_id)),
      active_block := some ((mkBasicBlock s.block_id ins).add_parent_block_id
        b.block_id),
      instruction_id := k1, block_id := k2 } := by
  refine ⟨hInv.1, ?_, hInv.2.2.1, hInv.2.2.2.1, ?_, hInv.2.2.2.2.2.1, ?_, ?_⟩
  · intro h2
    injection h2
  · intro m2 hm2
    injection hm2 with hm2
    subst hm2
    have hc5 := inv4_amethod s hInv m hm
    rw [hb] at hc5
    exact recip_term_pair m.basic_blocks b s.block_id ins hc5
  · intro m2 hm2
    injection hm2 with hm2
    subst hm2
    refine tailParents_addblock m _ (inv4_atail s hInv m hm) ?_
    by_cases hp : b.parent_block_ids = []
    · obtain ⟨m0, hm0, hbb⟩ := inv4_apar s hInv b hb hp
      rw [hm] at hm0
      injection hm0 with hm0
      left
      rw [hm0]
      exact hbb
    · right
      show (b.add_child_block_id s.block_id).parent_block_ids ≠ []
      exact hp
  · intro b2 hb2 hp
    injection hb2 with hb2
    rw [← hb2] at hp
    exact absurd hp (by simp [mkBasicBlock, BasicBlock.add_parent_block_id])

theorem inv4_method_end (s : Graph) (m2 : Method)
    (hm2 : s.active_method = some m2) (hInv : Inv4 s) :
    Inv4 { s with active_method := some (m2.resolve_labels).1,
                  block_term := true } := by
  refine ⟨hInv.1, ?_, hInv.2.2.1, hInv.2.2.2.1, ?_, hInv.2.2.2.2.2.1, ?_, ?_⟩
  · intro h2
    injection h2
  · intro m3 hm3
    injection hm3 with hm3
    subst hm3
    exact resolve_labels_recip m2 (optList s.active_block)
      (inv4_amethod s hInv m2 hm2)
  · intro m3 hm3
    injection hm3 with hm3
    subst hm3
    exact tailParents_of_tpB _ (resolve_labels_tail m2
      (tpB_of_tailParents _ (inv4_atail s hInv m2 hm2)))
  · intro b hb hp
    obtain ⟨m0, hm0, hbb⟩ := inv4_apar s hInv b hb hp
    rw [hm2] at hm0
    injection hm0 with hm0
    refine ⟨(m2.resolve_labels).1, rfl, ?_⟩
    apply resolve_labels_nil
    rw [hm0]
    exact hbb

theorem inv4_method_start_none (s : Graph) (m1 : Method) (kb : Nat)
    (ins : Instruction) (k1 k2 k3 : Nat) (hm1 : m1.basic_blocks = [])
    (hInv : Inv4 s) :
    Inv4 { s with
      active_method := some m1,
      active_block := some (mkBasicBlock kb ins),
      method_id := k1,
      instruction_id := k2, block_id := k3, block_term := false } := by
  refine ⟨hInv.1, ?_, hInv.2.2.1, hInv.2.2.2.1, ?_, hInv.2.2.2.2.2.1, ?_, ?_⟩
  · intro h2
    injection h2
  · intro m2 hm2
    injection hm2 with hm2
    subst hm2
    show Recip (m1.basic_blocks ++ [mkBasicBlock kb ins])
    rw [hm1]
    exact recip_mk_single kb ins
  · intro m2 hm2
    injection hm2 with hm2
    subst hm2
    intro b hb
    rw [hm1] at hb
    simp at hb
  · intro b hb hp
    exact ⟨m1, rfl, hm1⟩

theorem inv4_method_start_prev (s : Graph) (cls : SmaliClass) (prevm : Method)
    (pb : BasicBlock) (m1 : Method) (kb : Nat) (ins : Instruction) (k1 k2 k3 : Nat)
    (hc : s.active_class = some cls) (hm : s.active_method = some prevm)
    (hb : s.active_block = some pb) (hm1 : m1.basic_blocks = [])
    (hInv : Inv4 s) :
    Inv4 { s with
      active_class := some (cls.add_method (prevm.add_basic_block pb)),
      active_method := some m1, active_block := some (mkBasicBlock kb ins),
      method_id := k1, instruction_id := k2, block_id := k3,
      block_term := false } := by
  have hcmem : cls ∈ stateClasses s := by
    unfold stateClasses
    rw [hc]
    simp [optList]
  have htp : tailParents (prevm.add_basic_block pb) := by
    refine tailParents_addblock prevm pb (inv4_atail s hInv prevm hm) ?_
    by_cases hp : pb.parent_block_ids = []
    · obtain ⟨m0, hm0, hbb⟩ := inv4_apar s hInv pb hb hp
      rw [hm] at hm0
      injection hm0 with hm0
      left
      rw [hm0]
      exact hbb
    · exact Or.inr hp
  refine ⟨hInv.1, ?_, hInv.2.2.1, ?_, ?_, ?_, ?_, ?_⟩
  · intro h2
    injection h2
  · intro c2 hc2
    injection hc2 with hc2
    subst hc2
    intro m hmm
    have hmm2 : m ∈ cls.methods ++ [prevm.add_basic_block pb] := hmm
    rcases List.mem_append.mp hmm2 with h2 | h2
    · exact inv4_aclass s hInv cls hc m h2
    · rw [List.mem_singleton] at h2
      subst h2
      have hc5 := inv4_amethod s hInv prevm hm
      rw [hb] at hc5
      exact hc5
  · intro m2 hm2
    injection hm2 with hm2
    subst hm2
    show Recip (m1.basic_blocks ++ [mkBasicBlock kb ins])
    rw [hm1]
    exact recip_mk_single kb ins
  · intro c2 hc2
    have hc2b : c2 ∈ s.classes ++ [cls.add_method (prevm.add_basic_block pb)] := hc2
    rcases List.mem_append.mp hc2b with h2 | h2
    · have hmem : c2 ∈ stateClasses s := by
        unfold stateClasses
        exact List.mem_append.mpr (Or.inl h2)
      exact inv4_tails s hInv c2 hmem
    · rw [List.mem_singleton] at h2
      subst h2
      intro m hmm
      have hmm2 : m ∈ cls.methods ++ [prevm.add_basic_block pb] := hmm
      rcases List.mem_append.mp hmm2 with h3 | h3
      · exact inv4_tails s hInv cls hcmem m h3
      · rw [List.mem_singleton] at h3
        subst h3
        exact htp
  · intro m2 hm2
    injection hm2 with hm2
    subst hm2
    intro b hb2
    rw [hm1] at hb2
    simp at hb2
  · intro b hb2 hp
    exact ⟨m1, rfl, hm1⟩

theorem tailParents_of_all (ms : List Method) (h : ms.all tpB = true) :
    ∀ m ∈ ms, tailParents m :=
  fun m hm => tailParents_of_tpB m (List.all_eq_true.mp h m hm)

theorem all_tpB_of_tails (ms : List Method) (h : ∀ m ∈ ms, tailParents m) :
    ms.all tpB = true :=
  List.all_eq_true.mpr (fun m hm => tpB_of_tailParents m (h m hm))

theorem inv4_flush (s s' : Graph) (h : flushFile s = .ok s') (hInv : Inv4 s) :
    Inv4 s' := by
  unfold flushFile at h
  split at h
  case h_1 => injection h
  case h_2 cls hcls =>
    split at h
    case h_1 => injection h
    case h_2 m hme =>
      have hcmem : cls ∈ stateClasses s := by
        unfold stateClasses
        rw [hcls]
        simp [optList]
      cases hab : s.active_block with
      | some b =>
        rw [hab] at h
        simp only [] at h
        split at h
        case h_1 => injection h
        case h_2 cls2 rep heq =>
          injection h with h
          subst h
          have hRm : Recip (mBlocks (cls.add_method
              (m.add_basic_block b)).methods) := by
            refine recip_mBlocks _ ?_
            intro m0 hm0
            have hm0b : m0 ∈ cls.methods ++ [m.add_basic_block b] := hm0
            rcases List.mem_append.mp hm0b with h2 | h2
            · exact inv4_aclass s hInv cls hcls m0 h2
            · rw [List.mem_singleton] at h2
              subst h2
              have hc5 := inv4_amethod s hInv m hme
              rw [hab] at hc5
              exact hc5
          have hTm : (cls.add_method (m.add_basic_block b)).methods.all
              tpB = true := by
            refine all_tpB_of_tails _ ?_
            intro m0 hm0
            have hm0b : m0 ∈ cls.methods ++ [m.add_basic_block b] := hm0
            rcases List.mem_append.mp hm0b with h2 | h2
            · exact inv4_tails s hInv cls hcmem m0 h2
            · rw [List.mem_singleton] at h2
              subst h2
              refine tailParents_addblock m b (inv4_atail s hInv m hme) ?_
              by_cases hp : b.parent_block_ids = []
              · obtain ⟨m0x, hm0x, hbbx⟩ := inv4_apar s hInv b hab hp
                rw [hme] at hm0x
                injection hm0x with hm0x
                left
                rw [hm0x]
                exact hbbx
              · exact Or.inr hp
          obtain ⟨hR2, hT2⟩ := resolve_local_c4 _ cls2 rep heq hRm hTm
          refine ⟨hInv.1, fun _ => rfl, ?_, ?_, ?_, ?_, ?_, ?_⟩
          · intro c2 hc2
            rcases List.mem_append.mp hc2 with h2 | h2
            · exact inv4_classes s hInv c2 h2
            · rw [List.mem_singleton] at h2
              subst h2
              exact hR2
          · intro c2 hc2
            injection hc2
          · intro m2 hm2
            injection hm2
          · intro c2 hc2
            have hc2b : c2 ∈ (s.classes ++ [cls2]) ++ [] := hc2
            rw [List.append_nil] at hc2b
            rcases List.mem_append.mp hc2b with h2 | h2
            · have hmem : c2 ∈ stateClasses s := by
                unfold stateClasses
                exact List.mem_append.mpr (Or.inl h2)
              exact inv4_tails s hInv c2 hmem
            · rw [List.mem_singleton] at h2
              subst h2
              exact tailParents_of_all _ hT2
          · intro m2 hm2
            injection hm2
          · intro b2 hb2
            injection hb2
      | none =>
        rw [hab] at h
        simp only [] at h
        split at h
        case h_1 => injection h
        case h_2 cls2 rep heq =>
          injection h with h
          subst h
          have hRm : Recip (mBlocks (cls.add_method m).methods) := by
            refine recip_mBlocks _ ?_
            intro m0 hm0
            have hm0b : m0 ∈ cls.methods ++ [m] := hm0
            rcases List.mem_append.mp hm0b with h2 | h2
            · exact inv4_aclass s hInv cls hcls m0 h2
            · rw [List.mem_singleton] at h2
              subst h2
              have hc5 := inv4_amethod s hInv m0 hme
              rw [hab] at hc5
              rw [show optList (none : Option BasicBlock) = [] from rfl,
                List.append_nil] at hc5
              exact hc5
          have hTm : (cls.add_method m).methods.all tpB = true := by
            refine all_tpB_of_tails _ ?_
            intro m0 hm0
            have hm0b : m0 ∈ cls.methods ++ [m] := hm0
            rcases List.mem_append.mp hm0b with h2 | h2
            · exact inv4_tails s hInv cls hcmem m0 h2
            · rw [List.mem_singleton] at h2
              subst h2
              exact inv4_atail s hInv m0 hme
          obtain ⟨hR2, hT2⟩ := resolve_local_c4 _ cls2 rep heq hRm hTm
          refine ⟨hInv.1, fun _ => rfl, ?_, ?_, ?_, ?_, ?_, ?_⟩
          · intro c2 hc2
            rcases List.mem_append.mp hc2 with h2 | h2
            · exact inv4_classes s hInv c2 h2
            · rw [List.mem_singleton] at h2
              subst h2
              exact hR2
          · intro c2 hc2
            injection hc2
          · intro m2 hm2
            injection hm2
          · intro c2 hc2
            have hc2b : c2 ∈ (s.classes ++ [cls2]) ++ [] := hc2
            rw [List.append_nil] at hc2b
            rcases List.mem_append.mp hc2b with h2 | h2
            · have hmem : c2 ∈ stateClasses s := by
                unfold stateClasses
                exact List.mem_append.mpr (Or.inl h2)
              exact inv4_tails s hInv c2 hmem
            · rw [List.mem_singleton] at h2
              subst h2
              exact tailParents_of_all _ hT2
          · intro m2 hm2
            injection hm2
          · intro b2 hb2
            injection hb2

theorem inv4_reset (s : Graph) (hInv : Inv4 s) :
    Inv4 { s with
      ANNOTATION_FLAG := false, FIELD_FLAG := false,
      SWITCH_FLAG := false, METHOD_FLAG := false, active_class := none,
      active_method := none, active_block := none } := by
  refine ⟨rfl, fun _ => rfl, hInv.2.2.1, ?_, ?_, ?_, ?_, ?_⟩
  · intro c hc
    injection hc
  · intro m hm
    injection hm
  · intro c2 hc2
    have hc2b : c2 ∈ s.classes ++ [] := hc2
    rw [List.append_nil] at hc2b
    have hmem : c2 ∈ stateClasses s := by
      unfold stateClasses
      exact List.mem_append.mpr (Or.inl hc2b)
    exact inv4_tails s hInv c2 hmem
  · intro m hm
    injection hm
  · intro b hb
    injection hb

theorem inv4_init : Inv4 (initGraph []) := by
  refine ⟨rfl, fun _ => rfl, ?_, ?_, ?_, ?_, ?_, ?_⟩
  · intro c hc
    simp [initGraph] at hc
  · intro c hc
    injection hc
  · intro m hm
    injection hm
  · intro c2 hc2
    simp [initGraph, stateClasses, optList] at hc2
  · intro m hm
    injection hm
  · intro b hb
    injection hb

theorem inv4_append_h (s : Graph) (ins : Instruction) (s' : Graph)
    (h : append_or_start s ins = .ok s') (m : Method) (b : BasicBlock)
    (hm : s.active_method = some m) (hb : s.active_block = some b)
    (hInv : Inv4 s) : Inv4 s' := inv4_append s ins s' m b hm hb h hInv

attribute [irreducible] Inv4

theorem inv4_region_annotation (instr : String) (s s' : Graph)
    (h : process_region_annotation instr s = .ok s') (hInv : Inv4 s) : Inv4 s' := by
  unfold process_region_annotation at h
  repeat' (first | split at h | simp only [] at h)
  all_goals
    first
      | (injection h with h; subst h;
         first
           | exact inv4_set_method s _ _ s.block_term (by assumption) (by rfl) hInv
           | exact inv4_set_class s _ _ s.file_list s.block_term (by assumption)
               (by rfl) hInv)
      | injection h

theorem inv4_region_field (instr : String) (s s' : Graph)
    (h : process_region_field instr s = .ok s') (hInv : Inv4 s) : Inv4 s' := by
  unfold process_region_field at h
  repeat' (first | split at h | simp only [] at h)
  all_goals
    first
      | (injection h with h; subst h;
         exact inv4_set_class s _ _ s.file_list s.block_term (by assumption)
           (by rfl) hInv)
      | injection h

theorem inv4_region_class (instr : String) (s s' : Graph)
    (h : process_region_class instr s = .ok s') (hInv : Inv4 s) : Inv4 s' := by
  unfold process_region_class at h
  repeat' (first | split at h | simp only [] at h)
  all_goals
    first
      | (injection h with h; subst h;
         first
           | exact hInv
           | exact inv4_new_class s _ _ (by rfl) hInv
           | exact inv4_set_class s _ _ s.file_list s.block_term (by assumption)
               (by rfl) hInv)
      | injection h

theorem inv4_region_method (instr : String) (ln : Nat) (s s' : Graph)
    (h : process_region_method instr ln s = .ok s') (hInv : Inv4 s) : Inv4 s' := by
  unfold process_region_method at h
  repeat' (first | split at h | simp only [] at h)
  all_goals
    first
      | (injection h with h; subst h;
         first
           | exact hInv
           | exact inv4_method_start_none s _ _ _ _ _ _ (by rfl) hInv
           | exact inv4_method_start_prev s _ _ _ _ _ _ _ _ _ (by assumption)
               (by assumption) (by assumption) (by rfl) hInv
           | exact inv4_method_end _ _ (by assumption)
               (inv4_append_h _ _ _ (by assumption) _ _ (by assumption)
                 (by assumption) (inv4_bump _ _ hInv))
           | exact inv4_label s _ _ _ _ _ (by assumption) (by assumption) hInv
           | exact inv4_bt _ _ (inv4_append_h _ _ _ (by assumption) _ _
               (by assumption) (by assumption) (inv4_bump _ _ hInv))
           | exact inv4_set_method _ _ _ _ (by assumption) (by rfl)
               (inv4_append_h _ _ _ (by assumption) _ _ (by assumption)
                 (by assumption) (inv4_bump _ _ hInv))
           | exact inv4_set_class _ _ _ _ _ (by assumption)
               (methods_add_invocation _ _ _ _ _ _ _ (by assumption))
               (inv4_append_h _ _ _ (by assumption) _ _ (by assumption)
                 (by assumption) (inv4_bump _ _ hInv)))
      | exact inv4_append_h _ _ _ h _ _ (by assumption) (by assumption)
          (inv4_bump _ _ hInv)
      | injection h

theorem inv4_process (instr : String) (ln : Nat) (s s' : Graph)
    (h : process_instruction instr ln s = .ok s') (hInv : Inv4 s) : Inv4 s' := by
  unfold process_instruction at h
  split at h
  case isTrue => exact inv4_region_annotation _ _ _ h hInv
  case isFalse =>
    split at h
    case isTrue => exact inv4_region_field _ _ _ h hInv
    case isFalse =>
      split at h
      case isTrue hswt =>
        rw [inv4_sw s hInv] at hswt
        exact absurd hswt (by simp)
      case isFalse =>
        split at h
        case isTrue => exact inv4_region_method _ _ _ _ h hInv
        case isFalse => exact inv4_region_class _ _ _ h hInv

theorem inv4_processLineDirective (instr : String) (n : Nat) (s s' : Graph)
    (h : processLineDirective instr n s = .ok s')
    (hsw1 : strStartsWith instr ".packed-switch" = false)
    (hsw2 : strStartsWith instr ".sparse-switch" = false)
    (hInv : Inv4 s) : Inv4 s' := by
  unfold processLineDirective at h
  split at h
  case isTrue hc =>
    rw [hsw1] at hc
    exact absurd hc (by simp)
  case isFalse =>
    split at h
    case isTrue =>
      split at h
      case h_1 => injection h
      case h_2 s2 heq =>
        injection h with h
        subst h
        exact inv4_swfalse _ (inv4_process _ _ _ _ heq hInv)
    case isFalse =>
      split at h
      case isTrue hc =>
        rw [hsw2] at hc
        exact absurd hc (by simp)
      case isFalse =>
        split at h
        case isTrue =>
          split at h
          case h_1 => injection h
          case h_2 s2 heq =>
            injection h with h
            subst h
            exact inv4_swfalse _ (inv4_process _ _ _ _ heq hInv)
        case isFalse =>
          split at h
          case isTrue =>
            exact inv4_process _ _ _ _ h (inv4_flags s s.ANNOTATION_FLAG false
              true hInv)
          case isFalse =>
            split at h
            case isTrue =>
              split at h
              case h_1 => injection h
              case h_2 s2 heq =>
                injection h with h
                subst h
                exact inv4_flags s2 s2.ANNOTATION_FLAG s2.FIELD_FLAG false
                  (inv4_process _ _ _ _ heq hInv)
            case isFalse => exact inv4_process _ _ _ _ h hInv

theorem inv4_processLine (s : Graph) (n : Nat) (raw : String) (s' : Graph)
    (h : processLine s n raw = .ok s') (hsw : lineNotSwitch raw = true)
    (hInv : Inv4 s) : Inv4 s' := by
  unfold lineNotSwitch at hsw
  rw [Bool.and_eq_true] at hsw
  have hsw1 : strStartsWith (lineText raw) ".packed-switch" = false := by
    have := hsw.1
    simp only [Bool.not_eq_true'] at this
    exact this
  have hsw2 : strStartsWith (lineText raw) ".sparse-switch" = false := by
    have := hsw.2
    simp only [Bool.not_eq_true'] at this
    exact this
  unfold processLine at h
  split at h
  case isTrue =>
    injection h with h
    subst h
    exact hInv
  case isFalse =>
    simp only [] at h
    split at h
    case isTrue =>
      exact inv4_process _ _ _ _ h (inv4_flags s true s.FIELD_FLAG
        s.METHOD_FLAG hInv)
    case isFalse =>
      split at h
      case isTrue =>
        split at h
        case h_1 => injection h
        case h_2 s2 heq =>
          injection h with h
          subst h
          exact inv4_flags s2 false s2.FIELD_FLAG s2.METHOD_FLAG
            (inv4_process _ _ _ _ heq hInv)
      case isFalse =>
        split at h
        case isTrue =>
          exact inv4_process _ _ _ _ h (inv4_flags s s.ANNOTATION_FLAG true
            s.METHOD_FLAG hInv)
        case isFalse =>
          split at h
          case isTrue =>
            split at h
            case h_1 => injection h
            case h_2 s2 heq =>
              injection h with h
              subst h
              exact inv4_flags s2 s2.ANNOTATION_FLAG false s2.METHOD_FLAG
                (inv4_process _ _ _ _ heq hInv)
          case isFalse =>
            exact inv4_processLineDirective _ _ _ _ h hsw1 hsw2 hInv

theorem inv4_processLines (l : List (Nat × String)) :
    ∀ s s', processLines s l = .ok s' →
      (∀ p ∈ l, lineNotSwitch p.2 = true) → Inv4 s → Inv4 s' := by
  induction l with
  | nil =>
    intro s s' h hl hInv
    injection h with h
    subst h
    exact hInv
  | cons p rest ih =>
    intro s s' h hl hInv
    obtain ⟨n, raw⟩ := p
    unfold processLines at h
    split at h
    case h_1 => injection h
    case h_2 s0 heq =>
      have hswr : lineNotSwitch raw = true := hl (n, raw) (by simp)
      exact ih s0 s' h (fun q hq => hl q (by simp [hq]))
        (inv4_processLine s n raw s0 heq hswr hInv)

theorem enumFrom_snd_mem (n : Nat) (lines : List String) :
    ∀ p ∈ enumFrom n lines, p.2 ∈ lines := by
  induction lines generalizing n with
  | nil => intro p hp; simp [enumFrom] at hp
  | cons l t ih =>
    intro p hp
    unfold enumFrom at hp
    rcases List.mem_cons.mp hp with h2 | h2
    · subst h2
      simp
    · simp only [List.mem_cons]
      exact Or.inr (ih (n + 1) p h2)

theorem inv4_runFile (s : Graph) (lines : List String) (s' : Graph)
    (h : runFile s lines = .ok s')
    (hsw : ∀ l ∈ lines, lineNotSwitch l = true) (hInv : Inv4 s) : Inv4 s' := by
  unfold runFile at h
  simp only [] at h
  split at h
  case h_1 => injection h
  case h_2 s1 heq =>
    refine inv4_flush s1 s' h (inv4_processLines _ _ _ heq ?_ (inv4_reset s hInv))
    intro p hp
    exact hsw p.2 (enumFrom_snd_mem 1 lines p hp)

theorem inv4_runFiles (fs : List (List String)) :
    ∀ s s', runFiles s fs = .ok s' →
      (∀ f ∈ fs, ∀ l ∈ f, lineNotSwitch l = true) → Inv4 s → Inv4 s' := by
  induction fs with
  | nil =>
    intro s s' h hl hInv
    injection h with h
    subst h
    exact hInv
  | cons f rest ih =>
    intro s s' h hl hInv
    unfold runFiles at h
    split at h
    case h_1 => injection h
    case h_2 s1 heq =>
      exact ih s1 s' h (fun g hg => hl g (by simp [hg]))
        (inv4_runFile s f s1 heq (hl f (by simp)) hInv)

theorem graphBlocks_eq_csBlocks (g : Graph) :
    graphBlocks g = csBlocks g.classes := by
  unfold graphBlocks csBlocks
  rw [List.flatMap_assoc]
  rfl

theorem ctpAll_of_tails (cs : List SmaliClass)
    (h : ∀ c ∈ cs, ∀ m ∈ c.methods, tailParents m) : ctpAll cs = true :=
  List.all_eq_true.mpr (fun c hc => all_tpB_of_tails _ (h c hc))

theorem tails_of_ctpAll (cs : List SmaliClass) (h : ctpAll cs = true) :
    ∀ c ∈ cs, ∀ m ∈ c.methods, tailParents m :=
  fun c hc => tailParents_of_all _ (List.all_eq_true.mp h c hc)

/-- Claim C4 (amended): on inputs containing no switch-data directives
(`.packed-switch` / `.sparse-switch` lines, whose dangling branch targets
refute the literal claim), the program produced by the full pipeline —
parsing followed by local, global and library resolution — has reciprocal
block-level edges: a pair `(p, c)` is recorded in some child list exactly
when it is recorded in some parent list; and every block that is not its
method's entry block has at least one parent. -/
theorem C4_theorem (files : List (List String)) (g : Graph)
    (hsw : ∀ f ∈ files, ∀ l ∈ f, lineNotSwitch l = true)
    (h : runProgram files = .ok g) :
    Recip (graphBlocks g) ∧ ∀ m ∈ graphMethods g, tailParents m := by
  unfold runProgram at h
  split at h
  case h_1 => injection h
  case h_2 s hrf =>
    have hInv := inv4_runFiles files (initGraph []) s hrf hsw inv4_init
    split at h
    case h_1 => injection h
    case h_2 cs2 rep hglob =>
      simp only [] at h
      injection h with h
      subst h
      have hR0 : Recip (csBlocks s.classes) :=
        recip_csBlocks _ (inv4_classes s hInv)
      have hT0 : ctpAll s.classes = true := by
        refine ctpAll_of_tails _ ?_
        intro c hc m hm
        have hmem : c ∈ stateClasses s := by
          unfold stateClasses
          exact List.mem_append.mpr (Or.inl hc)
        exact inv4_tails s hInv c hmem m hm
      obtain ⟨hR1, hT1⟩ := resolve_global_c4 s.classes cs2 rep hglob hR0 hT0
      obtain ⟨hR2, hT2⟩ :=
        resolve_library_c4 { s with classes := cs2 } hR1 hT1
      constructor
      · rw [graphBlocks_eq_csBlocks]
        exact hR2
      · intro m hm
        rcases List.mem_flatMap.mp hm with ⟨c, hc, hmc⟩
        exact tails_of_ctpAll _ hT2 c hc m hmc

theorem C4_witness :
    Recip (graphBlocks g1) ∧ ∀ m ∈ graphMethods g1, tailParents m :=
  C4_theorem [fileA] g1 (by decide) (by rfl)

end AndroCFG
